import Mathlib

/-! # ssp-backend, gluster API: volume naming, sizing and command orchestration

A shallow embedding of `glusterapi/gluster/*.go`.

Go strings are modelled as lists of characters (`Str`); the strings the
program handles are taken to be valid UTF-8 text, so that the byte-level
functions of package `strings` agree with their character-level models.
Go's `int` is the 64-bit two's-complement integer; it is modelled by `Int`
together with the explicit range `minInt .. maxInt` and the wrap-around
`wrapInt`.  A Go `error` is modelled by `Option GoError` (`none` is `nil`).
Calls to `log.Println` / `log.Printf` have no effect on any value the program
computes and are left out.
-/

set_option autoImplicit false

namespace Gluster

/-- Go `string`, as a list of characters. -/
abbrev Str := List Char

deriving instance DecidableEq for Except

/-! ## Package `strings` -/

/-- Model of `strings.HasSuffix(s, suffix)`. -/
def hasSuffix (s suf : Str) : Bool := suf.reverse.isPrefixOf s.reverse

/-- Model of `strings.Contains(s, substr)`: some tail of `s` starts with `substr`. -/
def contains : Str → Str → Bool
  | [], sub => sub.isPrefixOf []
  | c :: cs, sub => sub.isPrefixOf (c :: cs) || contains cs sub

/-- Number of non-overlapping occurrences of a non-empty `sub`, scanning from the left;
`fuel` bounds the number of scanning steps. -/
def countFrom (sub : Str) : Nat → Str → Nat
  | 0, _ => 0
  | _ + 1, [] => 0
  | fuel + 1, c :: cs =>
    if sub.isPrefixOf (c :: cs) then 1 + countFrom sub fuel ((c :: cs).drop sub.length)
    else countFrom sub fuel cs

/-- Model of `strings.Count(s, substr)`: the number of non-overlapping instances of
`substr` in `s`; for an empty `substr` it is the number of characters plus one. -/
def count (s sub : Str) : Nat :=
  if sub = [] then s.length + 1 else countFrom sub (s.length + 1) s

/-- Model of `strings.Replace(s, old, new, 1)`: the first occurrence of `old` is replaced
(an empty `old` matches at the very beginning). -/
def replaceFirst (old new : Str) : Str → Str
  | [] => if old.isPrefixOf [] then new else []
  | c :: cs =>
    if old.isPrefixOf (c :: cs) then new ++ (c :: cs).drop old.length
    else c :: replaceFirst old new cs

/-- Replace every non-overlapping occurrence of a non-empty `old`, scanning from the left. -/
def replaceAllFrom (old new : Str) : Nat → Str → Str
  | 0, s => s
  | _ + 1, [] => []
  | fuel + 1, c :: cs =>
    if old.isPrefixOf (c :: cs) then new ++ replaceAllFrom old new fuel ((c :: cs).drop old.length)
    else c :: replaceAllFrom old new fuel cs

/-- Model of `strings.Replace(s, old, new, -1)`; an empty `old` matches before every
character and at the end. -/
def replaceAll (old new s : Str) : Str :=
  if old = [] then new ++ s.flatMap (fun c => c :: new)
  else replaceAllFrom old new (s.length + 1) s

/-- Model of `strings.Split(s, "\n")`. -/
def splitLines : Str → List Str
  | [] => [[]]
  | c :: cs =>
    if c = '\n' then [] :: splitLines cs
    else
      match splitLines cs with
      | [] => [[c]]
      | l :: ls => (c :: l) :: ls

/-- White space as defined by `unicode.IsSpace`. -/
def isSpace (c : Char) : Bool :=
  c = '\t' || c = '\n' || c = '\x0b' || c = '\x0c' || c = '\r' || c = ' ' ||
  c.toNat = 0x85 || c.toNat = 0xA0 || c.toNat = 0x1680 ||
  (0x2000 ≤ c.toNat && c.toNat ≤ 0x200a) ||
  c.toNat = 0x2028 || c.toNat = 0x2029 || c.toNat = 0x202f || c.toNat = 0x205f ||
  c.toNat = 0x3000

/-- Model of `strings.TrimSpace(s)`. -/
def trimSpace (s : Str) : Str :=
  ((s.dropWhile isSpace).reverse.dropWhile isSpace).reverse

/-! ## Package `strconv` and `fmt` on integers -/

/-- Largest value of a Go `int` (64 bit). -/
def maxInt : Int := 2 ^ 63 - 1

/-- Smallest value of a Go `int` (64 bit). -/
def minInt : Int := -(2 ^ 63)

/-- Two's-complement wrap-around of an integer result into the range of `int`. -/
def wrapInt (z : Int) : Int := (z + 2 ^ 63) % 2 ^ 64 - 2 ^ 63

/-- ASCII decimal digit, the class `\d` of Go regular expressions and the digits
accepted by `strconv.Atoi`. -/
def isDigit (c : Char) : Bool := '0'.toNat ≤ c.toNat && c.toNat ≤ '9'.toNat

/-- Value of a digit character. -/
def digitVal (c : Char) : Nat := c.toNat - '0'.toNat

/-- Value of a string of decimal digits. -/
def digitsVal (ds : Str) : Nat := ds.foldl (fun acc c => 10 * acc + digitVal c) 0

/-- The two errors of `strconv.Atoi`: `ErrSyntax` and `ErrRange`. -/
inductive AtoiErr
  | syntaxErr
  | rangeErr
  deriving DecidableEq, Repr

/-- Parse the digits of `strconv.Atoi` after the optional sign has been removed. -/
def atoiDigits (neg : Bool) (ds : Str) : Except AtoiErr Int :=
  if ds = [] then .error .syntaxErr
  else if ds.all isDigit then
    let n : Int := digitsVal ds
    if neg then (if n ≤ 2 ^ 63 then .ok (-n) else .error .rangeErr)
    else (if n ≤ maxInt then .ok n else .error .rangeErr)
  else .error .syntaxErr

/-- Model of `strconv.Atoi(s)`: an optional `+` or `-`, then one or more decimal
digits, whose value has to fit `int`. -/
def atoi : Str → Except AtoiErr Int
  | [] => .error .syntaxErr
  | c :: cs =>
    if c = '+' then atoiDigits false cs
    else if c = '-' then atoiDigits true cs
    else atoiDigits false (c :: cs)

/-- The character of a digit `d < 10`. -/
def digitChar (d : Nat) : Char := Char.ofNat ('0'.toNat + d)

/-- Decimal digits of a natural number, most significant first. -/
def natDigits : Nat → Nat → Str → Str
  | 0, _, acc => acc
  | fuel + 1, n, acc =>
    if n < 10 then digitChar n :: acc
    else natDigits fuel (n / 10) (digitChar (n % 10) :: acc)

/-- Decimal rendering of a natural number (`fmt.Sprintf("%v", n)` for `n ≥ 0`). -/
def natToStr (n : Nat) : Str := natDigits (n + 1) n []

/-- Model of `fmt.Sprintf("%v", z)` for an `int`. -/
def intToStr (z : Int) : Str :=
  if z < 0 then '-' :: natToStr z.natAbs else natToStr z.natAbs

/-! ## Package `regexp`: the pattern `(\d+)` -/

/-- Scan for the maximal runs of decimal digits; `cur` is the run being read. -/
def digitRunsFrom : Str → Str → List Str
  | cur, [] => if cur = [] then [] else [cur]
  | cur, c :: cs =>
    if isDigit c then digitRunsFrom (cur ++ [c]) cs
    else if cur = [] then digitRunsFrom [] cs
    else cur :: digitRunsFrom [] cs

/-- Model of `regexp.MustCompile("(\\d+)").FindAllString(s, -1)`: the successive
leftmost-longest runs of decimal digits of `s` (the empty list stands for `nil`). -/
def findAllNumbers (s : Str) : List Str := digitRunsFrom [] s

/-! ## Errors, configuration and the outside world -/

/-- A Go `error` value of this package: a message made by `errors.New` / `fmt.Errorf`,
or the `*strconv.NumError` of a failed `strconv.Atoi`. -/
inductive GoError
  | text (msg : Str)
  | numError (num : Str) (cause : AtoiErr)
  deriving DecidableEq, Repr

/-- Result of a call that returns `(value, error)` and may also panic. -/
inductive Outcome (α : Type)
  | ok (a : α)
  | error (e : GoError)
  | panic
  deriving DecidableEq, Repr

/-- The package-level configuration variables of `common.go`. -/
structure Config where
  MaxGB : Int
  Replicas : Int
  Port : Int
  PoolName : Str
  VgName : Str
  BasePath : Str
  Secret : Str
  deriving DecidableEq, Repr

/-- The constant `MaxMB` of `common.go`. -/
def MaxMB : Int := 1024

/-- The format `suffixWrongError` of `newvolumes.go`, applied to the size sent. -/
def suffixWrongError (size : Str) : GoError :=
  .text ("Invalid size. Size must be int followed by suffix (e.g. 100M). Allowed suffixes are 'G/M'. You sent: ".toList ++ size)

/-- The constant `commandExecutionError` of `newvolumes.go`. -/
def commandExecutionError : Str := "Error running command, see logs for details".toList

/-- JSON body of a request to a peer: `models.CreateLVCommand` or
`models.DeleteVolumeCommand`. -/
inductive Payload
  | createLV (size mountPoint lvName : Str)
  | deleteLV (lvName : Str)
  deriving DecidableEq, Repr

/-- An HTTP request with basic authentication, as built by `http.NewRequest` and
`SetBasicAuth`. -/
structure HttpRequest where
  method : Str
  url : Str
  user : Str
  password : Str
  body : Payload
  deriving DecidableEq, Repr

/-- An address returned by `net.LookupIP`, with the answers of `IsLoopback`,
`To4() != nil` and `String()`. -/
structure IPAddr where
  isLoopback : Bool
  isV4 : Bool
  text : Str
  deriving DecidableEq, Repr

/-- What the program does to the outside world, in the order it does it. -/
inductive Event
  | exec (command : Str) (args : List Str)
  | http (req : HttpRequest)
  deriving DecidableEq, Repr

/-- The collaborators of the package, over an arbitrary state `σ` of the outside world:
`run` is `ExecRunner.Run` (output and, on failure, the text of the error), `httpDo` is
`(&http.Client{}).Do` (`none` when the call returns an error, else the status code),
`hostname` is `os.Hostname` and `lookupIP` is `net.LookupIP` (`none` on error).
`newRequest` tells for a URL whether `http.NewRequest("POST", url, body)` returns a
request: it returns `nil` and an error for a URL that `url.Parse` refuses, such as one
with a blank in the host. -/
structure Env (σ : Type) where
  run : σ → Str → List Str → σ × Str × Option Str
  httpDo : σ → HttpRequest → σ × Option Nat
  hostname : σ → Option Str
  lookupIP : σ → Str → Option (List IPAddr)
  newRequest : Str → Bool

/-- State of the outside world together with the calls made so far. -/
structure World (σ : Type) where
  st : σ
  trace : List Event

variable {σ : Type}

/-- A call of `ExecRunner.Run(command, args...)`, recorded in the trace. -/
def World.run (env : Env σ) (w : World σ) (command : Str) (args : List Str) :
    World σ × Str × Option Str :=
  let r := env.run w.st command args
  (⟨r.1, w.trace ++ [.exec command args]⟩, r.2.1, r.2.2)

/-- A call of `client.Do(req)`, recorded in the trace. -/
def World.httpDo (env : Env σ) (w : World σ) (req : HttpRequest) : World σ × Option Nat :=
  let r := env.httpDo w.st req
  (⟨r.1, w.trace ++ [.http req]⟩, r.2)

/-! ## `executors.go` -/

/-- The exemption of `executeCommandsLocally`: a failing `lvextend` whose error text
contains `exit status 5` is fine. -/
def exempt (c errText : Str) : Bool :=
  contains c "lvextend".toList && contains errText "exit status 5".toList

/-- Embedding of `executeCommandsLocally`. -/
def executeCommandsLocally (env : Env σ) : World σ → List Str → World σ × Option GoError
  | w, [] => (w, none)
  | w, c :: cs =>
    match w.run env "bash".toList ["-c".toList, c] with
    | (w1, _, some e) =>
      if !(exempt c e) then (w1, some (.text commandExecutionError))
      else executeCommandsLocally env w1 cs
    | (w1, _, none) => executeCommandsLocally env w1 cs

/-! ## `common.go` -/

/-- The loop of `getGlusterPeerServers` over the lines of the peer status. -/
def peerServersOfLines : List Str → List Str
  | [] => []
  | l :: ls =>
    if l.length > 0 then
      trimSpace (replaceAll "Hostname: ".toList [] l) :: peerServersOfLines ls
    else peerServersOfLines ls

/-- The shell command of `getGlusterPeerServers`. -/
def peerStatusCmd : Str := "gluster peer status | grep Hostname".toList

/-- Embedding of `getGlusterPeerServers`. -/
def getGlusterPeerServers (env : Env σ) (w : World σ) : World σ × Except GoError (List Str) :=
  match w.run env "bash".toList ["-c".toList, peerStatusCmd] with
  | (w1, _, some _) => (w1, .error (.text commandExecutionError))
  | (w1, out, none) => (w1, .ok (peerServersOfLines (splitLines out)))

/-- The loop of `getLocalServersIP` over the addresses of the host. -/
def firstNonLoopbackV4 : List IPAddr → Except GoError Str
  | [] => .error (.text commandExecutionError)
  | a :: rest =>
    if !a.isLoopback then
      if a.isV4 then .ok a.text else firstNonLoopbackV4 rest
    else firstNonLoopbackV4 rest

/-- Embedding of `getLocalServersIP`. -/
def getLocalServersIP (env : Env σ) (w : World σ) : Except GoError Str :=
  match env.hostname w.st with
  | none => .error (.text commandExecutionError)
  | some host =>
    match env.lookupIP w.st host with
    | none => .error (.text commandExecutionError)
    | some ips => firstNonLoopbackV4 ips

/-! ## `newvolumes.go` -/

/-- Embedding of `validateSizeInput`. -/
def validateSizeInput (cfg : Config) (size : Str) : Option GoError :=
  if hasSuffix size "M".toList then
    match atoi (replaceFirst "M".toList [] size) with
    | .error _ => some (suffixWrongError size)
    | .ok sizeInt =>
      if sizeInt ≤ MaxMB then none
      else some (.text "Your size is to big for suffix 'M' use 'G' instead".toList)
  else if hasSuffix size "G".toList then
    match atoi (replaceFirst "G".toList [] size) with
    | .error _ => some (suffixWrongError size)
    | .ok sizeInt =>
      if sizeInt > cfg.MaxGB then
        some (.text ("Max allowed size exceeded. Max allowed is: ".toList ++ intToStr cfg.MaxGB ++ "G".toList))
      else none
  else some (suffixWrongError size)

/-- The text `"lv_"+project` that `getNextVolumeNrForProject` looks for. -/
def lvNeedle (project : Str) : Str := "lv_".toList ++ project

/-- The loop of `getNextVolumeNrForProject` over the lines of the listing; `maxNr` is the
highest number seen so far.  A line that contains the needle and has no digits makes
`nums[len(nums)-1]` panic (index out of range). -/
def maxVolumeNr (project : Str) : List Str → Int → Outcome Int
  | [], maxNr => .ok maxNr
  | l :: ls, maxNr =>
    let l1 := trimSpace l
    if contains l1 (lvNeedle project) then
      match (findAllNumbers l1).getLast? with
      | none => .panic
      | some num =>
        match atoi num with
        | .error e => .error (.numError num e)
        | .ok nr => maxVolumeNr project ls (if nr > maxNr then nr else maxNr)
    else maxVolumeNr project ls maxNr

/-- The part of `getNextVolumeNrForProject` that follows the `lvs` call: from the output
`out` of `lvs -o lv_name` to the next volume number. -/
def nextVolumeNrOfListing (project out : Str) : Outcome Int :=
  if count out (lvNeedle project) = 0 then .ok 1
  else
    match maxVolumeNr project (splitLines out) 0 with
    | .ok maxNr =>
      if maxNr = 0 then .error (.text commandExecutionError)
      else .ok (wrapInt (maxNr + 1))
    | .error e => .error e
    | .panic => .panic

/-- The shell command of `getNextVolumeNrForProject`. -/
def lvsCmd : Str := "lvs -o lv_name".toList

/-- Embedding of `getNextVolumeNrForProject`. -/
def getNextVolumeNrForProject (env : Env σ) (w : World σ) (project : Str) :
    World σ × Outcome Int :=
  match w.run env "bash".toList ["-c".toList, lvsCmd] with
  | (w1, _, some _) => (w1, .error (.text commandExecutionError))
  | (w1, out, none) => (w1, nextVolumeNrOfListing project out)

/-- The command list of `createLvOnPool`. -/
def createLvCommands (cfg : Config) (size mountPoint lvName : Str) : List Str :=
  [ "mkdir -p ".toList ++ mountPoint,
    "lvcreate -V ".toList ++ size ++ " -T ".toList ++ cfg.VgName ++ "/".toList ++ cfg.PoolName
      ++ " -n ".toList ++ lvName,
    "mkfs.xfs -i size=512 -n size=8192 /dev/".toList ++ cfg.VgName ++ "/".toList ++ lvName,
    "echo \"/dev/".toList ++ cfg.VgName ++ "/".toList ++ lvName ++ " ".toList ++ mountPoint
      ++ " xfs rw,inode64,noatime,nouuid 1 2\" | tee -a /etc/fstab > /dev/null ".toList,
    "mount -o rw,inode64,noatime,nouuid /dev/".toList ++ cfg.VgName ++ "/".toList ++ lvName
      ++ " ".toList ++ mountPoint,
    "mkdir ".toList ++ mountPoint ++ "/brick".toList,
    "semanage fcontext -a -t glusterd_brick_t ".toList ++ mountPoint ++ "/brick".toList,
    "restorecon -Rv ".toList ++ mountPoint ++ "/brick".toList,
    "chown nfsnobody.nfsnobody ".toList ++ mountPoint ++ "/brick".toList,
    "chmod 777 ".toList ++ mountPoint ++ "/brick".toList ]

/-- Embedding of `createLvOnPool`. -/
def createLvOnPool (env : Env σ) (cfg : Config) (w : World σ) (size mountPoint lvName : Str) :
    World σ × Option GoError :=
  executeCommandsLocally env w (createLvCommands cfg size mountPoint lvName)

/-- The request `createLvOnOtherServers` sends to the peer `r`. -/
def createLvRequest (cfg : Config) (size mountPoint lvName r : Str) : HttpRequest :=
  { method := "POST".toList,
    url := "http://".toList ++ r ++ ":".toList ++ intToStr cfg.Port ++ "/sec/lv".toList,
    user := "GLUSTER_API".toList,
    password := cfg.Secret,
    body := .createLV size mountPoint lvName }

/-- A returned `error` as the outcome of a call without a value. -/
def errorOutcome : Option GoError → Outcome Unit
  | none => .ok ()
  | some e => .error e

/-- The loop of `createLvOnOtherServers` and of `deleteLvOnOtherServers` over the peers:
one request per peer, stopping at the first peer that does not answer 200 (`.ok ()` is
`nil`).  Encoding the body as JSON cannot fail for these structures of strings.  The
error of `http.NewRequest` is discarded: when no request can be built for the URL of a
peer, `req` is nil and `req.SetBasicAuth` panics (nil pointer dereference) before
anything is sent to that peer. -/
def callPeers (env : Env σ) (mkReq : Str → HttpRequest) :
    World σ → List Str → World σ × Outcome Unit
  | w, [] => (w, .ok ())
  | w, r :: rs =>
    if env.newRequest (mkReq r).url then
      match w.httpDo env (mkReq r) with
      | (w1, some status) =>
        if status ≠ 200 then (w1, .error (.text commandExecutionError))
        else callPeers env mkReq w1 rs
      | (w1, none) => (w1, .error (.text commandExecutionError))
    else (w, .panic)

/-- Embedding of `createLvOnOtherServers`. -/
def createLvOnOtherServers (env : Env σ) (cfg : Config) (w : World σ)
    (size mountPoint lvName : Str) : World σ × Outcome Unit :=
  match getGlusterPeerServers env w with
  | (w1, .error e) => (w1, .error e)
  | (w1, .ok remotes) => callPeers env (createLvRequest cfg size mountPoint lvName) w1 remotes

/-- Embedding of `createLvOnAllServers`. -/
def createLvOnAllServers (env : Env σ) (cfg : Config) (w : World σ)
    (size mountPoint lvName : Str) : World σ × Outcome Unit :=
  match createLvOnOtherServers env cfg w size mountPoint lvName with
  | (w1, .error e) => (w1, .error e)
  | (w1, .panic) => (w1, .panic)
  | (w1, .ok _) =>
    ((createLvOnPool env cfg w1 size mountPoint lvName).1,
      errorOutcome (createLvOnPool env cfg w1 size mountPoint lvName).2)

/-- The text `"%v:%v/brick "` for every server, as appended to `volCmd`. -/
def brickList (mountPoint : Str) : List Str → Str
  | [] => []
  | r :: rs => r ++ ":".toList ++ mountPoint ++ "/brick ".toList ++ brickList mountPoint rs

/-- The command list of `createGlusterVolume`. -/
def glusterVolumeCommands (cfg : Config) (project : Str) (pvNumber : Int) (mountPoint : Str)
    (servers : List Str) : List Str :=
  let vol := "vol_".toList ++ project ++ "_pv".toList ++ intToStr pvNumber
  [ "gluster volume create ".toList ++ vol ++ " replica ".toList ++ intToStr cfg.Replicas
      ++ " ".toList ++ brickList mountPoint servers ++ "--mode=script".toList,
    "gluster volume start ".toList ++ vol,
    "gluster volume set ".toList ++ vol ++ " user.smb disable".toList,
    "gluster volume set ".toList ++ vol ++ " user.cifs disable".toList ]

/-- Embedding of `createGlusterVolume`. -/
def createGlusterVolume (env : Env σ) (cfg : Config) (w : World σ) (project : Str)
    (pvNumber : Int) (mountPoint : Str) : World σ × Option GoError :=
  match getGlusterPeerServers env w with
  | (w1, .error e) => (w1, some e)
  | (w1, .ok servers) =>
    match getLocalServersIP env w1 with
    | .error e => (w1, some e)
    | .ok localIP =>
      executeCommandsLocally env w1
        (glusterVolumeCommands cfg project pvNumber mountPoint (servers ++ [localIP]))

/-- Embedding of `createVolume`. -/
def createVolume (env : Env σ) (cfg : Config) (w : World σ) (project size : Str) :
    World σ × Outcome Str :=
  if size.length = 0 || project.length = 0 then
    (w, .error (.text "Not all input values provided".toList))
  else
    match validateSizeInput cfg size with
    | some e => (w, .error e)
    | none =>
      match getNextVolumeNrForProject env w project with
      | (w1, .error e) => (w1, .error e)
      | (w1, .panic) => (w1, .panic)
      | (w1, .ok pvNumber) =>
        let mountPoint := cfg.BasePath ++ "/".toList ++ project ++ "/pv".toList ++ intToStr pvNumber
        let lvName := "lv_".toList ++ project ++ "_pv".toList ++ intToStr pvNumber
        match createLvOnAllServers env cfg w1 size mountPoint lvName with
        | (w2, .error e) => (w2, .error e)
        | (w2, .panic) => (w2, .panic)
        | (w2, .ok _) =>
          match createGlusterVolume env cfg w2 project pvNumber mountPoint with
          | (w3, some e) => (w3, .error e)
          | (w3, none) => (w3, .ok (project ++ "_pv".toList ++ intToStr pvNumber))

/-! ## `deletevolume.go` -/

/-- Embedding of `getMountPath`. -/
def getMountPath (cfg : Config) (volName : Str) : Str :=
  let basePath := replaceFirst "vol_".toList (cfg.BasePath ++ "/".toList) volName
  replaceFirst "_pv".toList "/pv".toList basePath

/-- The command list of `deleteLvLocally`. -/
def deleteLvCommands (cfg : Config) (volName : Str) : List Str :=
  let mountPath := getMountPath cfg volName
  let lvName := replaceFirst "vol_".toList "lv_".toList volName
  [ "sed -i '\\#/dev/".toList ++ cfg.VgName ++ "/".toList ++ lvName ++ "#d' /etc/fstab".toList,
    "umount ".toList ++ mountPath,
    "lvremove --yes /dev/".toList ++ cfg.VgName ++ "/".toList ++ lvName,
    "rmdir --parents --ignore-fail-on-non-empty ".toList ++ mountPath ]

/-- Embedding of `deleteLvLocally`. -/
def deleteLvLocally (env : Env σ) (cfg : Config) (w : World σ) (volName : Str) :
    World σ × Option GoError :=
  executeCommandsLocally env w (deleteLvCommands cfg volName)

/-- The request `deleteLvOnOtherServers` sends to the peer `r`. -/
def deleteLvRequest (cfg : Config) (lvName r : Str) : HttpRequest :=
  { method := "POST".toList,
    url := "http://".toList ++ r ++ ":".toList ++ intToStr cfg.Port ++ "/sec/lv/delete".toList,
    user := "GLUSTER_API".toList,
    password := cfg.Secret,
    body := .deleteLV lvName }

/-- Embedding of `deleteLvOnOtherServers`. -/
def deleteLvOnOtherServers (env : Env σ) (cfg : Config) (w : World σ) (lvName : Str) :
    World σ × Outcome Unit :=
  match getGlusterPeerServers env w with
  | (w1, .error e) => (w1, .error e)
  | (w1, .ok remotes) => callPeers env (deleteLvRequest cfg lvName) w1 remotes

/-- Embedding of `deleteLvOnAllServers`. -/
def deleteLvOnAllServers (env : Env σ) (cfg : Config) (w : World σ) (lvName : Str) :
    World σ × Outcome Unit :=
  match deleteLvOnOtherServers env cfg w lvName with
  | (w1, .error e) => (w1, .error e)
  | (w1, .panic) => (w1, .panic)
  | (w1, .ok _) =>
    ((deleteLvLocally env cfg w1 lvName).1, errorOutcome (deleteLvLocally env cfg w1 lvName).2)

/-- Embedding of `deleteGlusterVolume`. -/
def deleteGlusterVolume (env : Env σ) (w : World σ) (volName : Str) : World σ × Option GoError :=
  executeCommandsLocally env w
    [ "gluster volume stop ".toList ++ volName ++ " --mode=script".toList,
      "gluster volume delete ".toList ++ volName ++ " --mode=script".toList ]

/-- Embedding of `deleteVolume` (`.ok ()` is `nil`). -/
def deleteVolume (env : Env σ) (cfg : Config) (w : World σ) (volName : Str) :
    World σ × Outcome Unit :=
  if volName.length = 0 then (w, .error (.text "Not all input values provided".toList))
  else
    match deleteGlusterVolume env w volName with
    | (w1, some e) => (w1, .error e)
    | (w1, none) => deleteLvOnAllServers env cfg w1 volName

/-! ## The test doubles of `common_test.go` -/

/-- A URL without a blank.  `url.Parse`, and with it `http.NewRequest`, refuses a URL
with a blank in the host; the environments of the examples refuse the URLs with a
blank. -/
def noBlank (url : Str) : Bool := url.all (fun c => c != ' ')

/-- The `TestRunner` of `common_test.go`: every call succeeds and returns the next
scripted output (the state is the variable `output`), or the empty output when none is
left.  Requests are answered by a responder that returns 200 for every URL, as the
`httpmock` responders registered in the tests do for theirs.  The host has the loopback
address and the address `10.0.0.5`. -/
def testEnv : Env (List Str) where
  run := fun output _ _ =>
    match output with
    | [] => ([], [], none)
    | current :: rest => (rest, current, none)
  httpDo := fun output _ => (output, some 200)
  hostname := fun _ => some "localhost".toList
  lookupIP := fun _ _ => some [⟨true, true, "127.0.0.1".toList⟩, ⟨false, true, "10.0.0.5".toList⟩]
  newRequest := noBlank

/-- A configuration as the tests set it. -/
def testConfig : Config :=
  { MaxGB := 100, Replicas := 2, Port := 0, PoolName := [], VgName := "vgname".toList,
    BasePath := "/basepath".toList, Secret := [] }

/-! ## Vocabulary of the specification -/

/-- The call `bash -c <cmd>` as an event. -/
def bashC (c : Str) : Event := .exec "bash".toList ["-c".toList, c]

/-- State of the outside world after `bash -c` has been run on each of `cmds` in turn. -/
def runAll (env : Env σ) : σ → List Str → σ
  | st, [] => st
  | st, c :: cs => runAll env (env.run st "bash".toList ["-c".toList, c]).1 cs

/-- Running `bash -c c` in state `st` fails with an error that is not exempt. -/
def failsFatally (env : Env σ) (st : σ) (c : Str) : Bool :=
  match (env.run st "bash".toList ["-c".toList, c]).2.2 with
  | some e => !(exempt c e)
  | none => false

/-- The command at position `i` of `cmds` fails with a non-exempt error when it is run
after the commands before it. -/
def fatalAt (env : Env σ) (st : σ) (cmds : List Str) (i : Nat) : Bool :=
  match cmds[i]? with
  | none => false
  | some c => failsFatally env (runAll env st (cmds.take i)) c

/-- What a command sequence has to do: run everything and return `nil` when no command
fails fatally, and otherwise run the commands up to and including the first fatal one
and return the generic error. -/
def RunsUntilFirstFatal (env : Env σ) (w : World σ) (cmds : List Str)
    (r : World σ × Option GoError) : Prop :=
  ((∀ i, fatalAt env w.st cmds i = false) ∧
      r.1.st = runAll env w.st cmds ∧
      r.1.trace = w.trace ++ cmds.map bashC ∧ r.2 = none) ∨
  (∃ k, fatalAt env w.st cmds k = true ∧ (∀ j, j < k → fatalAt env w.st cmds j = false) ∧
      r.1.trace = w.trace ++ (cmds.take (k + 1)).map bashC ∧
      r.2 = some (.text commandExecutionError))

/-- State of the outside world after each of the requests `reqs` has been sent in turn. -/
def httpAll (env : Env σ) : σ → List HttpRequest → σ
  | st, [] => st
  | st, r :: rs => httpAll env (env.httpDo st r).1 rs

/-- The request at position `i` of `reqs`, sent after the requests before it, is not
answered with status 200 (the peer is unreachable or answers with another status). -/
def peerFailsAt (env : Env σ) (st : σ) (reqs : List HttpRequest) (i : Nat) : Bool :=
  match reqs[i]? with
  | none => false
  | some r => (env.httpDo (httpAll env st (reqs.take i)) r).2 != some 200

/-- No request can be built for the position `i` of `reqs`: `http.NewRequest` refuses
the URL. -/
def cannotBuildAt (env : Env σ) (reqs : List HttpRequest) (i : Nat) : Bool :=
  match reqs[i]? with
  | none => false
  | some r => !env.newRequest r.url

/-- The calls to the peers stop at a peer: for some position `k`, every request before
it is built and answered with 200, and either no request can be built for `k`, nothing is
sent to `k` and the call panics, or the request for `k` is sent and not answered with
200, and the generic error is returned.  `before` is the trace before the calls. -/
def StopsAtPeer (env : Env σ) (st : σ) (before : List Event) (reqs : List HttpRequest)
    (r : World σ × Outcome Unit) : Prop :=
  ∃ k, (∀ j, j < k → cannotBuildAt env reqs j = false ∧ peerFailsAt env st reqs j = false) ∧
    ((cannotBuildAt env reqs k = true ∧
        r.1.trace = before ++ (reqs.take k).map Event.http ∧ r.2 = .panic) ∨
     (cannotBuildAt env reqs k = false ∧ peerFailsAt env st reqs k = true ∧
        r.1.trace = before ++ (reqs.take (k + 1)).map Event.http ∧
        r.2 = .error (.text commandExecutionError)))

/-- Every request of `reqs` is built and answered with 200. -/
def AllPeersAnswer (env : Env σ) (st : σ) (reqs : List HttpRequest) : Prop :=
  ∀ i, cannotBuildAt env reqs i = false ∧ peerFailsAt env st reqs i = false

/-- What a fan-out over the peers does, for the request `mkReq` sent to each peer and
the local commands `cmds`: it asks for the peers; when that fails it returns the generic
error; otherwise it sends the requests in discovery order and stops at the first peer for
which no request can be built (panic) or whose request is not answered with 200 (generic
error), or, when all are answered with 200, it goes on with the local commands. -/
def FansOut (env : Env σ) (w : World σ) (mkReq : Str → HttpRequest) (cmds : List Str)
    (r : World σ × Outcome Unit) : Prop :=
  match env.run w.st "bash".toList ["-c".toList, peerStatusCmd] with
  | (_, _, some _) =>
    r.1.trace = w.trace ++ [bashC peerStatusCmd] ∧ r.2 = .error (.text commandExecutionError)
  | (st1, out, none) =>
    let reqs := (peerServersOfLines (splitLines out)).map mkReq
    let contacted := w.trace ++ [bashC peerStatusCmd] ++ reqs.map Event.http
    StopsAtPeer env st1 (w.trace ++ [bashC peerStatusCmd]) reqs r ∨
    (AllPeersAnswer env st1 reqs ∧
        r = ((executeCommandsLocally env ⟨httpAll env st1 reqs, contacted⟩ cmds).1,
          errorOutcome (executeCommandsLocally env ⟨httpAll env st1 reqs, contacted⟩ cmds).2) ∧
        ∃ n, r.1.trace = contacted ++ (cmds.take n).map bashC)

/-- A stateless environment for examples: `bash -c c` fails with `exit status 5` when `c`
contains `lvextend`, with `exit status 1` when `c` contains `false`, and succeeds with
empty output otherwise, except that the peer status lists the two peers `h1` and `h2`;
the peer `h2` answers 500, every other peer 200. -/
def stubEnv : Env Unit where
  run := fun _ _ args =>
    match args with
    | [_, c] =>
      if contains c "lvextend".toList then ((), [], some "exit status 5".toList)
      else if contains c "false".toList then ((), [], some "exit status 1".toList)
      else if c = peerStatusCmd then ((), "Hostname: h1\nHostname: h2".toList, none)
      else ((), [], none)
    | _ => ((), [], none)
  httpDo := fun _ req =>
    if contains req.url "//h2:".toList then ((), some 500) else ((), some 200)
  hostname := fun _ => some "localhost".toList
  lookupIP := fun _ _ => some [⟨false, true, "10.0.0.5".toList⟩]
  newRequest := noBlank

/-- An optional sign `+` or `-` followed by one or more decimal digits: the texts that
`strconv.Atoi` reads as an integer, whatever its size. -/
def isSignedDigits : Str → Bool
  | [] => false
  | c :: cs =>
    if c = '+' ∨ c = '-' then !cs.isEmpty && cs.all isDigit
    else (c :: cs).all isDigit

/-- The size format of the specification, `^\d+[MG]$`: one or more decimal digits
followed by exactly one `M` or `G`. -/
def matchesSizePattern (size : Str) : Bool :=
  match size.reverse with
  | [] => false
  | m :: r => (m = 'M' ∨ m = 'G') && !r.isEmpty && r.all isDigit

/-- The size format the code accepts at most: an optionally signed decimal integer
followed by exactly one `M` or `G`. -/
def matchesSignedSizePattern (size : Str) : Bool :=
  match size.reverse with
  | [] => false
  | m :: r => (m = 'M' ∨ m = 'G') && isSignedDigits r.reverse

/-- The name `lv_<project>_pv<N>` that `createVolume` gives to the logical volume number
`N` of a project (`fmt.Sprintf("lv_%v_pv%v", project, pvNumber)`). -/
def lvName (project : Str) (N : Nat) : Str :=
  "lv_".toList ++ project ++ "_pv".toList ++ natToStr N

/-- The number `N` of a listed name of the form `lv_<project>_pv<N>`, where `<N>` is one
or more decimal digits; `none` for every other text. -/
def volumeNumber? (project l : Str) : Option Nat :=
  if ("lv_".toList ++ project ++ "_pv".toList).isPrefixOf l then
    let ds := l.drop ("lv_".toList ++ project ++ "_pv".toList).length
    if !ds.isEmpty && ds.all isDigit then some (digitsVal ds) else none
  else none

/-- The names of an `lvs -o lv_name` listing: its lines, without the surrounding white
space. -/
def listedNames (out : Str) : List Str := (splitLines out).map trimSpace

/-- The output of `lvs -o lv_name` for the logical volumes `names`: the heading `LV` and
one indented name per line. -/
def lvsListing (names : List Str) : Str :=
  "  LV\n".toList ++ names.flatMap (fun n => "  ".toList ++ n ++ "\n".toList)

/-- A volume operation on one project: create the next volume, or delete the volume with
the given number. -/
inductive VolumeOp
  | create
  | delete (N : Nat)
  deriving DecidableEq, Repr

/-- The effect of a volume operation on the logical volumes that exist and on the
sequence numbers handed out so far: a creation asks `getNextVolumeNrForProject` for the
number (on the listing of the volumes that exist) and `lvcreate` adds the volume of that
name; a deletion has `lvremove` remove it. -/
def stepVolumes (project : Str) : List Str × List Int → VolumeOp → List Str × List Int
  | (names, handedOut), .create =>
    match nextVolumeNrOfListing project (lvsListing names) with
    | .ok n =>
      (names ++ ["lv_".toList ++ project ++ "_pv".toList ++ intToStr n], handedOut ++ [n])
    | _ => (names, handedOut)
  | (names, handedOut), .delete N =>
    (names.filter (fun n => n ≠ lvName project N), handedOut)

/-- The sequence numbers handed out, in order, over a sequence of volume operations that
starts with no volume. -/
def handedOutNumbers (project : Str) (ops : List VolumeOp) : List Int :=
  (ops.foldl (stepVolumes project) ([], [])).2

/-- The trace of a successful `createVolume(p, s)` for the first volume of a project, as
the specification lists it (end-to-end scenario), after the trace so far: the `lvs`
query, the peer-status query, one lv-create request per peer, the ten local commands, the
second peer-status query, and the four `gluster volume` commands. -/
def firstVolumeTrace (cfg : Config) (p s : Str) (hosts : List Str) (localIP : Str) :
    List Event :=
  let mp := cfg.BasePath ++ "/".toList ++ p ++ "/pv1".toList
  let lv := "lv_".toList ++ p ++ "_pv1".toList
  let vol := "vol_".toList ++ p ++ "_pv1".toList
  [bashC "lvs -o lv_name".toList, bashC "gluster peer status | grep Hostname".toList]
  ++ hosts.map (fun h => Event.http
      { method := "POST".toList,
        url := "http://".toList ++ h ++ ":".toList ++ intToStr cfg.Port ++ "/sec/lv".toList,
        user := "GLUSTER_API".toList,
        password := cfg.Secret,
        body := .createLV s mp lv })
  ++ [ bashC ("mkdir -p ".toList ++ mp),
       bashC ("lvcreate -V ".toList ++ s ++ " -T ".toList ++ cfg.VgName ++ "/".toList
         ++ cfg.PoolName ++ " -n ".toList ++ lv),
       bashC ("mkfs.xfs -i size=512 -n size=8192 /dev/".toList ++ cfg.VgName ++ "/".toList ++ lv),
       bashC ("echo \"/dev/".toList ++ cfg.VgName ++ "/".toList ++ lv ++ " ".toList ++ mp
         ++ " xfs rw,inode64,noatime,nouuid 1 2\" | tee -a /etc/fstab > /dev/null ".toList),
       bashC ("mount -o rw,inode64,noatime,nouuid /dev/".toList ++ cfg.VgName ++ "/".toList
         ++ lv ++ " ".toList ++ mp),
       bashC ("mkdir ".toList ++ mp ++ "/brick".toList),
       bashC ("semanage fcontext -a -t glusterd_brick_t ".toList ++ mp ++ "/brick".toList),
       bashC ("restorecon -Rv ".toList ++ mp ++ "/brick".toList),
       bashC ("chown nfsnobody.nfsnobody ".toList ++ mp ++ "/brick".toList),
       bashC ("chmod 777 ".toList ++ mp ++ "/brick".toList),
       bashC "gluster peer status | grep Hostname".toList,
       bashC ("gluster volume create ".toList ++ vol ++ " replica ".toList
         ++ intToStr cfg.Replicas ++ " ".toList
         ++ (hosts ++ [localIP]).flatMap (fun h => h ++ ":".toList ++ mp ++ "/brick ".toList)
         ++ "--mode=script".toList),
       bashC ("gluster volume start ".toList ++ vol),
       bashC ("gluster volume set ".toList ++ vol ++ " user.smb disable".toList),
       bashC ("gluster volume set ".toList ++ vol ++ " user.cifs disable".toList) ]

/-- A stateless environment in which everything succeeds: every command returns the
empty output, except that the peer status lists the peers `h1` and `h2`; every request
is answered with 200; the local address is `10.0.0.5`. -/
def happyEnv : Env Unit where
  run := fun _ _ args =>
    if args = ["-c".toList, peerStatusCmd] then ((), "Hostname: h1\nHostname: h2".toList, none)
    else ((), [], none)
  httpDo := fun _ _ => ((), some 200)
  hostname := fun _ => some "localhost".toList
  lookupIP := fun _ _ => some [⟨true, true, "127.0.0.1".toList⟩, ⟨false, true, "10.0.0.5".toList⟩]
  newRequest := noBlank

/-- What `deleteVolume` does for the volume `v` with logical volume `lv` and mount path
`mountPath`, in this order: stop and delete the gluster volume, ask for the peers, ask
every peer to delete the logical volume, and run the four local commands.  The first
command that fails fatally, a failing peer discovery, or the first peer that does not
answer 200 ends the sequence with the generic error; a peer for which no request can be
built ends it with a panic. -/
def DeletesVolume (env : Env σ) (cfg : Config) (w : World σ) (v lv mountPath : Str)
    (r : World σ × Outcome Unit) : Prop :=
  let glusterCmds : List Str :=
    [ "gluster volume stop ".toList ++ v ++ " --mode=script".toList,
      "gluster volume delete ".toList ++ v ++ " --mode=script".toList ]
  let localCmds : List Str :=
    [ "sed -i '\\#/dev/".toList ++ cfg.VgName ++ "/".toList ++ lv ++ "#d' /etc/fstab".toList,
      "umount ".toList ++ mountPath,
      "lvremove --yes /dev/".toList ++ cfg.VgName ++ "/".toList ++ lv,
      "rmdir --parents --ignore-fail-on-non-empty ".toList ++ mountPath ]
  let mkReq : Str → HttpRequest := fun h =>
    { method := "POST".toList,
      url := "http://".toList ++ h ++ ":".toList ++ intToStr cfg.Port ++ "/sec/lv/delete".toList,
      user := "GLUSTER_API".toList,
      password := cfg.Secret,
      body := .deleteLV v }
  (∃ k, fatalAt env w.st glusterCmds k = true ∧
      (∀ j, j < k → fatalAt env w.st glusterCmds j = false) ∧
      r.1.trace = w.trace ++ (glusterCmds.take (k + 1)).map bashC ∧
      r.2 = .error (.text commandExecutionError)) ∨
  ((∀ i, fatalAt env w.st glusterCmds i = false) ∧
    match env.run (runAll env w.st glusterCmds) "bash".toList ["-c".toList, peerStatusCmd] with
    | (_, _, some _) =>
      r.1.trace = w.trace ++ glusterCmds.map bashC ++ [bashC peerStatusCmd] ∧
        r.2 = .error (.text commandExecutionError)
    | (st1, out, none) =>
      let reqs := (peerServersOfLines (splitLines out)).map mkReq
      let contacted :=
        w.trace ++ glusterCmds.map bashC ++ [bashC peerStatusCmd] ++ reqs.map Event.http
      StopsAtPeer env st1 (w.trace ++ glusterCmds.map bashC ++ [bashC peerStatusCmd]) reqs r ∨
      (AllPeersAnswer env st1 reqs ∧
        ((∃ k, fatalAt env (httpAll env st1 reqs) localCmds k = true ∧
            (∀ j, j < k → fatalAt env (httpAll env st1 reqs) localCmds j = false) ∧
            r.1.trace = contacted ++ (localCmds.take (k + 1)).map bashC ∧
            r.2 = .error (.text commandExecutionError)) ∨
         ((∀ i, fatalAt env (httpAll env st1 reqs) localCmds i = false) ∧
            r.1.trace = contacted ++ localCmds.map bashC ∧ r.2 = .ok ()))))

/-- A stateless environment in which `gluster volume stop` fails with `exit status 5`
and every other command succeeds with empty output (so that no peer is listed); every
request is answered with 200. -/
def stopFailsEnv : Env Unit where
  run := fun _ _ args =>
    match args with
    | [_, c] =>
      if ("gluster volume stop".toList).isPrefixOf c then ((), [], some "exit status 5".toList)
      else ((), [], none)
    | _ => ((), [], none)
  httpDo := fun _ _ => ((), some 200)
  hostname := fun _ => some "localhost".toList
  lookupIP := fun _ _ => some [⟨false, true, "10.0.0.5".toList⟩]
  newRequest := noBlank

/-! ## `monitoring.go` -/

/-- Scan of `strings.Split(s, sep)` for a non-empty `sep`: `cur` is the part being read;
`fuel` bounds the number of scanning steps. -/
def splitFrom (sep : Str) : Nat → Str → Str → List Str
  | 0, cur, _ => [cur]
  | _ + 1, cur, [] => [cur]
  | fuel + 1, cur, c :: cs =>
    if sep.isPrefixOf (c :: cs) then cur :: splitFrom sep fuel [] ((c :: cs).drop sep.length)
    else splitFrom sep fuel (cur ++ [c]) cs

/-- Model of `strings.Split(s, sep)`: the parts of `s` between the non-overlapping
occurrences of `sep`, scanning from the left; for an empty `sep` the characters of `s`. -/
def split (s sep : Str) : List Str :=
  if sep = [] then s.map (fun c => [c]) else splitFrom sep (s.length + 1) [] s

/-- The type `models.VolInfo`. -/
structure VolInfo where
  TotalKiloBytes : Int
  UsedKiloBytes : Int
  deriving DecidableEq, Repr

/-- Embedding of `parseOutput`.  With no number in the output `nums[0]` panics, with one
number `nums[1]` panics (index out of range). -/
def parseOutput (stdOut : Str) : Outcome VolInfo :=
  match findAllNumbers stdOut with
  | [] => .panic
  | num0 :: rest =>
    match atoi num0 with
    | .error _ => .error (.text commandExecutionError)
    | .ok size =>
      match rest with
      | [] => .panic
      | num1 :: _ =>
        match atoi num1 with
        | .error _ => .error (.text commandExecutionError)
        | .ok used => .ok { TotalKiloBytes := size, UsedKiloBytes := used }

/-- The shell command of `getVolumeUsage` for the two parts of the name. -/
def usageCmd (part0 part1 : Str) : Str :=
  "df --output=size,used,source | grep 'lv_".toList ++ replaceAll "-".toList "--".toList part0
    ++ "_pv".toList ++ part1 ++ "$'".toList

/-- Embedding of `getVolumeUsage`.  With no `-pv` in the name, `parts[1]` panics (index
out of range) before any command is run. -/
def getVolumeUsage (env : Env σ) (w : World σ) (pvName : Str) : World σ × Outcome VolInfo :=
  let pvName := replaceAll "gl-".toList [] pvName
  match split pvName "-pv".toList with
  | part0 :: part1 :: _ =>
    match w.run env "bash".toList ["-c".toList, usageCmd part0 part1] with
    | (w1, _, some e) =>
      if contains e "exit status 1".toList then
        (w1, .error (.text ("PV ".toList ++ pvName ++ " does not exist".toList)))
      else (w1, .error (.text ("Could not parse usage size: ".toList ++ e)))
    | (w1, out, none) => (w1, parseOutput out)
  | _ => (w, .panic)

/-! ## Vocabulary of the specification, continued -/

/-- Embedding of `getGlusterPeerServers` with both of its results, the list of servers
and the error, as Go returns them. -/
def getGlusterPeerServersResults (env : Env σ) (w : World σ) :
    World σ × List Str × Option GoError :=
  match w.run env "bash".toList ["-c".toList, peerStatusCmd] with
  | (w1, _, some _) => (w1, [], some (.text commandExecutionError))
  | (w1, out, none) => (w1, peerServersOfLines (splitLines out), none)

/-- One host per non-empty line of a peer-status output, in order: the line without the
label `Hostname: ` and without the surrounding white space. -/
def peerHosts (out : Str) : List Str :=
  ((splitLines out).filter (fun l => l ≠ [])).map
    (fun l => trimSpace (replaceAll "Hostname: ".toList [] l))

/-- The mount point that `createVolume` hands to `createLvOnAllServers` for the volume
number `pvNumber` of a project (`fmt.Sprintf("%v/%v/pv%v", BasePath, project, pvNumber)`). -/
def createdMountPoint (cfg : Config) (project : Str) (pvNumber : Int) : Str :=
  cfg.BasePath ++ "/".toList ++ project ++ "/pv".toList ++ intToStr pvNumber

/-- The name that `createVolume` gives to the logical volume number `pvNumber` of a
project (`fmt.Sprintf("lv_%v_pv%v", project, pvNumber)`). -/
def createdLvName (project : Str) (pvNumber : Int) : Str :=
  "lv_".toList ++ project ++ "_pv".toList ++ intToStr pvNumber

/-- A project name with every `-` doubled. -/
def doubleDashes (project : Str) : Str :=
  project.flatMap (fun c => if c = '-' then ['-', '-'] else [c])

/-- A runner for examples: the `df` lookup fails with the given error text (`none`: it
succeeds) and prints the given output; no other call is made in the examples. -/
def dfEnv (err : Option Str) (out : Str) : Env Unit where
  run := fun _ _ _ => ((), out, err)
  httpDo := fun _ _ => ((), some 200)
  hostname := fun _ => some "localhost".toList
  lookupIP := fun _ _ => some [⟨false, true, "10.0.0.5".toList⟩]
  newRequest := noBlank

end Gluster

/-! # ssp-backend, server: permission checks, filters and validation

A shallow embedding of the permission checks of `server/openshift/shared.go`,
`server/otc/ecs.go`, `server/ldap/ldap.go` and `server/aws`, of the helpers of
`server/common/helpers.go`, of `filterProjects` and `validateProjectPermissions` of
`server/openshift/project.go`, of the size checks of `server/openshift/volume.go` and of
`addSpecsMap` of `server/tower/shared.go`.
The external systems (the OpenShift API, the directory, the OTC and AWS APIs) are
collaborators whose answers are fields of an environment.
-/

namespace Server

open Gluster

/-! ## Package `strings` and `common/helpers.go` -/

/-- Lower case of an ASCII character. -/
def asciiLower (c : Char) : Char :=
  if 'A'.toNat ≤ c.toNat ∧ c.toNat ≤ 'Z'.toNat then Char.ofNat (c.toNat + 32) else c

/-- Model of `unicode.ToLower`: ASCII letters by arithmetic, every other character by the
case table of the Unicode standard, which is the parameter `u`. -/
def lowerChar (u : Char → Char) (c : Char) : Char :=
  if c.toNat < 128 then asciiLower c else u c

/-- Model of `strings.ToLower(s)`. -/
def toLower (u : Char → Char) (s : Str) : Str := s.map (lowerChar u)

/-- Embedding of `common.ContainsStringI`. -/
def ContainsStringI (u : Char → Char) : List Str → Str → Bool
  | [], _ => false
  | a :: rest, e => if toLower u a = toLower u e then true else ContainsStringI u rest e

/-- Model of the assignment `encountered[k] = true` on the keys of a map. -/
def insertKey (keys : List Str) (k : Str) : List Str :=
  if k ∈ keys then keys else keys ++ [k]

/-- Embedding of `common.RemoveDuplicates`.  The keys of the map `encountered` are the
distinct elements; `for key := range encountered` visits them in an order that Go leaves
unspecified, which is the parameter `ord` (a permutation of the keys). -/
def RemoveDuplicates (ord : List Str → List Str) (elements : List Str) : List Str :=
  ord (elements.foldl insertKey [])

/-- Model of `strings.Join(elems, sep)`. -/
def join (sep : Str) : List Str → Str
  | [] => []
  | [a] => a
  | a :: b :: rest => a ++ sep ++ join sep (b :: rest)

/-! ## `openshift/shared.go`: the role-binding variant -/

/-- The constant `genericAPIError` of `openshift/shared.go`. -/
def genericAPIError : Str := "Error when calling the OpenShift API. Please open a Jira issue".toList

/-- A role binding of the answer of the OpenShift API, as far as the code reads it: the
string `roleRef.name`, the strings `subjects[].name` and the strings `groupNames[]` (no
children when the field is absent). -/
structure RoleBinding where
  roleRefName : Str
  subjects : List Str
  groupNames : List Str
  deriving DecidableEq, Repr

/-- An HTTP answer of the OpenShift API: the status code and the body as
`gabs.ParseJSONBuffer` reads it (`none` when the body is not JSON). -/
structure OseReply (α : Type) where
  status : Nat
  body : Option α
  deriving DecidableEq, Repr

/-- The OpenShift API as `getOseHTTPClient` reaches it: the answer to the request for the
role bindings of a project of a cluster, and to the request for the group `operator` of a
cluster (the strings `users[]`); `.error` is the error of `getOseHTTPClient`. -/
structure OseEnv where
  roleBindings : Str → Str → Except GoError (OseReply (List RoleBinding))
  operatorGroup : Str → Except GoError (OseReply (List Str))

/-- The two arrays that `getAdminRoleBinding` sets on the role binding it returns.  When
no binding has the role `admin` the container is nil; the functions of gabs find nothing
in a nil container, which is the same as two empty arrays. -/
structure AdminRoleBinding where
  userNames : List Str
  groupNames : List Str
  deriving DecidableEq, Repr

/-- The loop of `getAdminRoleBinding` over the items: the lower-cased subject names of
the bindings with the role `admin`. -/
def adminUserNames (u : Char → Char) : List RoleBinding → List Str
  | [] => []
  | role :: rest =>
    if role.roleRefName = "admin".toList then
      role.subjects.map (toLower u) ++ adminUserNames u rest
    else adminUserNames u rest

/-- The loop of `getAdminRoleBinding` over the items: the lower-cased group names of the
bindings with the role `admin`. -/
def adminGroupNames (u : Char → Char) : List RoleBinding → List Str
  | [] => []
  | role :: rest =>
    if role.roleRefName = "admin".toList then
      role.groupNames.map (toLower u) ++ adminGroupNames u rest
    else adminGroupNames u rest

/-- Embedding of `getAdminRoleBinding`. -/
def getAdminRoleBinding (u : Char → Char) (ord : List Str → List Str) (env : OseEnv)
    (clusterId project : Str) : Except GoError AdminRoleBinding :=
  match env.roleBindings clusterId project with
  | .error e => .error e
  | .ok resp =>
    if resp.status = 404 then .error (.text "Das Projekt existiert nicht".toList)
    else if resp.status = 403 then .error (.text genericAPIError)
    else
      match resp.body with
      | none => .error (.text genericAPIError)
      | some items =>
        .ok { userNames := RemoveDuplicates ord (adminUserNames u items),
              groupNames := RemoveDuplicates ord (adminGroupNames u items) }

/-- Embedding of `getOperatorGroup`, followed by the reading of its `users`. -/
def getOperatorGroup (env : OseEnv) (clusterId : Str) : Except GoError (List Str) :=
  match env.operatorGroup clusterId with
  | .error e => .error e
  | .ok resp =>
    match resp.body with
    | none => .error (.text genericAPIError)
    | some users => .ok users

/-- Embedding of `getProjectAdminsAndOperators`: the admins and the operators. -/
def getProjectAdminsAndOperators (u : Char → Char) (ord : List Str → List Str) (env : OseEnv)
    (clusterId project : Str) : Except GoError (List Str × List Str) :=
  match getAdminRoleBinding u ord env clusterId project with
  | .error e => .error e
  | .ok adminRoleBinding =>
    let hasOperatorGroup :=
      adminRoleBinding.groupNames.any (fun g => toLower u g = "operator".toList)
    let admins := adminRoleBinding.userNames.map (toLower u)
    if hasOperatorGroup then
      match getOperatorGroup env clusterId with
      | .error e => .error e
      | .ok users => .ok (RemoveDuplicates ord admins, users.map (toLower u))
    else .ok (RemoveDuplicates ord admins, [])

/-- The error of `checkAdminPermissions` for a user without access. -/
def noAdminPermissionsError (project : Str) (admins : List Str) : GoError :=
  .text ("You don't have admin permissions on the project: ".toList ++ project
    ++ ". The following users have admin permissions: ".toList ++ join ", ".toList admins)

/-- Embedding of `checkAdminPermissions` (`none` is `nil`). -/
def checkAdminPermissions (u : Char → Char) (ord : List Str → List Str) (env : OseEnv)
    (clusterId username project : Str) : Option GoError :=
  match getProjectAdminsAndOperators u ord env clusterId project with
  | .error e => some e
  | .ok (admins, operators) =>
    let username := toLower u username
    let hasAccess := admins.any (fun a => username = a) || operators.any (fun o => username = o)
    if hasAccess then none else some (noAdminPermissionsError project admins)

/-- An OpenShift API for examples: the project `p` has an admin binding with the subjects
`alice`, `ALICE` and `bob` and the group `operator`, and a binding with the role `view`;
the group `operator` has the member `Oscar`. -/
def exampleOse : OseEnv where
  roleBindings := fun _ _ =>
    .ok ⟨200, some
      [ ⟨"admin".toList, ["alice".toList, "ALICE".toList, "bob".toList], ["operator".toList]⟩,
        ⟨"view".toList, ["carol".toList], []⟩ ]⟩
  operatorGroup := fun _ => .ok ⟨200, some ["Oscar".toList]⟩

/-! ## `ldap/ldap.go` and `otc/ecs.go`: the directory-group variant -/

/-- The constant `genericOTCAPIError` of `otc/shared.go`. -/
def genericOTCAPIError : Str := "Error when calling the OTC API. Please create a ticket".toList

/-- The group that lets a user skip the checks of `otc/ecs.go`. -/
def adminGroup : Str := "DG_RBT_UOS_ADMINS".toList

/-- A `servers.Server` of gophercloud, as far as the code reads it. -/
structure OtcServer where
  ID : Str
  Name : Str
  Metadata : List (Str × Str)
  deriving DecidableEq, Repr

/-- Model of the map access `m[k]` on a `map[string]string`: the empty string when the
key is absent. -/
def mapGet : List (Str × Str) → Str → Str
  | [], _ => []
  | (k1, v) :: rest, k => if k1 = k then v else mapGet rest k

/-- The directory and the OTC API: `ldapNew` is the error of `ldap.New()`; `ldapSearch`
is the outcome of connecting, binding and searching in `GetUser` (the error text, or the
`memberOf` values of each entry found); `cnOfDN` is `getCN`, which reads the common name
out of a distinguished name with `ldap.ParseDN`; `groupBlacklist` is the configured
`ldap.group_blacklist`; `allServers` is `getAllServers`, the servers of all tenants. -/
structure OtcEnv where
  ldapNew : Option Str
  ldapSearch : Str → Except Str (List (List Str))
  cnOfDN : Str → Str
  groupBlacklist : List Str
  allServers : Str → Except GoError (List OtcServer)

/-- Embedding of `LDAPClient.GetUser`: the `memberOf` values of the entry of the user.
With no entry found, `sr.Entries[0]` panics. -/
def GetUser (env : OtcEnv) (username : Str) : Outcome (List Str) :=
  match env.ldapSearch username with
  | .error e => .error (.text e)
  | .ok entries =>
    if entries.length > 1 then
      .error (.text "Something went wrong. Multiple LDAP users returned".toList)
    else
      match entries with
      | [] => .panic
      | entry :: _ => .ok entry

/-- The loop of `GetGroupsOfUser` over the `memberOf` values. -/
def groupsOfMemberOf (u : Char → Char) (env : OtcEnv) : List Str → List Str
  | [] => []
  | entry :: rest =>
    if ContainsStringI u env.groupBlacklist (env.cnOfDN entry) then groupsOfMemberOf u env rest
    else env.cnOfDN entry :: groupsOfMemberOf u env rest

/-- Embedding of `LDAPClient.GetGroupsOfUser`. -/
def GetGroupsOfUser (u : Char → Char) (env : OtcEnv) (username : Str) : Outcome (List Str) :=
  match GetUser env username with
  | .error e => .error e
  | .panic => .panic
  | .ok memberOf => .ok (groupsOfMemberOf u env memberOf)

/-- Embedding of `getGroups`. -/
def getGroups (u : Char → Char) (env : OtcEnv) (username : Str) : Outcome (List Str) :=
  match env.ldapNew with
  | some _ => .error (.text genericOTCAPIError)
  | none =>
    match GetGroupsOfUser u env username with
    | .error _ => .error (.text genericOTCAPIError)
    | .panic => .panic
    | .ok groups => .ok groups

/-- The inner loop of `validatePermissions`: the `uos_group` of the first server of the
list with the given id, and the empty string when there is none. -/
def uosGroupOfID : List OtcServer → Str → Str
  | [], _ => []
  | s :: rest, id => if id = s.ID then mapGet s.Metadata "uos_group".toList else uosGroupOfID rest id

/-- The outer loop of `validatePermissions` over the requested servers (`none` is
`nil`). -/
def checkServers (u : Char → Char) (groups : List Str) (allServers : List OtcServer) :
    List OtcServer → Option GoError
  | [] => none
  | server :: rest =>
    let group := uosGroupOfID allServers server.ID
    if group = [] then some (.text genericOTCAPIError)
    else if !ContainsStringI u groups group then some (.text genericOTCAPIError)
    else checkServers u groups allServers rest

/-- Embedding of `validatePermissions` (`.ok ()` is `nil`). -/
def validatePermissions (u : Char → Char) (env : OtcEnv) (untrustedServers : List OtcServer)
    (username : Str) : Outcome Unit :=
  match getGroups u env username with
  | .error e => .error e
  | .panic => .panic
  | .ok groups =>
    if ContainsStringI u groups adminGroup then .ok ()
    else
      match env.allServers username with
      | .error e => .error e
      | .ok allServers =>
        match checkServers u groups allServers untrustedServers with
        | some e => .error e
        | none => .ok ()

/-- The loop of `ValidatePermissionsByHostname`: the first server with the given name,
and the zero value of `servers.Server` when there is none. -/
def serverOfName : List OtcServer → Str → OtcServer
  | [], _ => ⟨[], [], []⟩
  | s :: rest, servername => if servername = s.Name then s else serverOfName rest servername

/-- Embedding of `ValidatePermissionsByHostname` (`.ok ()` is `nil`). -/
def ValidatePermissionsByHostname (u : Char → Char) (env : OtcEnv) (servername username : Str) :
    Outcome Unit :=
  if servername = [] ∨ username = [] then .error (.text genericOTCAPIError)
  else
    match getGroups u env username with
    | .error e => .error e
    | .panic => .panic
    | .ok groups =>
      if ContainsStringI u groups adminGroup then .ok ()
      else
        match env.allServers username with
        | .error e => .error e
        | .ok allServers =>
          let server := serverOfName allServers servername
          if server.ID = [] then .error (.text genericOTCAPIError)
          else
            let group := mapGet server.Metadata "uos_group".toList
            if group = [] then .error (.text genericOTCAPIError)
            else if !ContainsStringI u groups group then .error (.text genericOTCAPIError)
            else .ok ()

/-- A directory and an OTC for examples: the user `admin1` is in the groups
`dg_rbt_uos_admins` and `DG_TEAM_A`, every other user in `DG_TEAM_A` only; the server
`s1` (named `web1`) belongs to `dg_team_a`, the server `s2` (named `db1`) to `DG_TEAM_B`,
the server `s3` has no `uos_group`. -/
def exampleOtc : OtcEnv where
  ldapNew := none
  ldapSearch := fun user =>
    if user = "admin1".toList then .ok [["dg_rbt_uos_admins".toList, "DG_TEAM_A".toList]]
    else .ok [["DG_TEAM_A".toList]]
  cnOfDN := fun dn => dn
  groupBlacklist := []
  allServers := fun _ =>
    .ok [ ⟨"s1".toList, "web1".toList, [("uos_group".toList, "dg_team_a".toList)]⟩,
          ⟨"s2".toList, "db1".toList, [("uos_group".toList, "DG_TEAM_B".toList)]⟩,
          ⟨"s3".toList, "tmp1".toList, []⟩ ]

/-! ## `aws/s3.go` and `aws/iam.go`: the tag variant -/

/-- The constant `s3ListError` of `aws/s3.go`. -/
def s3ListError : Str := "Not able to list Buckets. Please open a Jira issue".toList

/-- The constant `genericUserCreationError` of `aws/iam.go`. -/
def genericUserCreationError : Str := "An error occured while creating the user account".toList

/-- The constant `accountProd` of `aws/shared.go`. -/
def accountProd : Str := "prod".toList

/-- The constant `accountNonProd` of `aws/shared.go`. -/
def accountNonProd : Str := "nonprod".toList

/-- The constant `stageDev` of `aws/shared.go`. -/
def stageDev : Str := "dev".toList

/-- The constant `stageProd` of `aws/shared.go`. -/
def stageProd : Str := "prod".toList

/-- A tag of a bucket (`s3.Tag`); key and value are taken to be set. -/
structure Tag where
  Key : Str
  Value : Str
  deriving DecidableEq, Repr

/-- The type `common.Bucket`. -/
structure Bucket where
  Name : Str
  Account : Str
  deriving DecidableEq, Repr

/-- The AWS API, per stage: `s3Client` is the error of `GetS3Client(stage)`,
`listBuckets` the names of `svc.ListBuckets(nil)`, `getBucketTagging` the tag set of
`svc.GetBucketTagging` for a bucket, `iamClient` the error of `GetIAMClient(stage)` and
`listUsers` the user names of `svc.ListUsers(nil)`; `.error` carries the text of the
error of the call. -/
structure AwsEnv where
  s3Client : Str → Option GoError
  listBuckets : Str → Except Str (List Str)
  getBucketTagging : Str → Str → Except Str (List Tag)
  iamClient : Str → Option GoError
  listUsers : Str → Except Str (List Str)

/-- The inner loop of `listS3BucketByUsernameForAccount` over the tags of a bucket: the
bucket is appended for every tag `Creator` whose value is the user name in lower case. -/
def bucketsOfTags (u : Char → Char) (username account name : Str) : List Tag → List Bucket
  | [] => []
  | tag :: rest =>
    if tag.Key = "Creator".toList ∧ toLower u tag.Value = toLower u username then
      ⟨name, account⟩ :: bucketsOfTags u username account name rest
    else bucketsOfTags u username account name rest

/-- The outer loop of `listS3BucketByUsernameForAccount` over the buckets; a bucket whose
tags cannot be read is skipped. -/
def bucketsOfListing (u : Char → Char) (env : AwsEnv) (stage username account : Str) :
    List Str → List Bucket
  | [] => []
  | name :: rest =>
    match env.getBucketTagging stage name with
    | .error _ => bucketsOfListing u env stage username account rest
    | .ok tagSet =>
      bucketsOfTags u username account name tagSet
        ++ bucketsOfListing u env stage username account rest

/-- The stage `listS3BucketByUsernameForAccount` works on for an account. -/
def stageOfAccount (account : Str) : Str :=
  if account = accountProd then stageProd else stageDev

/-- Embedding of `listS3BucketByUsernameForAccount`. -/
def listS3BucketByUsernameForAccount (u : Char → Char) (env : AwsEnv) (username account : Str) :
    Except GoError (List Bucket) :=
  match env.s3Client (stageOfAccount account) with
  | some e => .error e
  | none =>
    match env.listBuckets (stageOfAccount account) with
    | .error _ => .error (.text s3ListError)
    | .ok names => .ok (bucketsOfListing u env (stageOfAccount account) username account names)

/-- Embedding of `listS3BucketByUsername`; `.error` stands for the result
`(nil, err)`. -/
def listS3BucketByUsername (u : Char → Char) (env : AwsEnv) (username : Str) :
    Except GoError (List Bucket) :=
  match listS3BucketByUsernameForAccount u env username accountNonProd with
  | .error e => .error e
  | .ok nonProdBuckets =>
    match listS3BucketByUsernameForAccount u env username accountProd with
    | .error e => .error e
    | .ok prodBuckets => .ok (nonProdBuckets ++ prodBuckets)

/-- Model of `len(s)`: the number of bytes of the UTF-8 encoding. -/
def byteLen (s : Str) : Nat := (s.map Char.utf8Size).sum

/-- Model of `regexp.MustCompile("^[a-zA-Z0-9\\-]+$").MatchString`. -/
def validName (s : Str) : Bool :=
  !s.isEmpty && s.all (fun c =>
    ('a'.toNat ≤ c.toNat && c.toNat ≤ 'z'.toNat) || ('A'.toNat ≤ c.toNat && c.toNat ≤ 'Z'.toNat)
      || ('0'.toNat ≤ c.toNat && c.toNat ≤ '9'.toNat) || c = '-')

/-- Embedding of `validateNewS3User` (`.ok ()` is `nil`).  The error of
`listS3BucketByUsername` is discarded; with it the list is nil, and reading
`myBuckets.Buckets` panics (nil pointer dereference). -/
def validateNewS3User (u : Char → Char) (env : AwsEnv) (username bucketname newuser stage : Str) :
    Outcome Unit :=
  if byteLen username = 0 then .error (.text "Username must be set".toList)
  else if byteLen bucketname = 0 then .error (.text "Bucket name must be set".toList)
  else if byteLen newuser = 0 then .error (.text "Bucket username must be set".toList)
  else if byteLen newuser + byteLen bucketname > 63 then
    .error (.text ("Generated user '".toList ++ bucketname ++ "-".toList ++ newuser
      ++ "' is to long".toList))
  else if !validName bucketname then
    .error (.text "Username can only contain alphanumeric characters and -".toList)
  else
    match env.iamClient stage with
    | some e => .error e
    | none =>
      match env.listUsers stage with
      | .error _ => .error (.text genericUserCreationError)
      | .ok users =>
        if users.any (fun name => name = newuser) then
          .error (.text ("Error: IAM account ".toList ++ newuser ++ " already exists".toList))
        else
          match listS3BucketByUsername u env username with
          | .error _ => .panic
          | .ok myBuckets =>
            if myBuckets.any (fun mybucket => bucketname = mybucket.Name) then .ok ()
            else .error (.text ("Bucket ".toList ++ bucketname
              ++ " doesn't exist or you're not allowed to create a Bucket".toList))

/-- An AWS for examples: in both stages the buckets `b1` (created by `Alice`), `b2`
(created by `bob`) and `b3` (tags not readable) exist; no IAM user exists.  With
`listingFails` set, `ListBuckets` fails. -/
def exampleAws (listingFails : Bool) : AwsEnv where
  s3Client := fun _ => none
  listBuckets := fun _ =>
    if listingFails then .error "RequestError: send request failed".toList
    else .ok ["b1".toList, "b2".toList, "b3".toList]
  getBucketTagging := fun _ name =>
    if name = "b1".toList then .ok [⟨"Stage".toList, "dev".toList⟩, ⟨"Creator".toList, "Alice".toList⟩]
    else if name = "b2".toList then .ok [⟨"Creator".toList, "bob".toList⟩]
    else .error "NoSuchTagSet".toList
  iamClient := fun _ => none
  listUsers := fun _ => .ok []

/-! ## `openshift/project.go`: the project filter -/

/-- A project of the answer of the OpenShift API, as far as `filterProjects` and
`getProjectNames` read it: `metadata.name` and the annotations of `metadata.annotations`
whose value is a string. -/
structure Project where
  name : Str
  annotations : List (Str × Str)
  deriving DecidableEq, Repr

/-- Model of `v, _ := project.Search("metadata", "annotations", a).Data().(string)`: the
empty string when the annotation is absent. -/
def annotationOf (project : Project) (a : Str) : Str := mapGet project.annotations a

/-- The map `filterMap` of `filterProjects`: the annotation of a filter name. -/
def filterMap (paramName : Str) : Option Str :=
  if paramName = "sbb_accounting_number".toList then some "openshift.io/kontierung-element".toList
  else if paramName = "sbb_mega_id".toList then some "openshift.io/MEGAID".toList
  else none

/-- Model of the assignment `m[k] = v` on a `map[string]string`. -/
def mapSet : List (Str × Str) → Str → Str → List (Str × Str)
  | [], k, v => [(k, v)]
  | (k1, v1) :: rest, k, v => if k1 = k then (k1, v) :: rest else (k1, v1) :: mapSet rest k v

/-- The first loop of `filterProjects`, over the parameters in the order in which
`range params` visits them: the map `filters`.  A recognised parameter without a value
makes `paramValues[0]` panic. -/
def buildFilters : List (Str × List Str) → List (Str × Str) → Outcome (List (Str × Str))
  | [], filters => .ok filters
  | (paramName, paramValues) :: rest, filters =>
    if paramName = "clusterid".toList then buildFilters rest filters
    else
      match filterMap paramName with
      | none => buildFilters rest filters
      | some propertyAnnotation =>
        match paramValues with
        | [] => .panic
        | first :: _ => buildFilters rest (mapSet filters propertyAnnotation first)

/-- The inner loop of `filterProjects` over the filters: `matches`. -/
def projectMatches (project : Project) : List (Str × Str) → Bool
  | [] => true
  | ( propertyAnnotation, valueComp) :: rest =>
    if annotationOf project propertyAnnotation ≠ valueComp then false
    else projectMatches project rest

/-- Embedding of `filterProjects`.  The parameters `params` are listed in the order in
which `range params` visits the map `url.Values`; `ord` is the order in which
`range filters` visits the map `filters`. -/
def filterProjects (ord : List (Str × Str) → List (Str × Str)) (projects : List Project)
    (params : List (Str × List Str)) : Outcome (List Project) :=
  match buildFilters params [] with
  | .error e => .error e
  | .panic => .panic
  | .ok filters => .ok (projects.filter (fun project => projectMatches project (ord filters)))

/-- The project list of the test `TestProjectFilter`. -/
def testProjects : List Project :=
  [ ⟨"p1".toList, [("openshift.io/kontierung-element".toList, "5678".toList),
      ("openshift.io/MEGAID".toList, "1234".toList)]⟩,
    ⟨"p2".toList, [("openshift.io/kontierung-element".toList, "5678".toList),
      ("openshift.io/MEGAID".toList, "8080".toList)]⟩,
    ⟨"p3".toList, [("openshift.io/kontierung-element".toList, "8888".toList),
      ("openshift.io/MEGAID".toList, [])]⟩,
    ⟨"p4".toList, [("openshift.io/kontierung-element".toList, "8888".toList)]⟩,
    ⟨"p5".toList, [("openshift.io/kontierung-element".toList, "5678".toList),
      ("openshift.io/MEGAID".toList, "1235".toList)]⟩,
    ⟨"p6".toList, [("openshift.io/kontierung-element".toList, []),
      ("openshift.io/MEGAID".toList, "9999".toList)]⟩,
    ⟨"p7".toList, [("openshift.io/MEGAID".toList, "9999".toList)]⟩,
    ⟨"p8".toList, [("openshift.io/kontierung-element".toList, "5050".toList),
      ("openshift.io/MEGAID".toList, "5678".toList)]⟩ ]

/-! ## Vocabulary of the specification -/

/-- The subject names, as stored, of the role bindings with the role `admin`. -/
def adminSubjects (items : List RoleBinding) : List Str :=
  (items.filter (fun role => role.roleRefName = "admin".toList)).flatMap RoleBinding.subjects

/-- The group names, as stored, of the role bindings with the role `admin`. -/
def adminGroups (items : List RoleBinding) : List Str :=
  (items.filter (fun role => role.roleRefName = "admin".toList)).flatMap RoleBinding.groupNames

/-- An admin role binding lists the group `operator`, in any letter case (the code lowers
the stored name when it stores it in `groupNames` and again when it compares it). -/
def listsOperatorGroup (u : Char → Char) (items : List RoleBinding) : Bool :=
  (adminGroups items).any (fun g => toLower u (toLower u g) = "operator".toList)

/-- A role binding with its subject names in lower case. -/
def lowerSubjects (u : Char → Char) (role : RoleBinding) : RoleBinding :=
  { role with subjects := role.subjects.map (toLower u) }

/-- A directory in which the group `DG_RBT_UOS_ADMINS` is on the blacklist: the user is
in that group and in `DG_TEAM_A`; the only server belongs to `DG_TEAM_B`. -/
def blacklistedOtc : OtcEnv where
  ldapNew := none
  ldapSearch := fun _ => .ok [["DG_RBT_UOS_ADMINS".toList, "DG_TEAM_A".toList]]
  cnOfDN := fun dn => dn
  groupBlacklist := ["DG_RBT_UOS_ADMINS".toList]
  allServers := fun _ => .ok [⟨"s2".toList, "db1".toList, [("uos_group".toList, "DG_TEAM_B".toList)]⟩]

/-- A directory in which the group `DG_TEAM_B` is on the blacklist: the user is in the
groups `DG_TEAM_A` and `DG_TEAM_B`; the server `s1` belongs to `DG_TEAM_A`, the server `s2`
to `DG_TEAM_B`. -/
def teamBlacklistedOtc : OtcEnv where
  ldapNew := none
  ldapSearch := fun _ => .ok [["DG_TEAM_A".toList, "DG_TEAM_B".toList]]
  cnOfDN := fun dn => dn
  groupBlacklist := ["DG_TEAM_B".toList]
  allServers := fun _ =>
    .ok [ ⟨"s1".toList, "web1".toList, [("uos_group".toList, "DG_TEAM_A".toList)]⟩,
          ⟨"s2".toList, "db1".toList, [("uos_group".toList, "DG_TEAM_B".toList)]⟩ ]

/-- A bucket was created by the user, as far as its tags say: the tags can be read and
hold a tag `Creator` whose value equals the user name, ignoring letter case. -/
def createdBy (u : Char → Char) (env : AwsEnv) (stage username name : Str) : Bool :=
  match env.getBucketTagging stage name with
  | .error _ => false
  | .ok tagSet =>
    tagSet.any (fun tag => tag.Key = "Creator".toList ∧ toLower u tag.Value = toLower u username)

/-- The number of tags of a bucket that say that the user created it (0 when the tags
cannot be read). -/
def creatorTags (u : Char → Char) (env : AwsEnv) (stage username name : Str) : Nat :=
  match env.getBucketTagging stage name with
  | .error _ => 0
  | .ok tagSet =>
    tagSet.countP (fun tag => tag.Key = "Creator".toList ∧ toLower u tag.Value = toLower u username)

/-- A directory that has no entry for the user. -/
def emptyDirectoryOtc : OtcEnv where
  ldapNew := none
  ldapSearch := fun _ => .ok []
  cnOfDN := fun dn => dn
  groupBlacklist := []
  allServers := fun _ => .ok []

/-- The filter that a parameter of the request stands for: the annotation of a
recognised parameter name and the first value of the parameter. -/
def filterOfParam (param : Str × List Str) : Option (Str × Str) :=
  match filterMap param.1, param.2 with
  | some a, first :: _ => some (a, first)
  | _, _ => none

/-- A project is wanted by the parameters of a request: for every recognised filter, its
annotation equals the first value of the parameter. -/
def wantedBy (params : List (Str × List Str)) (project : Project) : Bool :=
  params.all (fun param =>
    match filterOfParam param with
    | some (a, first) => annotationOf project a = first
    | none => true)

/-! ## `openshift/project.go` and `openshift/volume.go`: validation -/

/-- Embedding of `validateProjectPermissions` (`none` is `nil`); `functionalAccount` is
the configured `openshift_additional_project_admin_account`, the empty string when it is
not set. -/
def validateProjectPermissions (u : Char → Char) (ord : List Str → List Str) (env : OseEnv)
    (functionalAccount clusterId username project : Str) : Option GoError :=
  if clusterId = [] then some (.text "Cluster must be provided".toList)
  else if project = [] then some (.text "Project name must be provided".toList)
  else if functionalAccount ≠ [] ∧ username = functionalAccount then none
  else checkAdminPermissions u ord env clusterId username project

/-- The constant `wrongSizeFormatError` of `openshift/volume.go`. -/
def wrongSizeFormatError : Str :=
  "Invalid size. Format: Digits followed by M/G (e.g. 500M).".toList

/-- The constant `wrongSizeNFSFormatError` of `openshift/volume.go`. -/
def wrongSizeNFSFormatError : Str :=
  "Invalid size. Format: Digits followed by G (e.g. 1G).".toList

/-- The format `wrongSizeLimitError` of `openshift/volume.go`, applied to the two
limits. -/
def wrongSizeLimitError (maxMB maxGB : Int) : GoError :=
  .text ("This size is not allowed. Minimal size: 500M (1G for NFS). Maximal size: M: ".toList
    ++ intToStr maxMB ++ ", G: ".toList ++ intToStr maxGB)

/-- Embedding of `validateSizeFormat` (`none` is `nil`). -/
def validateSizeFormat (size technology : Str) : Option GoError :=
  if technology = "nfs".toList then
    if hasSuffix size "G".toList then none
    else some (.text wrongSizeNFSFormatError)
  else if hasSuffix size "M".toList || hasSuffix size "G".toList then none
  else some (.text wrongSizeFormatError)

/-- The first block of `validateSize`, for the suffix `M`: the error it returns, or
`none` when the function goes on. -/
def validateSizeM (maxGB : Int) (size : Str) : Option GoError :=
  let minMB : Int := 500
  let maxMB : Int := 1024
  if hasSuffix size "M".toList then
    match atoi (replaceFirst "M".toList [] size) with
    | .error _ => some (.text wrongSizeFormatError)
    | .ok sizeInt =>
      if sizeInt < minMB then some (wrongSizeLimitError maxMB maxGB)
      else if sizeInt > maxMB then
        some (.text "Your value in Megabytes is too big. Please provide the size in Gigabytes".toList)
      else none
  else none

/-- The second block of `validateSize`, for the suffix `G`. -/
def validateSizeG (maxGB : Int) (size : Str) : Option GoError :=
  let maxMB : Int := 1024
  if hasSuffix size "G".toList then
    match atoi (replaceFirst "G".toList [] size) with
    | .error _ => some (.text wrongSizeFormatError)
    | .ok sizeInt =>
      if sizeInt > maxGB then some (wrongSizeLimitError maxMB maxGB)
      else none
  else none

/-- Embedding of the server-side `validateSize`; `maxGB` is the configured
`max_volume_gb`.  The outer `none` stands for `log.Fatal`, which ends the process; `some
none` is the result `nil`. -/
def validateSize (maxGB : Int) (size : Str) : Option (Option GoError) :=
  if maxGB ≤ 0 then none
  else
    match validateSizeM maxGB size with
    | some e => some (some e)
    | none => some (validateSizeG maxGB size)

/-! ## `tower/shared.go`: the survey specification -/

/-- A JSON value as `gabs.ParseJSON` holds it: `nil`, a `bool`, a number (kept as its
JSON text), a `string`, a `[]interface{}` or a `map[string]interface{}`.  The fields of
an object are listed in an order that carries no meaning. -/
inductive Json
  | null
  | bool (b : Bool)
  | number (text : Str)
  | string (s : Str)
  | array (items : List Json)
  | object (fields : List (Str × Json))

instance : Inhabited Json := ⟨.null⟩

/-- Model of the map access `m[k]` on a `map[string]interface{}`. -/
def objGet : List (Str × Json) → Str → Option Json
  | [], _ => none
  | (k1, v) :: rest, k => if k1 = k then some v else objGet rest k

/-- Model of the assignment `m[k] = v` on a `map[string]interface{}`. -/
def objSet : List (Str × Json) → Str → Json → List (Str × Json)
  | [], k, v => [(k, v)]
  | (k1, v1) :: rest, k, v => if k1 = k then (k1, v) :: rest else (k1, v1) :: objSet rest k v

/-- The error `gabs.ErrPathCollision`. -/
def ErrPathCollision : GoError := .text "encountered value collision whilst building path".toList

/-- What the library gabs does when a path meets an array, which differs between its
versions: the result of `Search` from the array on, and the result of `Set` from the array
on (the value that takes the place of the array, or the error). -/
structure GabsArrays where
  search : List Json → List Str → Json
  set : List Json → Json → List Str → Except GoError Json

/-- Model of `(*gabs.Container).Search(hierarchy...)` followed by `Data()`: `null` when
the path is not found. -/
def Search (lib : GabsArrays) : Json → List Str → Json
  | object, [] => object
  | .object fields, pathSeg :: rest =>
    match objGet fields pathSeg with
    | none => .null
    | some child => Search lib child rest
  | .array items, pathSeg :: rest => lib.search items (pathSeg :: rest)
  | _, _ :: _ => .null

/-- Model of `(*gabs.Container).Children()`: the elements of an array, the values of an
object in the order in which Go visits the map (the parameter `ord`), and nothing for
every other value. -/
def Children (ord : List Json → List Json) : Json → List Json
  | .array items => items
  | .object fields => ord (fields.map Prod.snd)
  | _ => []

/-- Model of `(*gabs.Container).ChildrenMap()`: the fields of an object, and the empty map
for every other value. -/
def ChildrenMap : Json → List (Str × Json)
  | .object fields => fields
  | _ => []

/-- Model of `(*gabs.Container).Set(value, hierarchy...)` on the value of the container:
the new value of the container, or the error.  A part of the path that is missing or
`nil` is built as an object; the last segment is assigned.  An error leaves the container
as it was. -/
def Set (lib : GabsArrays) : Json → Json → List Str → Except GoError Json
  | _, value, [] => .ok value
  | .object fields, value, pathSeg :: rest =>
    match Set lib ((objGet fields pathSeg).getD .null) value rest with
    | .error e => .error e
    | .ok child => .ok (.object (objSet fields pathSeg child))
  | .null, value, pathSeg :: rest =>
    match Set lib .null value rest with
    | .error e => .error e
    | .ok child => .ok (.object [(pathSeg, child)])
  | .array items, value, pathSeg :: rest => lib.set items value (pathSeg :: rest)
  | _, _, _ :: _ => .error ErrPathCollision

/-- The variable name of a spec entry: `spec.Search("variable").Data().(string)`, the
empty string when the value is not a string. -/
def variableName (lib : GabsArrays) (spec : Json) : Str :=
  match Search lib spec ["variable".toList] with
  | .string s => s
  | _ => []

/-- The inner loop of `addSpecsMap` over the fields of a spec entry, in the order in which
Go visits the map: the details and the error returned. -/
def setSpecFields (lib : GabsArrays) (name : Str) :
    List (Str × Json) → Json → Json × Option GoError
  | [], details => (details, none)
  | (k, v) :: rest, details =>
    match Set lib details v ["specsMap".toList, name, k] with
    | .error e => (details, some e)
    | .ok details1 => setSpecFields lib name rest details1

/-- The outer loop of `addSpecsMap` over the spec entries, from the index `index` on.  The
error of the last `Set`, the one of the index, is discarded. -/
def addSpecsMapFrom (lib : GabsArrays) (ord : List (Str × Json) → List (Str × Json)) :
    Nat → List Json → Json → Json × Option GoError
  | _, [], details => (details, none)
  | index, spec :: rest, details =>
    match setSpecFields lib (variableName lib spec) (ord (ChildrenMap spec)) details with
    | (details1, some e) => (details1, some e)
    | (details1, none) =>
      match Set lib details1 (.number (natToStr index))
          ["specsMap".toList, variableName lib spec, "index".toList] with
      | .error _ => addSpecsMapFrom lib ord (index + 1) rest details1
      | .ok details2 => addSpecsMapFrom lib ord (index + 1) rest details2

/-- Embedding of `addSpecsMap`: the details after the call, and the error returned.  The
entries are `details.Path("spec").Children()`, read before the loop starts; `ord` is the
order in which `range spec.ChildrenMap()` visits the fields of an entry and `ordChildren`
the order in which `Children()` lists the values of an object. -/
def addSpecsMap (lib : GabsArrays) (ord : List (Str × Json) → List (Str × Json))
    (ordChildren : List Json → List Json) (details : Json) : Json × Option GoError :=
  addSpecsMapFrom lib ord 0 (Children ordChildren (Search lib details ["spec".toList])) details

/-- A library for examples: a path that meets an array finds nothing and cannot be
set. -/
def exampleGabs : GabsArrays where
  search := fun _ _ => .null
  set := fun _ _ _ => .error ErrPathCollision

/-- The variable name of the fields of a spec entry: the string `variable`, and the
empty string when there is none. -/
def variableOf (fields : List (Str × Json)) : Str :=
  match objGet fields "variable".toList with
  | some (.string s) => s
  | _ => []

/-- The entry of `specsMap` for the spec entry at position `index` with the fields
`fields`: its fields and the index. -/
def specsMapEntry (fields : List (Str × Json)) (index : Nat) : Json :=
  .object (fields ++ [("index".toList, .number (natToStr index))])

/-- The entries of `specsMap` for the spec entries from position `index` on, under their
variable names. -/
def specsMapEntries (ord : List (Str × Json) → List (Str × Json)) :
    Nat → List (List (Str × Json)) → List (Str × Json)
  | _, [] => []
  | index, fields :: rest =>
    (variableOf fields, specsMapEntry (ord fields) index) :: specsMapEntries ord (index + 1) rest

/-- The details with the fields `fields` after the object `specsMap` with the entries
`sm` has been added to them; with no entry, nothing is added. -/
def withSpecsMap (fields : List (Str × Json)) : List (Str × Json) → Json
  | [] => .object fields
  | entry :: sm => .object (fields ++ [("specsMap".toList, .object (entry :: sm))])

/-- The details of the test `TestAddSpecsMap`, with two of its four spec entries and two of
the fields of each. -/
def testDetails : Json :=
  .object
    [ ("description".toList, .string []),
      ("name".toList, .string []),
      ("spec".toList, .array
        [ .object [ ("required".toList, .bool true),
                    ("variable".toList, .string "unifiedos_image".toList) ],
          .object [ ("default".toList, .number "10".toList),
                    ("variable".toList, .string "unifiedos_data_disk_size".toList) ] ]) ]

end Server

/-! # Theorems -/

namespace Gluster

variable {σ : Type}

/-! ## Lemmas on `executeCommandsLocally` -/

theorem fatalAt_zero (env : Env σ) (st : σ) (c : Str) (cs : List Str) :
    fatalAt env st (c :: cs) 0 = failsFatally env st c := by
  simp [fatalAt, runAll]

theorem fatalAt_succ (env : Env σ) (st : σ) (c : Str) (cs : List Str) (i : Nat) :
    fatalAt env st (c :: cs) (i + 1) =
      fatalAt env (env.run st "bash".toList ["-c".toList, c]).1 cs i := by
  simp [fatalAt, runAll]

theorem executeCommandsLocally_cons (env : Env σ) (w : World σ) (c : Str) (cs : List Str) :
    executeCommandsLocally env w (c :: cs) =
      if failsFatally env w.st c then
        (⟨(env.run w.st "bash".toList ["-c".toList, c]).1, w.trace ++ [bashC c]⟩,
          some (.text commandExecutionError))
      else
        executeCommandsLocally env
          ⟨(env.run w.st "bash".toList ["-c".toList, c]).1, w.trace ++ [bashC c]⟩ cs := by
  simp only [executeCommandsLocally, World.run, failsFatally, bashC]
  cases h : (env.run w.st "bash".toList ["-c".toList, c]).2.2 with
  | none => simp
  | some e => cases hx : exempt c e <;> simp

theorem executeCommandsLocally_runs (env : Env σ) (cmds : List Str) :
    ∀ w : World σ, RunsUntilFirstFatal env w cmds (executeCommandsLocally env w cmds) := by
  induction cmds with
  | nil =>
    intro w
    left
    simp [executeCommandsLocally, fatalAt, runAll]
  | cons c cs ih =>
    intro w
    rw [executeCommandsLocally_cons]
    cases hf : failsFatally env w.st c with
    | true =>
      right
      refine ⟨0, ?_, ?_, ?_, ?_⟩
      · rw [fatalAt_zero]; exact hf
      · intro j hj; omega
      · simp
      · simp
    | false =>
      simp only [Bool.false_eq_true, if_false]
      rcases ih ⟨(env.run w.st "bash".toList ["-c".toList, c]).1, w.trace ++ [bashC c]⟩ with
        ⟨hno, hst, htr, hres⟩ | ⟨k, hk, hlt, htr, hres⟩
      · left
        refine ⟨?_, ?_, ?_, hres⟩
        · intro i
          cases i with
          | zero => rw [fatalAt_zero]; exact hf
          | succ i => rw [fatalAt_succ]; exact hno i
        · rw [hst]; rfl
        · rw [htr]; simp
      · right
        refine ⟨k + 1, ?_, ?_, ?_, hres⟩
        · rw [fatalAt_succ]; exact hk
        · intro j hj
          cases j with
          | zero => rw [fatalAt_zero]; exact hf
          | succ j => rw [fatalAt_succ]; exact hlt j (by omega)
        · rw [htr]; simp

theorem executeCommandsLocally_trace (env : Env σ) (w : World σ) (cmds : List Str) :
    ∃ n, (executeCommandsLocally env w cmds).1.trace = w.trace ++ (cmds.take n).map bashC := by
  rcases executeCommandsLocally_runs env cmds w with ⟨_, _, htr, _⟩ | ⟨k, _, _, htr, _⟩
  · exact ⟨cmds.length, by simpa using htr⟩
  · exact ⟨k + 1, htr⟩

/-! ## Lemmas on the calls to the peers -/

theorem peerFailsAt_zero (env : Env σ) (st : σ) (r : HttpRequest) (rs : List HttpRequest) :
    peerFailsAt env st (r :: rs) 0 = ((env.httpDo st r).2 != some 200) := by
  simp [peerFailsAt, httpAll]

theorem peerFailsAt_succ (env : Env σ) (st : σ) (r : HttpRequest) (rs : List HttpRequest)
    (i : Nat) :
    peerFailsAt env st (r :: rs) (i + 1) = peerFailsAt env (env.httpDo st r).1 rs i := by
  simp [peerFailsAt, httpAll]

theorem cannotBuildAt_zero (env : Env σ) (r : HttpRequest) (rs : List HttpRequest) :
    cannotBuildAt env (r :: rs) 0 = !env.newRequest r.url := by
  simp [cannotBuildAt]

theorem cannotBuildAt_succ (env : Env σ) (r : HttpRequest) (rs : List HttpRequest) (i : Nat) :
    cannotBuildAt env (r :: rs) (i + 1) = cannotBuildAt env rs i := by
  simp [cannotBuildAt]

theorem callPeers_cons (env : Env σ) (mkReq : Str → HttpRequest) (w : World σ) (r : Str)
    (rs : List Str) :
    callPeers env mkReq w (r :: rs) =
      if env.newRequest (mkReq r).url = false then (w, .panic)
      else if (env.httpDo w.st (mkReq r)).2 != some 200 then
        (⟨(env.httpDo w.st (mkReq r)).1, w.trace ++ [.http (mkReq r)]⟩,
          .error (.text commandExecutionError))
      else
        callPeers env mkReq
          ⟨(env.httpDo w.st (mkReq r)).1, w.trace ++ [.http (mkReq r)]⟩ rs := by
  simp only [callPeers, World.httpDo]
  cases hb : env.newRequest (mkReq r).url with
  | false => simp
  | true =>
    simp only [if_true, Bool.true_eq_false, if_false]
    cases h : (env.httpDo w.st (mkReq r)).2 with
    | none => simp
    | some status =>
      by_cases hs : status = 200
      · simp [hs]
      · simp [hs]

theorem callPeers_spec (env : Env σ) (mkReq : Str → HttpRequest) (rs : List Str) :
    ∀ w : World σ,
      (AllPeersAnswer env w.st (rs.map mkReq) ∧
          (callPeers env mkReq w rs).1.st = httpAll env w.st (rs.map mkReq) ∧
          (callPeers env mkReq w rs).1.trace = w.trace ++ (rs.map mkReq).map Event.http ∧
          (callPeers env mkReq w rs).2 = .ok ()) ∨
      StopsAtPeer env w.st w.trace (rs.map mkReq) (callPeers env mkReq w rs) := by
  induction rs with
  | nil =>
    intro w
    left
    simp [callPeers, AllPeersAnswer, cannotBuildAt, peerFailsAt, httpAll]
  | cons r rs ih =>
    intro w
    rw [callPeers_cons]
    cases hb : env.newRequest (mkReq r).url with
    | false =>
      right
      refine ⟨0, fun j hj => absurd hj (Nat.not_lt_zero j), Or.inl ⟨?_, ?_, ?_⟩⟩
      · rw [List.map_cons, cannotBuildAt_zero, hb]; rfl
      · simp
      · simp
    | true =>
      simp only [Bool.true_eq_false, if_false]
      cases hf : ((env.httpDo w.st (mkReq r)).2 != some 200) with
      | true =>
        right
        refine ⟨0, fun j hj => absurd hj (Nat.not_lt_zero j), Or.inr ⟨?_, ?_, ?_, ?_⟩⟩
        · rw [List.map_cons, cannotBuildAt_zero, hb]; rfl
        · rw [List.map_cons, peerFailsAt_zero]; exact hf
        · simp
        · simp
      | false =>
        simp only [Bool.false_eq_true, if_false]
        have h0 : cannotBuildAt env (mkReq r :: rs.map mkReq) 0 = false ∧
            peerFailsAt env w.st (mkReq r :: rs.map mkReq) 0 = false := by
          rw [cannotBuildAt_zero, hb, peerFailsAt_zero, hf]
          exact ⟨rfl, rfl⟩
        rcases ih ⟨(env.httpDo w.st (mkReq r)).1, w.trace ++ [.http (mkReq r)]⟩ with
          ⟨hno, hst, htr, hres⟩ | ⟨k, hlt, hk⟩
        · left
          refine ⟨?_, ?_, ?_, hres⟩
          · intro i
            cases i with
            | zero => exact h0
            | succ i =>
              rw [List.map_cons, cannotBuildAt_succ, peerFailsAt_succ]
              exact hno i
          · rw [hst]; rfl
          · rw [htr]; simp
        · right
          refine ⟨k + 1, ?_, ?_⟩
          · intro j hj
            cases j with
            | zero => exact h0
            | succ j =>
              rw [List.map_cons, cannotBuildAt_succ, peerFailsAt_succ]
              exact hlt j (by omega)
          · rw [List.map_cons, cannotBuildAt_succ, peerFailsAt_succ]
            rcases hk with ⟨hc, htr, hres⟩ | ⟨hc, hp, htr, hres⟩
            · exact Or.inl ⟨hc, by rw [htr]; simp, hres⟩
            · exact Or.inr ⟨hc, hp, by rw [htr]; simp, hres⟩

/-- The shape shared by `createLvOnAllServers` and `deleteLvOnAllServers`: peer
discovery, then the calls to the peers, then the local commands. -/
theorem fansOut_of_shape (env : Env σ) (w : World σ) (mkReq : Str → HttpRequest)
    (cmds : List Str) (r : World σ × Outcome Unit)
    (hr : r =
      match (match getGlusterPeerServers env w with
        | (w1, .error e) => (w1, Outcome.error e)
        | (w1, .ok remotes) => callPeers env mkReq w1 remotes) with
      | (w1, .error e) => (w1, .error e)
      | (w1, .panic) => (w1, .panic)
      | (w1, .ok _) =>
        ((executeCommandsLocally env w1 cmds).1,
          errorOutcome (executeCommandsLocally env w1 cmds).2)) :
    FansOut env w mkReq cmds r := by
  subst hr
  unfold FansOut
  simp only [getGlusterPeerServers, World.run]
  rcases hrun : env.run w.st "bash".toList ["-c".toList, peerStatusCmd] with ⟨st1, out, err⟩
  cases err with
  | some e => simp [bashC]
  | none =>
    simp only []
    rcases callPeers_spec env mkReq (peerServersOfLines (splitLines out))
        ⟨st1, w.trace ++ [Event.exec "bash".toList ["-c".toList, peerStatusCmd]]⟩ with
      ⟨hno, hst, htr, hres⟩ | hstop
    · right
      rcases hc : callPeers env mkReq
          ⟨st1, w.trace ++ [Event.exec "bash".toList ["-c".toList, peerStatusCmd]]⟩
          (peerServersOfLines (splitLines out)) with ⟨w2, e2⟩
      rw [hc] at hst htr hres
      simp only at hst htr hres
      subst hres
      have hw2 : w2 = ⟨httpAll env st1 ((peerServersOfLines (splitLines out)).map mkReq),
          w.trace ++ [bashC peerStatusCmd] ++
            ((peerServersOfLines (splitLines out)).map mkReq).map Event.http⟩ := by
        cases w2
        simp only at hst htr
        simp [hst, htr, bashC]
      refine ⟨hno, ?_, ?_⟩
      · simp only [hw2]
      · simp only [hw2]
        exact executeCommandsLocally_trace env _ cmds
    · left
      rcases hc : callPeers env mkReq
          ⟨st1, w.trace ++ [Event.exec "bash".toList ["-c".toList, peerStatusCmd]]⟩
          (peerServersOfLines (splitLines out)) with ⟨w2, e2⟩
      rw [hc] at hstop
      obtain ⟨k, hlt, hk⟩ := hstop
      refine ⟨k, hlt, ?_⟩
      rcases hk with ⟨hcb, htr, hres⟩ | ⟨hcb, hp, htr, hres⟩
      · simp only at htr hres
        subst hres
        exact Or.inl ⟨hcb, by simpa [bashC] using htr, rfl⟩
      · simp only at htr hres
        subst hres
        exact Or.inr ⟨hcb, hp, by simpa [bashC] using htr, rfl⟩

/-! ## Command sequences (C7, C8) and the fan-out over the peers (C9) -/

/-- C7: for every command list and every runner, `executeCommandsLocally` calls
`bash -c` on exactly the commands up to and including the first one that fails with a
non-exempt error (on all of them, in order, when there is none) and returns the generic
error in the first case and `nil` in the second. -/
theorem executeCommandsLocally_stops_at_first_fatal (env : Env σ) (w : World σ)
    (cmds : List Str) :
    ((∀ i, fatalAt env w.st cmds i = false) ∧
        (executeCommandsLocally env w cmds).1.st = runAll env w.st cmds ∧
        (executeCommandsLocally env w cmds).1.trace = w.trace ++ cmds.map bashC ∧
        (executeCommandsLocally env w cmds).2 = none) ∨
    (∃ k, fatalAt env w.st cmds k = true ∧ (∀ j, j < k → fatalAt env w.st cmds j = false) ∧
        (executeCommandsLocally env w cmds).1.trace =
          w.trace ++ (cmds.take (k + 1)).map bashC ∧
        (executeCommandsLocally env w cmds).2 = some (.text commandExecutionError)) :=
  executeCommandsLocally_runs env cmds w

/-- C8: when every command that fails is an `lvextend` command whose error text contains
`exit status 5`, `executeCommandsLocally` runs all the commands, in order, and returns
`nil`. -/
theorem executeCommandsLocally_exempt_continues (env : Env σ) (w : World σ) (cmds : List Str)
    (h : ∀ i c e, cmds[i]? = some c →
      (env.run (runAll env w.st (cmds.take i)) "bash".toList ["-c".toList, c]).2.2 = some e →
      contains c "lvextend".toList = true ∧ contains e "exit status 5".toList = true) :
    (executeCommandsLocally env w cmds).1.trace = w.trace ++ cmds.map bashC ∧
      (executeCommandsLocally env w cmds).2 = none := by
  have hno : ∀ i, fatalAt env w.st cmds i = false := by
    intro i
    unfold fatalAt
    cases hc : cmds[i]? with
    | none => rfl
    | some c =>
      simp only [failsFatally]
      cases he : (env.run (runAll env w.st (cmds.take i)) "bash".toList ["-c".toList, c]).2.2 with
      | none => rfl
      | some e =>
        have := h i c e hc he
        simp only [exempt, this.1, this.2]
        rfl
  rcases executeCommandsLocally_runs env cmds w with ⟨_, _, htr, hres⟩ | ⟨k, hk, _, _, _⟩
  · exact ⟨htr, hres⟩
  · rw [hno k] at hk; cases hk

/-- Witness for C8: `lvextend` fails with `exit status 5`, and `xfs_growfs` is run after
it. -/
theorem executeCommandsLocally_exempt_continues_witness :
    (stubEnv.run () "bash".toList
        ["-c".toList, "lvextend -L 10M /dev/myvg/lv_pv".toList]).2.2
      = some "exit status 5".toList ∧
    (executeCommandsLocally stubEnv ⟨(), []⟩
        ["lvextend -L 10M /dev/myvg/lv_pv".toList, "xfs_growfs /dev/myvg/lv_pv".toList]).1.trace
      = [] ++ ["lvextend -L 10M /dev/myvg/lv_pv".toList,
          "xfs_growfs /dev/myvg/lv_pv".toList].map bashC ∧
    (executeCommandsLocally stubEnv ⟨(), []⟩
        ["lvextend -L 10M /dev/myvg/lv_pv".toList, "xfs_growfs /dev/myvg/lv_pv".toList]).2
      = none :=
  ⟨by decide,
    executeCommandsLocally_exempt_continues stubEnv ⟨(), []⟩
      ["lvextend -L 10M /dev/myvg/lv_pv".toList, "xfs_growfs /dev/myvg/lv_pv".toList]
      (by
        intro i c e hc he
        match i, hc with
        | 0, hc =>
          simp only [List.getElem?_cons_zero, Option.some.injEq] at hc
          subst hc
          have hrun : (stubEnv.run (runAll stubEnv ()
              (List.take 0 ["lvextend -L 10M /dev/myvg/lv_pv".toList,
                "xfs_growfs /dev/myvg/lv_pv".toList])) "bash".toList
              ["-c".toList, "lvextend -L 10M /dev/myvg/lv_pv".toList]).2.2
              = some "exit status 5".toList := by decide
          rw [hrun] at he
          cases he
          exact ⟨by decide, by decide⟩
        | 1, hc =>
          simp only [List.getElem?_cons_succ, List.getElem?_cons_zero, Option.some.injEq] at hc
          subst hc
          have hrun : (stubEnv.run (runAll stubEnv ()
              (List.take 1 ["lvextend -L 10M /dev/myvg/lv_pv".toList,
                "xfs_growfs /dev/myvg/lv_pv".toList])) "bash".toList
              ["-c".toList, "xfs_growfs /dev/myvg/lv_pv".toList]).2.2 = none := by decide
          rw [hrun] at he
          cases he
        | i + 2, hc => simp at hc)⟩

/-- Where C9 holds and where it does not, for every environment: `createLvOnAllServers`
and `deleteLvOnAllServers` ask for the peers, send one request per peer in discovery
order, and run the local commands only after every peer has answered 200; when discovery
fails, or a peer is unreachable or answers with another status, nothing more is sent or
run and the generic error is returned; but when no request can be built for a peer, the
function panics instead of returning the generic error. -/
theorem lvOnAllServers_fan_out (env : Env σ) (cfg : Config) (w : World σ)
    (size mountPoint lvName : Str) :
    FansOut env w (createLvRequest cfg size mountPoint lvName)
        (createLvCommands cfg size mountPoint lvName)
        (createLvOnAllServers env cfg w size mountPoint lvName) ∧
    FansOut env w (deleteLvRequest cfg lvName) (deleteLvCommands cfg lvName)
        (deleteLvOnAllServers env cfg w lvName) :=
  ⟨fansOut_of_shape env w _ _ _ rfl, fansOut_of_shape env w _ _ _ rfl⟩

/-- C9 at its failing input: the peers `h1`, `a b` and `h3` are discovered.  For the
peer `a b` no request can be built (a blank in the host), so that it cannot be reached;
`createLvOnAllServers` and `deleteLvOnAllServers` ask `h1`, which answers 200, and then
panic instead of returning the generic error.  Nothing is sent to `h3` and no local
command is run. -/
theorem lvOnAllServers_unbuildable_request_panics :
    (getGlusterPeerServers testEnv
      ⟨["Hostname: h1\nHostname: a b\nHostname: h3".toList], []⟩).2 =
      .ok ["h1".toList, "a b".toList, "h3".toList] ∧
    testEnv.newRequest (createLvRequest testConfig "10M".toList "/basepath/p/pv1".toList
      "lv_p_pv1".toList "a b".toList).url = false ∧
    (createLvOnAllServers testEnv testConfig
      ⟨["Hostname: h1\nHostname: a b\nHostname: h3".toList], []⟩
      "10M".toList "/basepath/p/pv1".toList "lv_p_pv1".toList).2 = .panic ∧
    (createLvOnAllServers testEnv testConfig
      ⟨["Hostname: h1\nHostname: a b\nHostname: h3".toList], []⟩
      "10M".toList "/basepath/p/pv1".toList "lv_p_pv1".toList).1.trace =
      [bashC peerStatusCmd,
        .http (createLvRequest testConfig "10M".toList "/basepath/p/pv1".toList
          "lv_p_pv1".toList "h1".toList)] ∧
    (deleteLvOnAllServers testEnv testConfig
      ⟨["Hostname: h1\nHostname: a b\nHostname: h3".toList], []⟩ "vol_p_pv1".toList).2 =
      .panic ∧
    (deleteLvOnAllServers testEnv testConfig
      ⟨["Hostname: h1\nHostname: a b\nHostname: h3".toList], []⟩ "vol_p_pv1".toList).1.trace =
      [bashC peerStatusCmd, .http (deleteLvRequest testConfig "vol_p_pv1".toList "h1".toList)] := by
  refine ⟨by decide, by decide, by decide, by decide, by decide, by decide⟩

/-! ## Lemmas on the string functions -/

theorem contains_cons_false {c : Char} {cs sub : Str} (h : contains (c :: cs) sub = false) :
    sub.isPrefixOf (c :: cs) = false ∧ contains cs sub = false := by
  simpa [contains] using h

theorem replaceFirst_of_isPrefixOf (old new s : Str) (h : old.isPrefixOf s = true) :
    replaceFirst old new s = new ++ s.drop old.length := by
  cases s with
  | nil =>
    have : old = [] := by cases old <;> simp_all
    subst this
    simp [replaceFirst]
  | cons c cs => simp [replaceFirst, h]

/-- Replacing the first `_pv` skips a text without `_pv` that is followed by a character
other than `p` and `v`. -/
theorem replaceFirst_pv_skip (new t : Str) (c : Char) (hp : c ≠ 'p') (hv : c ≠ 'v') :
    ∀ a : Str, contains a "_pv".toList = false →
      replaceFirst "_pv".toList new (a ++ c :: t) = a ++ replaceFirst "_pv".toList new (c :: t) := by
  intro a
  induction a with
  | nil => intro _; rfl
  | cons x a ih =>
    intro h
    obtain ⟨hx, ha⟩ := contains_cons_false h
    have hnot : ("_pv".toList).isPrefixOf (x :: (a ++ c :: t)) = false := by
      match a, hx with
      | [], _ =>
        simp only [String.toList, List.nil_append, List.isPrefixOf]
        simp [Ne.symm hp]
      | [y], _ =>
        simp only [String.toList, List.cons_append, List.nil_append, List.isPrefixOf]
        simp [Ne.symm hv]
      | y :: z :: r, hx =>
        simp only [String.toList, List.cons_append, List.isPrefixOf] at hx ⊢
        simpa using hx
    have step : replaceFirst "_pv".toList new (x :: (a ++ c :: t)) =
        x :: replaceFirst "_pv".toList new (a ++ c :: t) := by
      rw [replaceFirst, hnot]
      simp
    rw [List.cons_append, step, ih ha, List.cons_append]

/-- The mount path of a volume name, for any text after `_pv`. -/
theorem getMountPath_of_parts (cfg : Config) (project suffix : Str)
    (hpv : contains project "_pv".toList = false)
    (hbase : contains cfg.BasePath "_pv".toList = false) :
    getMountPath cfg ("vol_".toList ++ project ++ "_pv".toList ++ suffix) =
      cfg.BasePath ++ "/".toList ++ project ++ "/pv".toList ++ suffix := by
  unfold getMountPath
  have h1 : replaceFirst "vol_".toList (cfg.BasePath ++ "/".toList)
      ("vol_".toList ++ project ++ "_pv".toList ++ suffix) =
      cfg.BasePath ++ '/' :: (project ++ '_' :: ('p' :: 'v' :: suffix)) := by
    rw [replaceFirst_of_isPrefixOf]
    · simp
    · simp [List.isPrefixOf]
  simp only [h1]
  rw [replaceFirst_pv_skip _ _ '/' (by decide) (by decide) _ hbase]
  have h2 : replaceFirst "_pv".toList "/pv".toList ('/' :: (project ++ '_' :: ('p' :: 'v' :: suffix)))
      = '/' :: replaceFirst "_pv".toList "/pv".toList (project ++ '_' :: ('p' :: 'v' :: suffix)) := by
    simp [replaceFirst, List.isPrefixOf]
  rw [h2, replaceFirst_pv_skip _ _ '_' (by decide) (by decide) _ hpv]
  rw [replaceFirst_of_isPrefixOf _ _ _ (by simp [List.isPrefixOf])]
  simp

/-! ## Mount paths (C4) -/

/-- Where C4 holds: for every project name that contains neither `vol_` nor `_pv`, every
number `N` and every base path that does not contain `_pv`, the mount path of
`vol_<project>_pv<N>` is `<basePath>/<project>/pv<N>`. -/
theorem getMountPath_of_volume_name (cfg : Config) (project : Str) (N : Int)
    (_hvol : contains project "vol_".toList = false)
    (hpv : contains project "_pv".toList = false)
    (hbase : contains cfg.BasePath "_pv".toList = false) :
    getMountPath cfg ("vol_".toList ++ project ++ "_pv".toList ++ intToStr N) =
      cfg.BasePath ++ "/".toList ++ project ++ "/pv".toList ++ intToStr N :=
  getMountPath_of_parts cfg project (intToStr N) hpv hbase

/-- Example for `getMountPath_of_volume_name`: the test `TestGetMountPath_FirstVolume`. -/
theorem getMountPath_of_volume_name_example :
    getMountPath { testConfig with BasePath := "/gluster/project".toList }
        ("vol_".toList ++ "some-project".toList ++ "_pv".toList ++ intToStr 1) =
      "/gluster/project".toList ++ "/".toList ++ "some-project".toList ++ "/pv".toList
        ++ intToStr 1 :=
  getMountPath_of_volume_name { testConfig with BasePath := "/gluster/project".toList }
    "some-project".toList 1 (by decide) (by decide) (by decide)

/-- C4 at its failing input: with the base path `/gluster_pvs` the second replacement
hits the `_pv` of the base path, and the mount path of `vol_some-project_pv1` is
`/gluster/pvs/some-project_pv1`, not `/gluster_pvs/some-project/pv1`, the mount point that
`createVolume` makes for that volume.  Under the base path of the test
`TestGetMountPath_FirstVolume` the mount path is the claimed one. -/
theorem getMountPath_base_path_collision :
    contains "some-project".toList "vol_".toList = false ∧
    contains "some-project".toList "_pv".toList = false ∧
    getMountPath { testConfig with BasePath := "/gluster_pvs".toList }
        ("vol_".toList ++ "some-project".toList ++ "_pv".toList ++ intToStr 1) =
      "/gluster/pvs/some-project_pv1".toList ∧
    getMountPath { testConfig with BasePath := "/gluster_pvs".toList }
        ("vol_".toList ++ "some-project".toList ++ "_pv".toList ++ intToStr 1) ≠
      "/gluster_pvs".toList ++ "/".toList ++ "some-project".toList ++ "/pv".toList
        ++ intToStr 1 ∧
    createdMountPoint { testConfig with BasePath := "/gluster_pvs".toList }
      "some-project".toList 1 = "/gluster_pvs/some-project/pv1".toList ∧
    getMountPath { testConfig with BasePath := "/gluster/project".toList }
      "vol_some-project_pv1".toList = "/gluster/project/some-project/pv1".toList := by
  refine ⟨by decide, by decide, by decide, by decide, by decide, by decide⟩

/-! ## Lemmas on decimal numbers -/

theorem digitsVal_concat (xs : Str) (c : Char) :
    digitsVal (xs ++ [c]) = 10 * digitsVal xs + digitVal c := by
  simp [digitsVal, List.foldl_append]

theorem isDigit_digitChar (d : Nat) (h : d < 10) : isDigit (digitChar d) = true := by
  interval_cases d <;> decide

theorem digitVal_digitChar (d : Nat) (h : d < 10) : digitVal (digitChar d) = d := by
  interval_cases d <;> decide

theorem natDigits_spec : ∀ (fuel n : Nat) (acc : Str), n < fuel →
    ∃ ds, natDigits fuel n acc = ds ++ acc ∧ ds ≠ [] ∧ ds.all isDigit = true ∧
      digitsVal ds = n := by
  intro fuel
  induction fuel with
  | zero => intro n acc h; omega
  | succ fuel ih =>
    intro n acc h
    by_cases h10 : n < 10
    · refine ⟨[digitChar n], ?_, ?_, ?_, ?_⟩
      · simp [natDigits, h10]
      · simp
      · simp [isDigit_digitChar n h10]
      · simp [digitsVal, digitVal_digitChar n h10]
    · obtain ⟨ds, hds, hne, hall, hval⟩ :=
        ih (n / 10) (digitChar (n % 10) :: acc) (by omega)
      refine ⟨ds ++ [digitChar (n % 10)], ?_, ?_, ?_, ?_⟩
      · simp [natDigits, h10, hds]
      · simp
      · simp only [List.all_append, hall, Bool.true_and, List.all_cons, List.all_nil,
          Bool.and_true]
        exact isDigit_digitChar _ (Nat.mod_lt _ (by decide))
      · rw [digitsVal_concat, hval, digitVal_digitChar _ (Nat.mod_lt _ (by decide))]
        omega

theorem natToStr_spec (n : Nat) :
    natToStr n ≠ [] ∧ (natToStr n).all isDigit = true ∧ digitsVal (natToStr n) = n := by
  obtain ⟨ds, hds, hne, hall, hval⟩ := natDigits_spec (n + 1) n [] (by omega)
  rw [List.append_nil] at hds
  unfold natToStr
  rw [hds]
  exact ⟨hne, hall, hval⟩

theorem atoi_of_digits (ds : Str) (hne : ds ≠ []) (hall : ds.all isDigit = true) :
    atoi ds = if (digitsVal ds : Int) ≤ maxInt then .ok (digitsVal ds) else .error .rangeErr := by
  cases ds with
  | nil => exact absurd rfl hne
  | cons c cs =>
    have hc : isDigit c = true := by
      simp only [List.all_cons, Bool.and_eq_true] at hall
      exact hall.1
    have hplus : c ≠ '+' := by
      intro h; subst h; revert hc; decide
    have hminus : c ≠ '-' := by
      intro h; subst h; revert hc; decide
    simp [atoi, hplus, hminus, atoiDigits, hall]

theorem atoi_natToStr (n : Nat) :
    atoi (natToStr n) = if (n : Int) ≤ maxInt then .ok (n : Int) else .error .rangeErr := by
  obtain ⟨hne, hall, hval⟩ := natToStr_spec n
  rw [atoi_of_digits _ hne hall, hval]

theorem atoiDigits_ok {neg : Bool} {ds : Str} {v : Int} (h : atoiDigits neg ds = .ok v) :
    ds ≠ [] ∧ ds.all isDigit = true := by
  unfold atoiDigits at h
  by_cases hne : ds = []
  · simp [hne] at h
  · by_cases hall : ds.all isDigit = true
    · exact ⟨hne, hall⟩
    · simp [hne, hall] at h

theorem atoi_ok_isSignedDigits {s : Str} {v : Int} (h : atoi s = .ok v) :
    isSignedDigits s = true := by
  cases s with
  | nil => simp [atoi] at h
  | cons c cs =>
    unfold atoi at h
    unfold isSignedDigits
    by_cases hp : c = '+'
    · simp only [hp, if_true] at h
      obtain ⟨hne, hall⟩ := atoiDigits_ok h
      simp [hp, hall, hne]
    · by_cases hm : c = '-'
      · subst hm
        simp only [if_true, if_neg hp] at h
        obtain ⟨hne, hall⟩ := atoiDigits_ok h
        simp [hall, hne]
      · simp only [if_neg hp, if_neg hm] at h
        obtain ⟨_, hall⟩ := atoiDigits_ok h
        simp only [hp, hm, or_self, if_false]
        exact hall

theorem isSignedDigits_last_isDigit {b : Str} {m : Char}
    (h : isSignedDigits (b ++ [m]) = true) : isDigit m = true := by
  cases b with
  | nil =>
    simp only [List.nil_append, isSignedDigits] at h
    by_cases hs : m = '+' ∨ m = '-'
    · simp [hs] at h
    · simpa [hs] using h
  | cons c cs =>
    simp only [List.cons_append, isSignedDigits] at h
    by_cases hs : c = '+' ∨ c = '-'
    · simp only [hs, if_true, Bool.and_eq_true, List.all_append, List.all_cons, List.all_nil,
        Bool.and_true] at h
      exact h.2.2
    · simp only [hs, if_false, List.all_cons, List.all_append, List.all_nil, Bool.and_true,
        Bool.and_eq_true] at h
      exact h.2.2

theorem hasSuffix_singleton {s : Str} {m : Char} (h : hasSuffix s [m] = true) :
    ∃ a, s = a ++ [m] := by
  unfold hasSuffix at h
  rw [List.reverse_singleton, List.isPrefixOf_iff_prefix] at h
  obtain ⟨t, ht⟩ := h
  refine ⟨t.reverse, ?_⟩
  have := congrArg List.reverse ht
  simpa using this.symm

theorem hasSuffix_concat (a : Str) (m c : Char) :
    hasSuffix (a ++ [m]) [c] = (c == m) := by
  simp [hasSuffix, List.isPrefixOf]

/-- Removing the first `m` of a text that ends in `m` leaves the text without its last
character, or a text that still ends in `m`. -/
theorem replaceFirst_single (m : Char) : ∀ a : Str,
    replaceFirst [m] [] (a ++ [m]) = a ∨ ∃ b, replaceFirst [m] [] (a ++ [m]) = b ++ [m] := by
  intro a
  induction a with
  | nil => left; simp [replaceFirst, List.isPrefixOf]
  | cons x a ih =>
    by_cases hx : m = x
    · right
      exact ⟨a, by simp [replaceFirst, List.isPrefixOf, hx]⟩
    · have step : replaceFirst [m] [] (x :: a ++ [m]) = x :: replaceFirst [m] [] (a ++ [m]) := by
        simp [replaceFirst, List.isPrefixOf, hx]
      rcases ih with h | ⟨b, h⟩
      · left; rw [step, h]
      · right; exact ⟨x :: b, by rw [step, h]; rfl⟩

theorem replaceFirst_single_of_not_mem (m : Char) : ∀ a : Str, m ∉ a →
    replaceFirst [m] [] (a ++ [m]) = a := by
  intro a
  induction a with
  | nil => intro _; simp [replaceFirst, List.isPrefixOf]
  | cons x a ih =>
    intro h
    have hx : m ≠ x := fun e => h (by simp [e])
    have ha : m ∉ a := fun e => h (by simp [e])
    simp [replaceFirst, List.isPrefixOf, hx, ih ha]

/-- A size that `atoi` accepts once its first `m` is removed is a signed integer
followed by `m`. -/
theorem signed_of_atoi_replaceFirst (m : Char) (hm : isDigit m = false) (a : Str) (v : Int)
    (h : atoi (replaceFirst [m] [] (a ++ [m])) = .ok v) : isSignedDigits a = true := by
  rcases replaceFirst_single m a with h1 | ⟨b, h1⟩
  · rw [h1] at h
    exact atoi_ok_isSignedDigits h
  · rw [h1] at h
    have := isSignedDigits_last_isDigit (atoi_ok_isSignedDigits h)
    rw [hm] at this
    cases this

/-! ## Size validation (C5, C6) -/

theorem validateSizeInput_none_signed (cfg : Config) (size : Str)
    (h : validateSizeInput cfg size = none) : matchesSignedSizePattern size = true := by
  unfold validateSizeInput at h
  by_cases hM : hasSuffix size "M".toList = true
  · obtain ⟨a, rfl⟩ := hasSuffix_singleton (m := 'M') hM
    rw [if_pos hM] at h
    cases hat : atoi (replaceFirst "M".toList [] (a ++ ['M'])) with
    | error e => rw [hat] at h; cases h
    | ok v =>
      have := signed_of_atoi_replaceFirst 'M' (by decide) a v hat
      simp [matchesSignedSizePattern, this]
  · rw [if_neg hM] at h
    by_cases hG : hasSuffix size "G".toList = true
    · obtain ⟨a, rfl⟩ := hasSuffix_singleton (m := 'G') hG
      rw [if_pos hG] at h
      cases hat : atoi (replaceFirst "G".toList [] (a ++ ['G'])) with
      | error e => rw [hat] at h; cases h
      | ok v =>
        have := signed_of_atoi_replaceFirst 'G' (by decide) a v hat
        simp [matchesSignedSizePattern, this]
    · rw [if_neg hG] at h
      cases h

/-- C5, as amended: `validateSizeInput` returns an error for every size that is not an
optionally signed decimal integer followed by exactly one `M` or `G`. -/
theorem validateSizeInput_rejects_malformed (cfg : Config) (size : Str)
    (h : matchesSignedSizePattern size = false) : validateSizeInput cfg size ≠ none := by
  intro hnone
  rw [validateSizeInput_none_signed cfg size hnone] at h
  cases h

/-- Witness for C5: `12MB` and `M5M` are rejected. -/
theorem validateSizeInput_rejects_malformed_witness :
    validateSizeInput testConfig "12MB".toList ≠ none ∧
    validateSizeInput testConfig "M5M".toList ≠ none :=
  ⟨validateSizeInput_rejects_malformed testConfig "12MB".toList (by decide),
    validateSizeInput_rejects_malformed testConfig "M5M".toList (by decide)⟩

/-- Counterexample to C5 as stated: `-5M` and `+7G` do not match `^\d+[MG]$`, and
`validateSizeInput` accepts them, because `strconv.Atoi` reads a sign. -/
theorem validateSizeInput_signed_counterexample :
    matchesSizePattern "-5M".toList = false ∧
    validateSizeInput testConfig "-5M".toList = none ∧
    matchesSizePattern "+7G".toList = false ∧
    validateSizeInput testConfig "+7G".toList = none := by
  refine ⟨by decide, by decide, by decide, by decide⟩

theorem not_mem_natToStr (n : Nat) (m : Char) (hm : isDigit m = false) : m ∉ natToStr n := by
  intro hmem
  have hall := (natToStr_spec n).2.1
  rw [List.all_eq_true] at hall
  rw [hall m hmem] at hm
  cases hm

theorem validateSizeInput_M (cfg : Config) (n : Nat) :
    validateSizeInput cfg (natToStr n ++ "M".toList) =
      if (n : Int) ≤ maxInt then
        (if (n : Int) ≤ MaxMB then none
          else some (.text "Your size is to big for suffix 'M' use 'G' instead".toList))
      else some (suffixWrongError (natToStr n ++ "M".toList)) := by
  have hsuf : hasSuffix (natToStr n ++ "M".toList) "M".toList = true :=
    hasSuffix_concat (natToStr n) 'M' 'M'
  have hrep : replaceFirst "M".toList [] (natToStr n ++ "M".toList) = natToStr n :=
    replaceFirst_single_of_not_mem 'M' _ (not_mem_natToStr n 'M' (by decide))
  unfold validateSizeInput
  rw [if_pos hsuf, hrep, atoi_natToStr]
  by_cases hr : (n : Int) ≤ maxInt
  · simp only [hr, if_true]
  · simp only [hr, if_false]

theorem validateSizeInput_G (cfg : Config) (n : Nat) :
    validateSizeInput cfg (natToStr n ++ "G".toList) =
      if (n : Int) ≤ maxInt then
        (if (n : Int) > cfg.MaxGB then
          some (.text ("Max allowed size exceeded. Max allowed is: ".toList
            ++ intToStr cfg.MaxGB ++ "G".toList))
          else none)
      else some (suffixWrongError (natToStr n ++ "G".toList)) := by
  have hsufM : ¬ hasSuffix (natToStr n ++ "G".toList) "M".toList = true := by
    have : hasSuffix (natToStr n ++ "G".toList) "M".toList = false :=
      hasSuffix_concat (natToStr n) 'G' 'M'
    rw [this]; simp
  have hsuf : hasSuffix (natToStr n ++ "G".toList) "G".toList = true :=
    hasSuffix_concat (natToStr n) 'G' 'G'
  have hrep : replaceFirst "G".toList [] (natToStr n ++ "G".toList) = natToStr n :=
    replaceFirst_single_of_not_mem 'G' _ (not_mem_natToStr n 'G' (by decide))
  unfold validateSizeInput
  rw [if_neg hsufM, if_pos hsuf, hrep, atoi_natToStr]
  by_cases hr : (n : Int) ≤ maxInt
  · simp only [hr, if_true]
  · simp only [hr, if_false]

/-- C6, as amended: for every natural number `n`, `validateSizeInput("<n>M")` succeeds
iff `n ≤ 1024`; for `1024 < n ≤ maxInt` its error tells the caller to use `G` instead,
and for `n > maxInt` it is the invalid-size error; `validateSizeInput("<n>G")` succeeds
iff `n ≤ MaxGB` (`MaxGB` being a Go `int`). -/
theorem validateSizeInput_bounds (cfg : Config) (n : Nat) (hcfg : cfg.MaxGB ≤ maxInt) :
    (validateSizeInput cfg (natToStr n ++ "M".toList) = none ↔ n ≤ 1024) ∧
    (1024 < n → (n : Int) ≤ maxInt →
      validateSizeInput cfg (natToStr n ++ "M".toList) =
        some (.text "Your size is to big for suffix 'M' use 'G' instead".toList)) ∧
    (maxInt < (n : Int) →
      validateSizeInput cfg (natToStr n ++ "M".toList) =
        some (suffixWrongError (natToStr n ++ "M".toList))) ∧
    (validateSizeInput cfg (natToStr n ++ "G".toList) = none ↔ (n : Int) ≤ cfg.MaxGB) := by
  rw [validateSizeInput_M, validateSizeInput_G]
  have hmax : maxInt = 9223372036854775807 := by decide
  have hmb : MaxMB = 1024 := rfl
  refine ⟨?_, ?_, ?_, ?_⟩
  · by_cases hr : (n : Int) ≤ maxInt
    · by_cases h2 : (n : Int) ≤ MaxMB
      · simp only [hr, h2, if_true, true_iff]
        rw [hmb] at h2; omega
      · simp only [hr, h2, if_true, if_false]
        rw [hmb] at h2
        constructor
        · intro h; cases h
        · intro h; omega
    · simp only [hr, if_false]
      constructor
      · intro h; cases h
      · intro h; rw [hmax] at hr; omega
  · intro h1 h2
    have h3 : ¬ (n : Int) ≤ MaxMB := by rw [hmb]; omega
    simp only [h2, h3, if_true, if_false]
  · intro h1
    have h3 : ¬ (n : Int) ≤ maxInt := by omega
    simp only [h3, if_false]
  · by_cases hr : (n : Int) ≤ maxInt
    · by_cases h2 : (n : Int) > cfg.MaxGB
      · simp only [hr, h2, if_true]
        constructor
        · intro h; cases h
        · intro h; omega
      · simp only [hr, h2, if_true, if_false, true_iff]
        omega
    · simp only [hr, if_false]
      constructor
      · intro h; cases h
      · intro h; omega

/-- Witness for C6: the boundary cases of the specification, `1024M`, `1025M`, `100G`
and `101G` with a ceiling of 100. -/
theorem validateSizeInput_bounds_witness :
    validateSizeInput testConfig (natToStr 1024 ++ "M".toList) = none ∧
    validateSizeInput testConfig (natToStr 1025 ++ "M".toList) =
      some (.text "Your size is to big for suffix 'M' use 'G' instead".toList) ∧
    validateSizeInput testConfig (natToStr 100 ++ "G".toList) = none ∧
    validateSizeInput testConfig (natToStr 101 ++ "G".toList) ≠ none :=
  ⟨(validateSizeInput_bounds testConfig 1024 (by decide)).1.2 (by decide),
    (validateSizeInput_bounds testConfig 1025 (by decide)).2.1 (by decide) (by decide),
    (validateSizeInput_bounds testConfig 100 (by decide)).2.2.2.2 (by decide),
    fun h => absurd ((validateSizeInput_bounds testConfig 101 (by decide)).2.2.2.1 h)
      (by decide)⟩

/-- Counterexample to C6 as stated: `9223372036854775808` is greater than 1024, but it
does not fit an `int`, so the error for `9223372036854775808M` is the invalid-size error
and not the advice to use `G`. -/
theorem validateSizeInput_overflow_counterexample :
    (1024 : Nat) < 9223372036854775808 ∧
    natToStr 9223372036854775808 ++ "M".toList = "9223372036854775808M".toList ∧
    validateSizeInput testConfig "9223372036854775808M".toList =
      some (suffixWrongError "9223372036854775808M".toList) ∧
    validateSizeInput testConfig "9223372036854775808M".toList ≠
      some (.text "Your size is to big for suffix 'M' use 'G' instead".toList) := by
  refine ⟨by decide, by decide, by decide, by decide⟩

/-! ## Lemmas on occurrences -/

theorem contains_iff_isInfix (sub : Str) : ∀ s : Str, contains s sub = true ↔ sub <:+: s := by
  intro s
  induction s with
  | nil =>
    simp only [contains, List.isPrefixOf_iff_prefix, List.prefix_nil, List.infix_nil]
  | cons c cs ih =>
    simp only [contains, Bool.or_eq_true, List.isPrefixOf_iff_prefix, ih, List.infix_cons_iff]

theorem countFrom_eq_zero (sub : Str) (hsub : sub ≠ []) : ∀ (fuel : Nat) (s : Str),
    s.length < fuel → (countFrom sub fuel s = 0 ↔ contains s sub = false) := by
  intro fuel
  induction fuel with
  | zero => intro s h; omega
  | succ fuel ih =>
    intro s h
    cases s with
    | nil =>
      cases sub with
      | nil => exact absurd rfl hsub
      | cons a as => simp [countFrom, contains, List.isPrefixOf]
    | cons c cs =>
      by_cases hp : sub.isPrefixOf (c :: cs) = true
      · simp [countFrom, contains, hp]
      · have hlen : cs.length < fuel := by simp at h; omega
        simp only [countFrom, contains, hp, if_false, Bool.false_eq_true, Bool.or_eq_false_iff,
          Bool.not_eq_true, true_and] at *
        simpa [hp] using ih cs hlen

theorem count_eq_zero (s sub : Str) : count s sub = 0 ↔ contains s sub = false := by
  unfold count
  by_cases hsub : sub = []
  · subst hsub
    cases s <;> simp [contains]
  · rw [if_neg hsub]
    exact countFrom_eq_zero sub hsub _ s (by omega)

theorem trimSpace_isInfix (s : Str) : trimSpace s <:+: s := by
  unfold trimSpace
  have h1 : ((s.dropWhile isSpace).reverse.dropWhile isSpace).reverse <+: s.dropWhile isSpace := by
    have := List.dropWhile_suffix (l := (s.dropWhile isSpace).reverse) isSpace
    have h := List.reverse_prefix.mpr this
    simpa using h
  exact List.IsInfix.trans h1.isInfix (List.dropWhile_suffix isSpace).isInfix

theorem isInfix_of_mem_splitLines : ∀ (out l : Str), l ∈ splitLines out → l <:+: out := by
  intro out
  induction out with
  | nil =>
    intro l hl
    simp only [splitLines, List.mem_singleton] at hl
    subst hl
    exact List.infix_refl _
  | cons c cs ih =>
    intro l hl
    unfold splitLines at hl
    by_cases hc : c = '\n'
    · simp only [hc, if_true, List.mem_cons] at hl
      rcases hl with rfl | hl
      · exact List.nil_infix
      · exact List.IsInfix.trans (ih l hl) (List.suffix_cons _ _).isInfix
    · simp only [hc, if_false] at hl
      cases hs : splitLines cs with
      | nil =>
        rw [hs] at hl
        simp only [List.mem_singleton] at hl
        subst hl
        exact (List.prefix_append [c] cs).isInfix
      | cons l0 ls =>
        rw [hs] at hl ih
        simp only [List.mem_cons] at hl
        rcases hl with rfl | hl
        · -- the first line of `cs` is a prefix of `cs`
          have hpre : ∀ (t : Str) (a : Str) (as : List Str), splitLines t = a :: as → a <+: t := by
            intro t
            induction t with
            | nil =>
              intro a as h
              simp only [splitLines, List.cons.injEq] at h
              rw [← h.1]
            | cons d ds ihd =>
              intro a as h
              unfold splitLines at h
              by_cases hd : d = '\n'
              · simp only [hd, if_true, List.cons.injEq] at h
                rw [← h.1]
                exact List.nil_prefix
              · simp only [hd, if_false] at h
                cases hs2 : splitLines ds with
                | nil =>
                  rw [hs2] at h
                  simp only [List.cons.injEq] at h
                  rw [← h.1]
                  exact List.prefix_append [d] ds
                | cons b bs =>
                  rw [hs2] at h
                  simp only [List.cons.injEq] at h
                  rw [← h.1]
                  exact (List.prefix_cons_inj d).mpr (ihd b bs hs2)
          exact ((List.prefix_cons_inj c).mpr (hpre cs l0 ls hs)).isInfix
        · exact List.IsInfix.trans (ih l (List.mem_cons_of_mem _ hl))
            (List.suffix_cons _ _).isInfix

/-- A name that a line of the listing holds occurs in the listing. -/
theorem contains_of_listed (out sub l : Str) (hl : l ∈ splitLines out)
    (h : contains (trimSpace l) sub = true) : contains out sub = true := by
  rw [contains_iff_isInfix] at h ⊢
  exact List.IsInfix.trans h (List.IsInfix.trans (trimSpace_isInfix l) (isInfix_of_mem_splitLines out l hl))

/-! ## Lemmas on the numbers of a listed name -/

theorem digitRunsFrom_of_digits : ∀ (ds cur : Str), ds.all isDigit = true → cur ++ ds ≠ [] →
    digitRunsFrom cur ds = [cur ++ ds] := by
  intro ds
  induction ds with
  | nil =>
    intro cur _ hne
    have : cur ≠ [] := by simpa using hne
    simp [digitRunsFrom, this]
  | cons d ds ih =>
    intro cur hall _
    simp only [List.all_cons, Bool.and_eq_true] at hall
    rw [digitRunsFrom, if_pos hall.1, ih (cur ++ [d]) hall.2 (by simp)]
    simp

theorem digitRunsFrom_skip (x : Char) (hx : isDigit x = false) (t : Str) : ∀ (a cur : Str),
    ∃ pre, digitRunsFrom cur (a ++ x :: t) = pre ++ digitRunsFrom [] t := by
  intro a
  induction a with
  | nil =>
    intro cur
    by_cases hc : cur = []
    · exact ⟨[], by simp [digitRunsFrom, hx, hc]⟩
    · exact ⟨[cur], by simp [digitRunsFrom, hx, hc]⟩
  | cons y a ih =>
    intro cur
    by_cases hy : isDigit y = true
    · obtain ⟨pre, hpre⟩ := ih (cur ++ [y])
      exact ⟨pre, by rw [List.cons_append, digitRunsFrom, if_pos hy, hpre]⟩
    · obtain ⟨pre, hpre⟩ := ih []
      by_cases hc : cur = []
      · exact ⟨pre, by rw [List.cons_append, digitRunsFrom, if_neg hy, if_pos hc, hpre]⟩
      · exact ⟨cur :: pre, by
          rw [List.cons_append, digitRunsFrom, if_neg hy, if_neg hc, hpre]; rfl⟩

/-- The last number of a text that ends in a non-digit followed by digits is those
digits. -/
theorem findAllNumbers_getLast (a : Str) (x : Char) (hx : isDigit x = false) (ds : Str)
    (hne : ds ≠ []) (hall : ds.all isDigit = true) :
    (findAllNumbers (a ++ x :: ds)).getLast? = some ds := by
  obtain ⟨pre, hpre⟩ := digitRunsFrom_skip x hx ds a []
  unfold findAllNumbers
  rw [hpre, digitRunsFrom_of_digits ds [] hall (by simpa using hne)]
  simp

/-- A listed name with a volume number is the prefix `lv_<project>_pv` followed by
digits. -/
theorem volumeNumber?_some {project l : Str} {N : Nat} (h : volumeNumber? project l = some N) :
    ∃ ds, l = "lv_".toList ++ project ++ "_pv".toList ++ ds ∧ ds ≠ [] ∧
      ds.all isDigit = true ∧ digitsVal ds = N := by
  unfold volumeNumber? at h
  by_cases hp : ("lv_".toList ++ project ++ "_pv".toList).isPrefixOf l = true
  · rw [if_pos hp] at h
    obtain ⟨t, ht⟩ := List.isPrefixOf_iff_prefix.mp hp
    subst ht
    simp only [List.drop_left] at h
    by_cases hd : (!t.isEmpty && t.all isDigit) = true
    · rw [if_pos hd] at h
      simp only [Bool.and_eq_true, Bool.not_eq_true', List.isEmpty_eq_false] at hd
      exact ⟨t, rfl, hd.1, hd.2, Option.some.inj h⟩
    · rw [if_neg hd] at h
      cases h
  · rw [if_neg hp] at h
    cases h

theorem contains_needle_of_volumeNumber? {project l : Str} {N : Nat}
    (h : volumeNumber? project l = some N) : contains l (lvNeedle project) = true := by
  obtain ⟨ds, hl, _⟩ := volumeNumber?_some h
  rw [contains_iff_isInfix, hl]
  exact ⟨[], "_pv".toList ++ ds, by simp [lvNeedle]⟩

theorem findAllNumbers_of_volumeNumber? {project l : Str} {N : Nat}
    (h : volumeNumber? project l = some N) :
    ∃ ds, (findAllNumbers l).getLast? = some ds ∧ ds ≠ [] ∧ ds.all isDigit = true ∧
      digitsVal ds = N := by
  obtain ⟨ds, hl, hne, hall, hval⟩ := volumeNumber?_some h
  refine ⟨ds, ?_, hne, hall, hval⟩
  have : l = ("lv_".toList ++ project ++ "_p".toList) ++ 'v' :: ds := by
    rw [hl]; simp
  rw [this]
  exact findAllNumbers_getLast _ 'v' (by decide) ds hne hall

theorem atoi_ok_le_maxInt {s : Str} {v : Int} (h : atoi s = .ok v) : v ≤ maxInt := by
  have key : ∀ (neg : Bool) (ds : Str), atoiDigits neg ds = .ok v → v ≤ maxInt := by
    intro neg ds hd
    unfold atoiDigits at hd
    by_cases hne : ds = []
    · simp [hne] at hd
    · by_cases hall : ds.all isDigit = true
      · simp only [hne, hall, if_false, if_true] at hd
        cases neg with
        | true =>
          simp only [if_true] at hd
          by_cases hr : ((digitsVal ds : Nat) : Int) ≤ 2 ^ 63
          · rw [if_pos hr] at hd
            have := Except.ok.inj hd
            have hmax : maxInt = 2 ^ 63 - 1 := rfl
            omega
          · rw [if_neg hr] at hd; cases hd
        | false =>
          simp only [Bool.false_eq_true, if_false] at hd
          by_cases hr : ((digitsVal ds : Nat) : Int) ≤ maxInt
          · rw [if_pos hr] at hd
            have := Except.ok.inj hd
            omega
          · rw [if_neg hr] at hd; cases hd
      · simp [hne, hall] at hd
  cases s with
  | nil => simp [atoi] at h
  | cons c cs =>
    simp only [atoi] at h
    by_cases hp : c = '+'
    · rw [if_pos hp] at h; exact key _ _ h
    · rw [if_neg hp] at h
      by_cases hm : c = '-'
      · rw [if_pos hm] at h; exact key _ _ h
      · rw [if_neg hm] at h; exact key _ _ h

/-! ## Lemmas on the loop of `getNextVolumeNrForProject` -/

theorem maxVolumeNr_cons_of_not_contains (project l : Str) (ls : List Str) (acc : Int)
    (h : contains (trimSpace l) (lvNeedle project) = false) :
    maxVolumeNr project (l :: ls) acc = maxVolumeNr project ls acc := by
  simp [maxVolumeNr, h]

theorem maxVolumeNr_cons_of_listed (project l : Str) (ls : List Str) (acc : Int) (N : Nat)
    (h : volumeNumber? project (trimSpace l) = some N) :
    maxVolumeNr project (l :: ls) acc =
      if (N : Int) ≤ maxInt then
        maxVolumeNr project ls (if (N : Int) > acc then (N : Int) else acc)
      else .error (.numError
        ((trimSpace l).drop ("lv_".toList ++ project ++ "_pv".toList).length) .rangeErr) := by
  obtain ⟨ds, hl, hne, hall, hval⟩ := volumeNumber?_some h
  obtain ⟨ds2, hlast, _, _, _⟩ := findAllNumbers_of_volumeNumber? h
  have hds : ds2 = ds := by
    have h1 : (findAllNumbers (trimSpace l)).getLast? = some ds := by
      have : trimSpace l = ("lv_".toList ++ project ++ "_p".toList) ++ 'v' :: ds := by
        rw [hl]; simp
      rw [this]
      exact findAllNumbers_getLast _ 'v' (by decide) ds hne hall
    rw [h1] at hlast
    exact (Option.some.inj hlast).symm
  subst hds
  have hdrop : (trimSpace l).drop ("lv_".toList ++ project ++ "_pv".toList).length = ds2 := by
    rw [hl, List.drop_left]
  rw [hdrop]
  simp only [maxVolumeNr, contains_needle_of_volumeNumber? h, if_true, hlast,
    atoi_of_digits ds2 hne hall, hval]
  by_cases hr : (N : Int) ≤ maxInt
  · simp only [hr, if_true]
  · simp only [hr, if_false]

theorem foldl_max_eq (m : Nat) : ∀ (L : List Nat) (a : Nat), (∀ x ∈ L, x ≤ m) → a ≤ m →
    (m ∈ L ∨ a = m) → L.foldl max a = m := by
  intro L
  induction L with
  | nil =>
    intro a _ _ h
    rcases h with h | h
    · cases h
    · simpa using h
  | cons x L ih =>
    intro a hall ha h
    have hx : x ≤ m := hall x (by simp)
    rw [List.foldl_cons]
    apply ih
    · intro y hy; exact hall y (by simp [hy])
    · exact max_le ha hx
    · rcases h with h | h
      · rcases List.mem_cons.mp h with h | h
        · right; subst h; exact max_eq_right ha
        · left; exact h
      · right; subst h; exact max_eq_left hx

/-- On a listing whose lines that contain the needle are well-formed names with numbers
that fit `int`, the loop computes the maximum of these numbers. -/
theorem maxVolumeNr_of_wellformed (project : Str) : ∀ (ls : List Str) (a : Nat),
    (∀ l ∈ ls, contains (trimSpace l) (lvNeedle project) = true →
      ∃ N, volumeNumber? project (trimSpace l) = some N ∧ (N : Int) ≤ maxInt) →
    maxVolumeNr project ls (a : Int) =
      .ok (((ls.filterMap (fun l => volumeNumber? project (trimSpace l))).foldl max a : Nat) : Int) := by
  intro ls
  induction ls with
  | nil => intro a _; simp [maxVolumeNr]
  | cons l ls ih =>
    intro a hform
    have hrest : ∀ l' ∈ ls, contains (trimSpace l') (lvNeedle project) = true →
        ∃ N, volumeNumber? project (trimSpace l') = some N ∧ (N : Int) ≤ maxInt :=
      fun l' hl' => hform l' (List.mem_cons_of_mem _ hl')
    by_cases hc : contains (trimSpace l) (lvNeedle project) = true
    · obtain ⟨N, hN, hle⟩ := hform l (List.mem_cons_self _ _) hc
      rw [maxVolumeNr_cons_of_listed project l ls a N hN, if_pos hle]
      have hacc : (if (N : Int) > (a : Int) then (N : Int) else (a : Int)) = ((max a N : Nat) : Int) := by
        by_cases hgt : (N : Int) > (a : Int)
        · rw [if_pos hgt]; congr 1; omega
        · rw [if_neg hgt]; congr 1; omega
      rw [hacc, ih (max a N) hrest]
      simp [List.filterMap_cons, hN]
    · have hc' : contains (trimSpace l) (lvNeedle project) = false := by simpa using hc
      have hnone : volumeNumber? project (trimSpace l) = none := by
        cases hv : volumeNumber? project (trimSpace l) with
        | none => rfl
        | some N => rw [contains_needle_of_volumeNumber? hv] at hc'; cases hc'
      rw [maxVolumeNr_cons_of_not_contains project l ls a hc', ih a hrest]
      simp [List.filterMap_cons, hnone]

/-- Whatever the listing holds, a result of the loop is at least as large as every
number of a well-formed name of the project, and it fits `int`. -/
theorem maxVolumeNr_ge (project : Str) : ∀ (ls : List Str) (acc r : Int),
    maxVolumeNr project ls acc = .ok r → acc ≤ maxInt →
    acc ≤ r ∧ r ≤ maxInt ∧
      ∀ l ∈ ls, ∀ N, volumeNumber? project (trimSpace l) = some N → (N : Int) ≤ r := by
  intro ls
  induction ls with
  | nil =>
    intro acc r h hacc
    simp only [maxVolumeNr, Outcome.ok.injEq] at h
    subst h
    exact ⟨le_refl _, hacc, by intro l hl; cases hl⟩
  | cons l ls ih =>
    intro acc r h hacc
    cases hv : volumeNumber? project (trimSpace l) with
    | some N =>
      rw [maxVolumeNr_cons_of_listed project l ls acc N hv] at h
      by_cases hle : (N : Int) ≤ maxInt
      · rw [if_pos hle] at h
        have hacc' : (if (N : Int) > acc then (N : Int) else acc) ≤ maxInt := by
          by_cases hgt : (N : Int) > acc
          · rw [if_pos hgt]; exact hle
          · rw [if_neg hgt]; exact hacc
        obtain ⟨h1, h2, h3⟩ := ih _ r h hacc'
        have hN : (N : Int) ≤ r ∧ acc ≤ r := by
          by_cases hgt : (N : Int) > acc
          · rw [if_pos hgt] at h1; omega
          · rw [if_neg hgt] at h1; omega
        refine ⟨hN.2, h2, ?_⟩
        intro l' hl' N' hN'
        rcases List.mem_cons.mp hl' with rfl | hl'
        · rw [hv] at hN'
          cases hN'
          exact hN.1
        · exact h3 l' hl' N' hN'
      · rw [if_neg hle] at h
        cases h
    | none =>
      have hstep : ∃ acc', acc ≤ acc' ∧ acc' ≤ maxInt ∧ maxVolumeNr project ls acc' = .ok r := by
        by_cases hc : contains (trimSpace l) (lvNeedle project) = true
        · simp only [maxVolumeNr, hc, if_true] at h
          cases hlast : (findAllNumbers (trimSpace l)).getLast? with
          | none => rw [hlast] at h; cases h
          | some num =>
            rw [hlast] at h
            simp only at h
            cases hat : atoi num with
            | error e => rw [hat] at h; cases h
            | ok nr =>
              rw [hat] at h
              simp only at h
              refine ⟨_, ?_, ?_, h⟩
              · by_cases hgt : nr > acc
                · rw [if_pos hgt]; omega
                · rw [if_neg hgt]
              · by_cases hgt : nr > acc
                · rw [if_pos hgt]; exact atoi_ok_le_maxInt hat
                · rw [if_neg hgt]; exact hacc
        · have hc' : contains (trimSpace l) (lvNeedle project) = false := by simpa using hc
          rw [maxVolumeNr_cons_of_not_contains project l ls acc hc'] at h
          exact ⟨acc, le_refl _, hacc, h⟩
      obtain ⟨acc', h0, h0', hrec⟩ := hstep
      obtain ⟨h1, h2, h3⟩ := ih acc' r hrec h0'
      refine ⟨le_trans h0 h1, h2, ?_⟩
      intro l' hl' N' hN'
      rcases List.mem_cons.mp hl' with rfl | hl'
      · rw [hv] at hN'; cases hN'
      · exact h3 l' hl' N' hN'

/-! ## Sequence numbers (C1, C2, C3) -/

theorem getNextVolumeNrForProject_of_listing (env : Env σ) (w : World σ) (project out : Str)
    (st1 : σ) (hrun : env.run w.st "bash".toList ["-c".toList, lvsCmd] = (st1, out, none)) :
    getNextVolumeNrForProject env w project =
      (⟨st1, w.trace ++ [bashC lvsCmd]⟩, nextVolumeNrOfListing project out) := by
  simp only [getNextVolumeNrForProject, World.run, hrun, bashC]

theorem nextVolumeNrOfListing_first (project out : Str)
    (h : contains out (lvNeedle project) = false) : nextVolumeNrOfListing project out = .ok 1 := by
  unfold nextVolumeNrOfListing
  rw [if_pos ((count_eq_zero _ _).mpr h)]

theorem nextVolumeNrOfListing_max (project out : Str) (m : Nat)
    (hform : ∀ l ∈ listedNames out, contains l (lvNeedle project) = true →
      ∃ N, volumeNumber? project l = some N ∧ (N : Int) ≤ maxInt)
    (hmem : ∃ l ∈ listedNames out, volumeNumber? project l = some m)
    (hmax : ∀ l ∈ listedNames out, ∀ N, volumeNumber? project l = some N → N ≤ m)
    (hpos : 1 ≤ m) (hlt : (m : Int) < maxInt) :
    nextVolumeNrOfListing project out = .ok ((m : Int) + 1) := by
  obtain ⟨l0, hl0, hm0⟩ := hmem
  obtain ⟨l0', hl0', rfl⟩ := List.mem_map.mp hl0
  have hcount : ¬ count out (lvNeedle project) = 0 := by
    intro h0
    have h1 := (count_eq_zero _ _).mp h0
    rw [contains_of_listed out _ l0' hl0' (contains_needle_of_volumeNumber? hm0)] at h1
    cases h1
  have hloop := maxVolumeNr_of_wellformed project (splitLines out) 0
    (fun l hl hc => hform (trimSpace l) (List.mem_map.mpr ⟨l, hl, rfl⟩) hc)
  have hfold : ((splitLines out).filterMap (fun l => volumeNumber? project (trimSpace l))).foldl
      max 0 = m := by
    apply foldl_max_eq
    · intro x hx
      obtain ⟨l, hl, hx⟩ := List.mem_filterMap.mp hx
      exact hmax (trimSpace l) (List.mem_map.mpr ⟨l, hl, rfl⟩) x hx
    · omega
    · left
      exact List.mem_filterMap.mpr ⟨l0', hl0', hm0⟩
  rw [hfold] at hloop
  unfold nextVolumeNrOfListing
  rw [if_neg hcount]
  simp only [Nat.cast_zero] at hloop
  rw [hloop]
  have hm0' : ¬ ((m : Int) = 0) := by omega
  simp only [hm0', if_false]
  have hmaxv : maxInt = 2 ^ 63 - 1 := rfl
  have hw : wrapInt ((m : Int) + 1) = (m : Int) + 1 := by
    unfold wrapInt
    rw [hmaxv] at hlt
    omega
  rw [hw]

theorem nextVolumeNrOfListing_zero (project out : Str)
    (hform : ∀ l ∈ listedNames out, contains l (lvNeedle project) = true →
      ∃ N, volumeNumber? project l = some N ∧ (N : Int) ≤ maxInt)
    (hmem : ∃ l ∈ listedNames out, volumeNumber? project l = some 0)
    (hmax : ∀ l ∈ listedNames out, ∀ N, volumeNumber? project l = some N → N ≤ 0) :
    nextVolumeNrOfListing project out = .error (.text commandExecutionError) := by
  obtain ⟨l0, hl0, hm0⟩ := hmem
  obtain ⟨l0', hl0', rfl⟩ := List.mem_map.mp hl0
  have hcount : ¬ count out (lvNeedle project) = 0 := by
    intro h0
    have h1 := (count_eq_zero _ _).mp h0
    rw [contains_of_listed out _ l0' hl0' (contains_needle_of_volumeNumber? hm0)] at h1
    cases h1
  have hloop := maxVolumeNr_of_wellformed project (splitLines out) 0
    (fun l hl hc => hform (trimSpace l) (List.mem_map.mpr ⟨l, hl, rfl⟩) hc)
  have hfold : ((splitLines out).filterMap (fun l => volumeNumber? project (trimSpace l))).foldl
      max 0 = 0 := by
    apply foldl_max_eq
    · intro x hx
      obtain ⟨l, hl, hx⟩ := List.mem_filterMap.mp hx
      exact hmax (trimSpace l) (List.mem_map.mpr ⟨l, hl, rfl⟩) x hx
    · omega
    · right; rfl
  rw [hfold] at hloop
  unfold nextVolumeNrOfListing
  rw [if_neg hcount]
  simp only [Nat.cast_zero] at hloop
  rw [hloop]
  simp only [if_true]

/-- C1, as amended: on the output `out` of a successful `lvs -o lv_name`,
`getNextVolumeNrForProject` returns 1 when `out` holds no occurrence of `lv_<project>`;
and when every listed name that contains `lv_<project>` is of the form
`lv_<project>_pv<N>` with an `N` that fits `int`, and `m` is the maximum of these `N`: for
`m` at least 1 and below the largest `int` it returns `1 + m`, and for `m = 0` it returns
the generic error. -/
theorem getNextVolumeNrForProject_max_plus_one (env : Env σ) (w : World σ)
    (project out : Str) (st1 : σ)
    (hrun : env.run w.st "bash".toList ["-c".toList, lvsCmd] = (st1, out, none)) :
    (contains out (lvNeedle project) = false →
      (getNextVolumeNrForProject env w project).2 = .ok 1) ∧
    (∀ m : Nat,
      (∀ l ∈ listedNames out, contains l (lvNeedle project) = true →
        ∃ N, volumeNumber? project l = some N ∧ (N : Int) ≤ maxInt) →
      (∃ l ∈ listedNames out, volumeNumber? project l = some m) →
      (∀ l ∈ listedNames out, ∀ N, volumeNumber? project l = some N → N ≤ m) →
      ((1 ≤ m → (m : Int) < maxInt →
          (getNextVolumeNrForProject env w project).2 = .ok ((m : Int) + 1)) ∧
       (m = 0 →
          (getNextVolumeNrForProject env w project).2 =
            .error (.text commandExecutionError)))) := by
  rw [getNextVolumeNrForProject_of_listing env w project out st1 hrun]
  refine ⟨nextVolumeNrOfListing_first project out, fun m hform hmem hmax => ⟨?_, ?_⟩⟩
  · exact fun hpos hlt => nextVolumeNrOfListing_max project out m hform hmem hmax hpos hlt
  · intro h0
    subst h0
    exact nextVolumeNrOfListing_zero project out hform hmem hmax

/-- Witness for C1: the tests `TestGetNextVolumeNrForProject_FirstVolume` (another
project's volume listed: 1) and `TestGetNextVolumeNrForProject_AfterDeletion` (volumes 1,
27 and 3 listed: 28), and a listing whose only volume of the project has the number 0
(the generic error). -/
theorem getNextVolumeNrForProject_max_plus_one_witness :
    (getNextVolumeNrForProject testEnv ⟨["lv_another_pv1".toList], []⟩ "myproject".toList).2
      = .ok 1 ∧
    (getNextVolumeNrForProject testEnv
      ⟨["lv_myproject_pv1\n\t\tlv_myproject_pv27\n\t\tlv_myproject_pv3".toList], []⟩
      "myproject".toList).2 = .ok (((27 : Nat) : Int) + 1) ∧
    (getNextVolumeNrForProject testEnv ⟨["lv_p_pv0".toList], []⟩ "p".toList).2 =
      .error (.text commandExecutionError) := by
  have hzero : (getNextVolumeNrForProject testEnv ⟨["lv_p_pv0".toList], []⟩ "p".toList).2 =
      .error (.text commandExecutionError) := by
    have hn0 : listedNames "lv_p_pv0".toList = ["lv_p_pv0".toList] := by decide
    have hv0 : volumeNumber? "p".toList "lv_p_pv0".toList = some 0 := by decide
    refine ((getNextVolumeNrForProject_max_plus_one testEnv ⟨["lv_p_pv0".toList], []⟩
      "p".toList "lv_p_pv0".toList [] (by decide)).2 0 ?_ ?_ ?_).2 rfl
    · intro l hl _
      rw [hn0] at hl
      simp only [List.mem_singleton] at hl
      subst hl
      exact ⟨0, hv0, by decide⟩
    · exact ⟨"lv_p_pv0".toList, by rw [hn0]; simp, hv0⟩
    · intro l hl N hN
      rw [hn0] at hl
      simp only [List.mem_singleton] at hl
      subst hl
      rw [hv0] at hN
      cases hN
      exact le_refl 0
  have hnames : listedNames "lv_myproject_pv1\n\t\tlv_myproject_pv27\n\t\tlv_myproject_pv3".toList
      = ["lv_myproject_pv1".toList, "lv_myproject_pv27".toList, "lv_myproject_pv3".toList] := by
    decide
  have h1 : volumeNumber? "myproject".toList "lv_myproject_pv1".toList = some 1 := by decide
  have h27 : volumeNumber? "myproject".toList "lv_myproject_pv27".toList = some 27 := by decide
  have h3 : volumeNumber? "myproject".toList "lv_myproject_pv3".toList = some 3 := by decide
  refine ⟨(getNextVolumeNrForProject_max_plus_one testEnv ⟨["lv_another_pv1".toList], []⟩
      "myproject".toList "lv_another_pv1".toList [] (by decide)).1 (by decide),
    ((getNextVolumeNrForProject_max_plus_one testEnv
      ⟨["lv_myproject_pv1\n\t\tlv_myproject_pv27\n\t\tlv_myproject_pv3".toList], []⟩
      "myproject".toList "lv_myproject_pv1\n\t\tlv_myproject_pv27\n\t\tlv_myproject_pv3".toList
      [] (by decide)).2 27 ?_ ?_ ?_).1 (by decide) (by decide), hzero⟩
  · intro l hl _
    rw [hnames] at hl
    simp only [List.mem_cons, List.mem_singleton, List.not_mem_nil, or_false] at hl
    rcases hl with rfl | rfl | rfl
    · exact ⟨1, h1, by decide⟩
    · exact ⟨27, h27, by decide⟩
    · exact ⟨3, h3, by decide⟩
  · exact ⟨"lv_myproject_pv27".toList, by rw [hnames]; simp, h27⟩
  · intro l hl N hN
    rw [hnames] at hl
    simp only [List.mem_cons, List.mem_singleton, List.not_mem_nil, or_false] at hl
    rcases hl with rfl | rfl | rfl
    · rw [h1] at hN; cases hN; decide
    · rw [h27] at hN; cases hN; decide
    · rw [h3] at hN; cases hN; decide

/-- Counterexample to C1 as stated.  The only listed name of project `p` is `lv_p_pv0`,
so that one plus the maximum is 1, and the result is the generic error (the guard
`maxNr == 0`).  And the listing `lv_myproject_pv5` holds no name of the form
`lv_my_pv<N>`, and the result for project `my` is 6, not 1. -/
theorem getNextVolumeNrForProject_counterexample :
    volumeNumber? "p".toList "lv_p_pv0".toList = some 0 ∧
    (getNextVolumeNrForProject testEnv ⟨["lv_p_pv0".toList], []⟩ "p".toList).2 =
      .error (.text commandExecutionError) ∧
    volumeNumber? "my".toList "lv_myproject_pv5".toList = none ∧
    (getNextVolumeNrForProject testEnv ⟨["lv_myproject_pv5".toList], []⟩ "my".toList).2 =
      .ok 6 := by
  refine ⟨by decide, by decide, by decide, by decide⟩

/-- C2, as amended: the result of `getNextVolumeNrForProject` is computed from the output
of `lvs` alone, so that it is the same whenever the listing is the same; and a number
that it returns differs from the number of every volume of the project that the listing
holds at that moment: it is greater, or it is the smallest `int` (after the wrap-around
at the largest one). -/
theorem getNextVolumeNrForProject_not_listed (env : Env σ) (w : World σ)
    (project out : Str) (st1 : σ)
    (hrun : env.run w.st "bash".toList ["-c".toList, lvsCmd] = (st1, out, none))
    (n : Int) (hn : (getNextVolumeNrForProject env w project).2 = .ok n)
    (l : Str) (hl : l ∈ listedNames out) (N : Nat) (hN : volumeNumber? project l = some N) :
    (getNextVolumeNrForProject env w project).2 = nextVolumeNrOfListing project out ∧
    n ≠ (N : Int) ∧ ((N : Int) < n ∨ n = minInt) := by
  refine ⟨by rw [getNextVolumeNrForProject_of_listing env w project out st1 hrun], ?_⟩
  rw [getNextVolumeNrForProject_of_listing env w project out st1 hrun] at hn
  simp only at hn
  obtain ⟨l', hl', rfl⟩ := List.mem_map.mp hl
  have hcount : ¬ count out (lvNeedle project) = 0 := by
    intro h0
    have h1 := (count_eq_zero _ _).mp h0
    rw [contains_of_listed out _ l' hl' (contains_needle_of_volumeNumber? hN)] at h1
    cases h1
  unfold nextVolumeNrOfListing at hn
  rw [if_neg hcount] at hn
  cases hloop : maxVolumeNr project (splitLines out) 0 with
  | error e => rw [hloop] at hn; cases hn
  | panic => rw [hloop] at hn; cases hn
  | ok r =>
    rw [hloop] at hn
    simp only at hn
    have hmaxv : maxInt = 2 ^ 63 - 1 := rfl
    have hminv : minInt = -(2 ^ 63) := rfl
    obtain ⟨h0, hr, hall⟩ := maxVolumeNr_ge project (splitLines out) 0 r hloop
      (by rw [hmaxv]; omega)
    have hNr := hall l' hl' N hN
    by_cases hz : r = 0
    · rw [if_pos hz] at hn; cases hn
    · rw [if_neg hz] at hn
      have hn' := Outcome.ok.inj hn
      unfold wrapInt at hn'
      rw [hmaxv] at hr
      rw [hminv]
      omega

/-- Witness for C2: with `lv_myproject_pv1`, `lv_myproject_pv27` and `lv_myproject_pv3`
listed, the number returned is 28, which differs from the listed 27. -/
theorem getNextVolumeNrForProject_not_listed_witness :
    (getNextVolumeNrForProject testEnv
      ⟨["lv_myproject_pv1\n\t\tlv_myproject_pv27\n\t\tlv_myproject_pv3".toList], []⟩
      "myproject".toList).2 = .ok 28 ∧
    volumeNumber? "myproject".toList "lv_myproject_pv27".toList = some 27 ∧
    ((getNextVolumeNrForProject testEnv
        ⟨["lv_myproject_pv1\n\t\tlv_myproject_pv27\n\t\tlv_myproject_pv3".toList], []⟩
        "myproject".toList).2 =
      nextVolumeNrOfListing "myproject".toList
        "lv_myproject_pv1\n\t\tlv_myproject_pv27\n\t\tlv_myproject_pv3".toList ∧
     (28 : Int) ≠ ((27 : Nat) : Int) ∧ (((27 : Nat) : Int) < 28 ∨ (28 : Int) = minInt)) :=
  ⟨by decide, by decide,
    getNextVolumeNrForProject_not_listed testEnv
      ⟨["lv_myproject_pv1\n\t\tlv_myproject_pv27\n\t\tlv_myproject_pv3".toList], []⟩
      "myproject".toList "lv_myproject_pv1\n\t\tlv_myproject_pv27\n\t\tlv_myproject_pv3".toList
      [] (by decide) 28 (by decide) "lv_myproject_pv27".toList (by decide) 27 (by decide)⟩

/-- Counterexample to C2 as stated: a project gets the volumes 1 and 2, volume 2 is
deleted, and the next volume gets the number 2 again.  (With the volumes 1 to 5, of which
5 is deleted, the next number is 5 again; with the volumes 1 and 5 only it would be 2
after the deletion of 5.) -/
theorem getNextVolumeNrForProject_reuse_counterexample :
    handedOutNumbers "p".toList [.create, .create, .delete 2, .create] = [1, 2, 2] ∧
    ¬ (handedOutNumbers "p".toList [.create, .create, .delete 2, .create]).Nodup ∧
    nextVolumeNrOfListing "p".toList (lvsListing ["lv_p_pv1".toList, "lv_p_pv5".toList]) =
      .ok 6 ∧
    nextVolumeNrOfListing "p".toList (lvsListing ["lv_p_pv1".toList]) = .ok 2 := by
  refine ⟨by decide, by decide, by decide, by decide⟩

/-- C3: the listed name `lv_myproject_pvX` matches the project and has no integer after
`_pv`; `getNextVolumeNrForProject` panics on it (`nums[len(nums)-1]` with no number
found).  On `lv_app2_pvX` of project `app2` it returns the sequence number 3. -/
theorem getNextVolumeNrForProject_malformed_suffix :
    (getNextVolumeNrForProject testEnv ⟨["lv_myproject_pvX".toList], []⟩
      "myproject".toList).2 = .panic ∧
    (getNextVolumeNrForProject testEnv ⟨["lv_app2_pvX".toList], []⟩ "app2".toList).2 = .ok 3 := by
  refine ⟨by decide, by decide⟩

/-! ## The end-to-end scenario of `createVolume` (C10) -/

theorem executeCommandsLocally_all_ok (env : Env σ)
    (hok : ∀ st c, (env.run st "bash".toList ["-c".toList, c]).2.2 = none) (cmds : List Str) :
    ∀ w : World σ, executeCommandsLocally env w cmds =
      (⟨runAll env w.st cmds, w.trace ++ cmds.map bashC⟩, none) := by
  induction cmds with
  | nil => intro w; simp [executeCommandsLocally, runAll]
  | cons c cs ih =>
    intro w
    rw [executeCommandsLocally_cons]
    have hf : failsFatally env w.st c = false := by simp only [failsFatally, hok]
    rw [hf]
    simp only [Bool.false_eq_true, if_false]
    rw [ih]
    simp [runAll]

theorem callPeers_all_ok (env : Env σ) (hreq : ∀ url, env.newRequest url = true)
    (h200 : ∀ st req, (env.httpDo st req).2 = some 200)
    (mkReq : Str → HttpRequest) (rs : List Str) :
    ∀ w : World σ, callPeers env mkReq w rs =
      (⟨httpAll env w.st (rs.map mkReq), w.trace ++ (rs.map mkReq).map Event.http⟩, .ok ()) := by
  induction rs with
  | nil => intro w; simp [callPeers, httpAll]
  | cons r rs ih =>
    intro w
    rw [callPeers_cons, h200, hreq]
    simp only [bne_self_eq_false, Bool.false_eq_true, Bool.true_eq_false, if_false]
    rw [ih]
    simp [httpAll]

theorem getGlusterPeerServers_ok (env : Env σ) (peersOut : Str)
    (hpeers : ∀ st, (env.run st "bash".toList ["-c".toList, peerStatusCmd]).2.1 = peersOut)
    (hok : ∀ st c, (env.run st "bash".toList ["-c".toList, c]).2.2 = none) (w : World σ) :
    getGlusterPeerServers env w =
      (⟨(env.run w.st "bash".toList ["-c".toList, peerStatusCmd]).1,
          w.trace ++ [bashC peerStatusCmd]⟩,
        .ok (peerServersOfLines (splitLines peersOut))) := by
  have h1 := hpeers w.st
  have h2 := hok w.st peerStatusCmd
  rcases hr : env.run w.st "bash".toList ["-c".toList, peerStatusCmd] with ⟨st1, out, err⟩
  rw [hr] at h1 h2
  simp only at h1 h2
  subst h1 h2
  simp only [getGlusterPeerServers, World.run, hr, bashC]

theorem brickList_eq_flatMap (mp : Str) (servers : List Str) :
    brickList mp servers = servers.flatMap (fun h => h ++ ":".toList ++ mp ++ "/brick ".toList) := by
  induction servers with
  | nil => rfl
  | cons r rs ih => simp [brickList, ih]

theorem validateSizeInput_nil (cfg : Config) : validateSizeInput cfg [] ≠ none := by
  simp [validateSizeInput, hasSuffix, List.isPrefixOf]

theorem intToStr_one : intToStr 1 = "1".toList := by decide

/-- Where C10 holds: for a valid size `s`, a non-empty project `p` such that the `lvs`
listing holds no occurrence of `lv_<p>`, peers that every peer-status query lists, for
which a request can be built and that all answer 200, commands that all succeed and a
local address that is found, `createVolume(p, s)` makes exactly the calls of
`firstVolumeTrace`, in that order, and returns `<p>_pv1`. -/
theorem createVolume_first_volume (env : Env σ) (cfg : Config) (w : World σ)
    (p s out peersOut localIP : Str) (st1 : σ)
    (hsize : validateSizeInput cfg s = none)
    (hproj : p ≠ [])
    (hlvs : env.run w.st "bash".toList ["-c".toList, lvsCmd] = (st1, out, none))
    (hnone : contains out (lvNeedle p) = false)
    (hpeers : ∀ st, (env.run st "bash".toList ["-c".toList, peerStatusCmd]).2.1 = peersOut)
    (hok : ∀ st c, (env.run st "bash".toList ["-c".toList, c]).2.2 = none)
    (hreq : ∀ url, env.newRequest url = true)
    (h200 : ∀ st req, (env.httpDo st req).2 = some 200)
    (hip : ∀ w1 : World σ, getLocalServersIP env w1 = .ok localIP) :
    (createVolume env cfg w p s).2 = .ok (p ++ "_pv1".toList) ∧
    (createVolume env cfg w p s).1.trace =
      w.trace ++ firstVolumeTrace cfg p s (peerServersOfLines (splitLines peersOut)) localIP := by
  have hs : s ≠ [] := by
    intro h
    subst h
    exact validateSizeInput_nil cfg hsize
  have hlen : (s.length = 0 || p.length = 0) = false := by
    cases s with
    | nil => exact absurd rfl hs
    | cons a as =>
      cases p with
      | nil => exact absurd rfl hproj
      | cons b bs => simp
  unfold createVolume
  simp only [hlen, Bool.false_eq_true, if_false, hsize]
  rw [getNextVolumeNrForProject_of_listing env w p out st1 hlvs,
    nextVolumeNrOfListing_first p out hnone]
  simp only [createLvOnAllServers, createLvOnOtherServers, createLvOnPool, createGlusterVolume,
    getGlusterPeerServers_ok env peersOut hpeers hok, callPeers_all_ok env hreq h200,
    executeCommandsLocally_all_ok env hok, hip, errorOutcome]
  refine ⟨?_, ?_⟩
  · simp [intToStr_one]
  · simp [firstVolumeTrace, createLvCommands, glusterVolumeCommands, createLvRequest,
      brickList_eq_flatMap, intToStr_one, lvsCmd, peerStatusCmd, bashC]

/-- Example for `createVolume_first_volume`: the scenario of the specification, a 10M
volume for `my-project` with the two peers `h1` and `h2`, in an environment in which
every request can be built. -/
theorem createVolume_first_volume_example :
    (createVolume { happyEnv with newRequest := fun _ => true } testConfig ⟨(), []⟩
      "my-project".toList "10M".toList).2 = .ok ("my-project".toList ++ "_pv1".toList) ∧
    (createVolume { happyEnv with newRequest := fun _ => true } testConfig ⟨(), []⟩
      "my-project".toList "10M".toList).1.trace =
      [] ++ firstVolumeTrace testConfig "my-project".toList "10M".toList
        (peerServersOfLines (splitLines "Hostname: h1\nHostname: h2".toList))
        "10.0.0.5".toList :=
  createVolume_first_volume { happyEnv with newRequest := fun _ => true } testConfig ⟨(), []⟩
    "my-project".toList "10M".toList []
    "Hostname: h1\nHostname: h2".toList "10.0.0.5".toList () (by decide) (by decide)
    (by decide) (by decide) (fun _ => by rfl)
    (fun _ c => by simp only [happyEnv]; split <;> rfl)
    (fun _ => rfl) (fun _ _ => rfl) (fun _ => by rfl)

/-- C10 at its failing input.  With `lv_myproject_pv5` listed, the project `my` has no
volume (no listed name is of the form `lv_my_pv<N>`), the size `10M` is valid, the peer
`h1` answers 200 and every command succeeds; `createVolume("my", "10M")` takes the volume
of the project `myproject` for one of `my`, asks the peer for `lv_my_pv6` mounted at
`/basepath/my/pv6` and returns `my_pv6`, not `my_pv1`. -/
theorem createVolume_prefix_collision :
    (listedNames "lv_myproject_pv5".toList).all
      (fun l => volumeNumber? "my".toList l = none) = true ∧
    validateSizeInput testConfig "10M".toList = none ∧
    (createVolume testEnv testConfig
      ⟨["lv_myproject_pv5".toList, "Hostname: h1".toList, [], [], [], [], [], [], [], [], [],
        [], "Hostname: h1".toList], []⟩ "my".toList "10M".toList).2 = .ok "my_pv6".toList ∧
    Event.http (createLvRequest testConfig "10M".toList "/basepath/my/pv6".toList
        "lv_my_pv6".toList "h1".toList) ∈
      (createVolume testEnv testConfig
        ⟨["lv_myproject_pv5".toList, "Hostname: h1".toList, [], [], [], [], [], [], [], [], [],
          [], "Hostname: h1".toList], []⟩ "my".toList "10M".toList).1.trace ∧
    (createVolume testEnv testConfig
      ⟨["  LV".toList, "Hostname: h1".toList, [], [], [], [], [], [], [], [], [],
        [], "Hostname: h1".toList], []⟩ "my".toList "10M".toList).2 = .ok "my_pv1".toList := by
  refine ⟨by decide, by decide, by decide, by decide, by decide⟩

/-! ## Examples -/

/-- Example for C7: of the commands `mkdir a`, `false` and `mkdir b`, the second fails;
`mkdir b` is never run and the generic error is returned. -/
theorem executeCommandsLocally_abort_example :
    (executeCommandsLocally stubEnv ⟨(), []⟩
      ["mkdir a".toList, "false".toList, "mkdir b".toList]).1.trace =
      [bashC "mkdir a".toList, bashC "false".toList] ∧
    (executeCommandsLocally stubEnv ⟨(), []⟩
      ["mkdir a".toList, "false".toList, "mkdir b".toList]).2 =
      some (.text "Error running command, see logs for details".toList) := by
  refine ⟨by decide, by decide⟩

/-- Example for C9: the peer `h1` answers 200 and the peer `h2` answers 500; both are
asked, in this order, no local command is run and the generic error is returned. -/
theorem createLvOnAllServers_abort_example :
    (createLvOnAllServers stubEnv testConfig ⟨(), []⟩ "10M".toList "/basepath/p/pv1".toList
      "lv_p_pv1".toList).1.trace =
      [bashC peerStatusCmd,
        .http (createLvRequest testConfig "10M".toList "/basepath/p/pv1".toList
          "lv_p_pv1".toList "h1".toList),
        .http (createLvRequest testConfig "10M".toList "/basepath/p/pv1".toList
          "lv_p_pv1".toList "h2".toList)] ∧
    (createLvOnAllServers stubEnv testConfig ⟨(), []⟩ "10M".toList "/basepath/p/pv1".toList
      "lv_p_pv1".toList).2 = .error (.text commandExecutionError) := by
  refine ⟨by decide, by decide⟩

/-! ## Rejected input (C11) and the steps of `deleteVolume` (C12) -/

/-- C11: `createVolume` with an empty project, an empty size, or a size that
`validateSizeInput` rejects returns an error (the validation error itself) and leaves the
outside world as it was: no command is run and no peer is contacted; `deleteVolume("")`
likewise. -/
theorem createVolume_rejects_invalid_input (env : Env σ) (cfg : Config) (w : World σ)
    (project size : Str)
    (h : project = [] ∨ size = [] ∨ validateSizeInput cfg size ≠ none) :
    (createVolume env cfg w project size).1 = w ∧
    (∃ e, (createVolume env cfg w project size).2 = .error e) ∧
    (project ≠ [] → size ≠ [] → ∀ e, validateSizeInput cfg size = some e →
      (createVolume env cfg w project size).2 = .error e) ∧
    deleteVolume env cfg w [] = (w, .error (.text "Not all input values provided".toList)) := by
  have hdel : deleteVolume env cfg w [] =
      (w, .error (.text "Not all input values provided".toList)) := by
    simp [deleteVolume]
  by_cases hempty : (size.length = 0 || project.length = 0) = true
  · have hcv : createVolume env cfg w project size =
        (w, .error (.text "Not all input values provided".toList)) := by
      unfold createVolume
      rw [if_pos hempty]
    rw [hcv]
    refine ⟨rfl, ⟨_, rfl⟩, ?_, hdel⟩
    intro hp hs
    exfalso
    simp only [Bool.or_eq_true, decide_eq_true_eq, List.length_eq_zero] at hempty
    rcases hempty with h1 | h1
    · exact hs h1
    · exact hp h1
  · have hp : project ≠ [] := by
      intro h0; apply hempty; simp [h0]
    have hs : size ≠ [] := by
      intro h0; apply hempty; simp [h0]
    have hv : validateSizeInput cfg size ≠ none := by
      rcases h with h | h | h
      · exact absurd h hp
      · exact absurd h hs
      · exact h
    cases hval : validateSizeInput cfg size with
    | none => exact absurd hval hv
    | some e =>
      have hcv : createVolume env cfg w project size = (w, .error e) := by
        unfold createVolume
        rw [if_neg hempty]
        simp only [hval]
      rw [hcv]
      refine ⟨rfl, ⟨_, rfl⟩, ?_, hdel⟩
      intro _ _ e' he'
      cases he'
      rfl

/-- Witness for C11: the tests `TestCreateVolume_Empty`, `TestCreateVolume_WrongSize` and
`TestCreateVolume_WrongSizeMB`. -/
theorem createVolume_rejects_invalid_input_witness :
    (createVolume testEnv testConfig ⟨["lvs".toList], []⟩ [] []).1.trace = [] ∧
    (∃ e, (createVolume testEnv testConfig ⟨["lvs".toList], []⟩ "pv".toList "101G".toList).2
      = .error e) ∧
    (createVolume testEnv testConfig ⟨["lvs".toList], []⟩ "pv".toList "1025M".toList).2 =
      .error (.text "Your size is to big for suffix 'M' use 'G' instead".toList) :=
  ⟨congrArg World.trace
      (createVolume_rejects_invalid_input testEnv testConfig ⟨["lvs".toList], []⟩ [] []
        (Or.inl rfl)).1,
    (createVolume_rejects_invalid_input testEnv testConfig ⟨["lvs".toList], []⟩ "pv".toList
      "101G".toList (Or.inr (Or.inr (by decide)))).2.1,
    (createVolume_rejects_invalid_input testEnv testConfig ⟨["lvs".toList], []⟩ "pv".toList
      "1025M".toList (Or.inr (Or.inr (by decide)))).2.2.1 (by decide) (by decide) _ (by decide)⟩

theorem world_eq_of_parts (w : World σ) (st : σ) (tr : List Event) (h1 : w.st = st)
    (h2 : w.trace = tr) : w = ⟨st, tr⟩ := by
  cases w
  simp only at h1 h2
  subst h1 h2
  rfl

theorem deleteVolume_deletes (env : Env σ) (cfg : Config) (w : World σ) (v : Str)
    (hv : v ≠ []) :
    DeletesVolume env cfg w v (replaceFirst "vol_".toList "lv_".toList v) (getMountPath cfg v)
      (deleteVolume env cfg w v) := by
  have hlen : ¬ v.length = 0 := by
    intro h; exact hv (List.length_eq_zero.mp h)
  unfold DeletesVolume
  simp only [deleteVolume, if_neg hlen, deleteGlusterVolume]
  rcases executeCommandsLocally_runs env
      ["gluster volume stop ".toList ++ v ++ " --mode=script".toList,
        "gluster volume delete ".toList ++ v ++ " --mode=script".toList] w with
    ⟨hno, hst, htr, hres⟩ | ⟨k, hk, hlt, htr, hres⟩
  · right
    refine ⟨hno, ?_⟩
    rcases hA : executeCommandsLocally env w
        ["gluster volume stop ".toList ++ v ++ " --mode=script".toList,
          "gluster volume delete ".toList ++ v ++ " --mode=script".toList] with ⟨w1, e1⟩
    rw [hA] at hst htr hres
    simp only at hst htr hres
    subst hres
    have hw1 := world_eq_of_parts w1 _ _ hst htr
    simp only
    have hfan := fansOut_of_shape env w1 (deleteLvRequest cfg v) (deleteLvCommands cfg v)
      (deleteLvOnAllServers env cfg w1 v) rfl
    unfold FansOut at hfan
    rw [hw1] at hfan ⊢
    simp only at hfan ⊢
    rcases hrun : env.run (runAll env w.st
        ["gluster volume stop ".toList ++ v ++ " --mode=script".toList,
          "gluster volume delete ".toList ++ v ++ " --mode=script".toList])
        "bash".toList ["-c".toList, peerStatusCmd] with ⟨st1, out, err⟩
    rw [hrun] at hfan
    cases err with
    | some e => exact hfan
    | none =>
      simp only at hfan ⊢
      rcases hfan with hstop | ⟨hno2, hr, _⟩
      · left
        exact hstop
      · right
        refine ⟨hno2, ?_⟩
        rw [hr]
        simp only
        rcases executeCommandsLocally_runs env (deleteLvCommands cfg v)
            ⟨httpAll env st1 (List.map (deleteLvRequest cfg v) (peerServersOfLines (splitLines out))),
              w.trace ++ List.map bashC
                ["gluster volume stop ".toList ++ v ++ " --mode=script".toList,
                  "gluster volume delete ".toList ++ v ++ " --mode=script".toList]
                ++ [bashC peerStatusCmd]
                ++ List.map Event.http
                  (List.map (deleteLvRequest cfg v) (peerServersOfLines (splitLines out)))⟩ with
          ⟨hno3, _, htr3, hres3⟩ | ⟨k, hk, hlt, htr3, hres3⟩
        · right
          exact ⟨hno3, htr3, by rw [hres3]; rfl⟩
        · left
          exact ⟨k, hk, hlt, htr3, by rw [hres3]; rfl⟩
  · left
    rcases hA : executeCommandsLocally env w
        ["gluster volume stop ".toList ++ v ++ " --mode=script".toList,
          "gluster volume delete ".toList ++ v ++ " --mode=script".toList] with ⟨w1, e1⟩
    rw [hA] at htr hres
    simp only at htr hres
    subst hres
    exact ⟨k, hk, hlt, htr, rfl⟩

/-- What `deleteVolume(v)` does for `v = vol_<p>_pv<N>` and every environment: it runs
`gluster volume stop` and `gluster volume delete`, then asks for the peers and asks every
peer to delete the logical volume, then runs locally the `sed` removal of
`/dev/<VgName>/lv_<p>_pv<N>`, `umount`, `lvremove --yes` and
`rmdir --parents --ignore-fail-on-non-empty` on the mount path of `v`; the first command
that fails with a non-exempt error, a failing peer discovery, or the first peer that does
not answer 200 ends the sequence with the generic error, and a peer for which no request
can be built ends it with a panic. -/
theorem deleteVolume_steps (env : Env σ) (cfg : Config) (w : World σ) (p : Str) (N : Int) :
    DeletesVolume env cfg w ("vol_".toList ++ p ++ "_pv".toList ++ intToStr N)
      ("lv_".toList ++ p ++ "_pv".toList ++ intToStr N)
      (getMountPath cfg ("vol_".toList ++ p ++ "_pv".toList ++ intToStr N))
      (deleteVolume env cfg w ("vol_".toList ++ p ++ "_pv".toList ++ intToStr N)) := by
  have hlv : replaceFirst "vol_".toList "lv_".toList
      ("vol_".toList ++ p ++ "_pv".toList ++ intToStr N) =
      "lv_".toList ++ p ++ "_pv".toList ++ intToStr N := by
    rw [replaceFirst_of_isPrefixOf _ _ _ (by simp [List.isPrefixOf])]
    simp
  have h := deleteVolume_deletes env cfg w ("vol_".toList ++ p ++ "_pv".toList ++ intToStr N)
    (by simp)
  rw [hlv] at h
  exact h

/-- C12 at its failing inputs.  For the volume `vol_lvextend_pv1`, `gluster volume stop`
fails with `exit status 5`; the failure is let through as if it were the one of an
`lvextend`, every later step is run and `deleteVolume` returns `nil`.  And for a peer
listed as `a b`, no request can be built: after the two `gluster` commands and the peer
discovery `deleteVolume` panics instead of returning an error. -/
theorem deleteVolume_failure_not_returned :
    (stopFailsEnv.run () "bash".toList
      ["-c".toList, "gluster volume stop vol_lvextend_pv1 --mode=script".toList]).2.2 =
      some "exit status 5".toList ∧
    (deleteVolume stopFailsEnv testConfig ⟨(), []⟩
      ("vol_".toList ++ "lvextend".toList ++ "_pv".toList ++ intToStr 1)).2 = .ok () ∧
    (deleteVolume stopFailsEnv testConfig ⟨(), []⟩
      ("vol_".toList ++ "lvextend".toList ++ "_pv".toList ++ intToStr 1)).1.trace =
      [ bashC "gluster volume stop vol_lvextend_pv1 --mode=script".toList,
        bashC "gluster volume delete vol_lvextend_pv1 --mode=script".toList,
        bashC "gluster peer status | grep Hostname".toList,
        bashC "sed -i '\\#/dev/vgname/lv_lvextend_pv1#d' /etc/fstab".toList,
        bashC "umount /basepath/lvextend/pv1".toList,
        bashC "lvremove --yes /dev/vgname/lv_lvextend_pv1".toList,
        bashC "rmdir --parents --ignore-fail-on-non-empty /basepath/lvextend/pv1".toList ] ∧
    (deleteVolume testEnv testConfig ⟨[[], [], "Hostname: a b".toList], []⟩
      "vol_my-project_pv1".toList).2 = .panic ∧
    (deleteVolume testEnv testConfig ⟨[[], [], "Hostname: a b".toList], []⟩
      "vol_my-project_pv1".toList).1.trace =
      [ bashC "gluster volume stop vol_my-project_pv1 --mode=script".toList,
        bashC "gluster volume delete vol_my-project_pv1 --mode=script".toList,
        bashC "gluster peer status | grep Hostname".toList ] := by
  refine ⟨by decide, by decide, by decide, by decide, by decide⟩

/-- Example for C12: the same failure for the volume `vol_my-project_pv1` is not let
through; nothing else is run and the generic error is returned.  When everything
succeeds, the steps are run in the order of the claim. -/
theorem deleteVolume_examples :
    (deleteVolume stopFailsEnv testConfig ⟨(), []⟩ "vol_my-project_pv1".toList).1.trace =
      [bashC "gluster volume stop vol_my-project_pv1 --mode=script".toList] ∧
    (deleteVolume stopFailsEnv testConfig ⟨(), []⟩ "vol_my-project_pv1".toList).2 =
      .error (.text commandExecutionError) ∧
    (deleteVolume happyEnv testConfig ⟨(), []⟩ "vol_my-project_pv1".toList).2 = .ok () ∧
    (deleteVolume happyEnv testConfig ⟨(), []⟩ "vol_my-project_pv1".toList).1.trace =
      [ bashC "gluster volume stop vol_my-project_pv1 --mode=script".toList,
        bashC "gluster volume delete vol_my-project_pv1 --mode=script".toList,
        bashC "gluster peer status | grep Hostname".toList,
        .http (deleteLvRequest testConfig "vol_my-project_pv1".toList "h1".toList),
        .http (deleteLvRequest testConfig "vol_my-project_pv1".toList "h2".toList),
        bashC "sed -i '\\#/dev/vgname/lv_my-project_pv1#d' /etc/fstab".toList,
        bashC "umount /basepath/my-project/pv1".toList,
        bashC "lvremove --yes /dev/vgname/lv_my-project_pv1".toList,
        bashC "rmdir --parents --ignore-fail-on-non-empty /basepath/my-project/pv1".toList ] := by
  refine ⟨by decide, by decide, by decide, by decide⟩

/-! ## Peer discovery (C27) -/

theorem peerServersOfLines_eq (lines : List Str) :
    peerServersOfLines lines =
      (lines.filter (fun l => l ≠ [])).map
        (fun l => trimSpace (replaceAll "Hostname: ".toList [] l)) := by
  induction lines with
  | nil => rfl
  | cons l ls ih =>
    cases l with
    | nil => simpa [peerServersOfLines] using ih
    | cons c cs => simp [peerServersOfLines, ih]

/-- C27: when the status command succeeds, `getGlusterPeerServers` returns, in order, one
host per non-empty line of its output, the line without the label `Hostname: ` and
without the surrounding white space, and no error; when the command fails it returns the
empty list and the generic execution error.  The function run by the callers is this
function, with the list dropped when there is an error. -/
theorem getGlusterPeerServers_hosts (env : Env σ) (w : World σ) :
    getGlusterPeerServersResults env w =
      (match env.run w.st "bash".toList ["-c".toList, peerStatusCmd] with
       | (st1, _, some _) =>
         (⟨st1, w.trace ++ [bashC peerStatusCmd]⟩, [], some (.text commandExecutionError))
       | (st1, out, none) => (⟨st1, w.trace ++ [bashC peerStatusCmd]⟩, peerHosts out, none)) ∧
    getGlusterPeerServers env w =
      (match getGlusterPeerServersResults env w with
       | (w1, _, some e) => (w1, .error e)
       | (w1, servers, none) => (w1, .ok servers)) := by
  unfold getGlusterPeerServersResults getGlusterPeerServers World.run peerHosts
  rcases h : env.run w.st "bash".toList ["-c".toList, peerStatusCmd] with ⟨st1, out, err⟩
  cases err with
  | some e => exact ⟨rfl, rfl⟩
  | none => exact ⟨by simp only [peerServersOfLines_eq]; rfl, rfl⟩

/-- Example for C27: the test `TestGetGlusterPeerServers`, and a failing status
command. -/
theorem getGlusterPeerServers_examples :
    (getGlusterPeerServersResults testEnv
      ⟨["Hostname: 192.168.125.236\n\t\t\t\t\t\t  Hostname: 192.168.125.238".toList], []⟩).2 =
      (["192.168.125.236".toList, "192.168.125.238".toList], none) ∧
    (getGlusterPeerServersResults happyEnv ⟨(), []⟩).2 = (["h1".toList, "h2".toList], none) ∧
    (getGlusterPeerServersResults (dfEnv (some "exit status 1".toList) []) ⟨(), []⟩).2 =
      ([], some (.text commandExecutionError)) := by
  refine ⟨by decide, by decide, by decide⟩

/-! ## Deletion addresses what creation made (C30) -/

/-- The mount point and the name of the logical volume in `createVolume` are
`createdMountPoint` and `createdLvName`. -/
theorem createVolume_names (env : Env σ) (cfg : Config) (w : World σ) (project size : Str) :
    createVolume env cfg w project size =
      if size.length = 0 || project.length = 0 then
        (w, .error (.text "Not all input values provided".toList))
      else
        match validateSizeInput cfg size with
        | some e => (w, .error e)
        | none =>
          match getNextVolumeNrForProject env w project with
          | (w1, .error e) => (w1, .error e)
          | (w1, .panic) => (w1, .panic)
          | (w1, .ok pvNumber) =>
            match createLvOnAllServers env cfg w1 size (createdMountPoint cfg project pvNumber)
                (createdLvName project pvNumber) with
            | (w2, .error e) => (w2, .error e)
            | (w2, .panic) => (w2, .panic)
            | (w2, .ok _) =>
              match createGlusterVolume env cfg w2 project pvNumber
                  (createdMountPoint cfg project pvNumber) with
              | (w3, some e) => (w3, .error e)
              | (w3, none) => (w3, .ok (project ++ "_pv".toList ++ intToStr pvNumber)) := rfl

/-- Where C30 holds: for every project name `p` that contains neither `vol_` nor `_pv`,
every number `N` and every base path that does not contain `_pv`, the mount path of
`vol_<p>_pv<N>` is the mount point `<BasePath>/<p>/pv<N>` that `createVolume` mounts, the
name of the logical volume that `deleteLvLocally` removes is the name `lv_<p>_pv<N>` that
`createVolume` creates, and the commands of `deleteLvLocally` address these two. -/
theorem deleteLvLocally_addresses_created (cfg : Config) (p : Str) (N : Int)
    (_hvol : contains p "vol_".toList = false)
    (hpv : contains p "_pv".toList = false)
    (hbase : contains cfg.BasePath "_pv".toList = false) :
    getMountPath cfg ("vol_".toList ++ p ++ "_pv".toList ++ intToStr N) =
      createdMountPoint cfg p N ∧
    replaceFirst "vol_".toList "lv_".toList ("vol_".toList ++ p ++ "_pv".toList ++ intToStr N) =
      createdLvName p N ∧
    deleteLvCommands cfg ("vol_".toList ++ p ++ "_pv".toList ++ intToStr N) =
      [ "sed -i '\\#/dev/".toList ++ cfg.VgName ++ "/".toList ++ createdLvName p N
          ++ "#d' /etc/fstab".toList,
        "umount ".toList ++ createdMountPoint cfg p N,
        "lvremove --yes /dev/".toList ++ cfg.VgName ++ "/".toList ++ createdLvName p N,
        "rmdir --parents --ignore-fail-on-non-empty ".toList ++ createdMountPoint cfg p N ] := by
  have hmp : getMountPath cfg ("vol_".toList ++ p ++ "_pv".toList ++ intToStr N) =
      createdMountPoint cfg p N := getMountPath_of_parts cfg p (intToStr N) hpv hbase
  have hlv : replaceFirst "vol_".toList "lv_".toList
      ("vol_".toList ++ p ++ "_pv".toList ++ intToStr N) = createdLvName p N := by
    rw [replaceFirst_of_isPrefixOf _ _ _ (by simp [List.isPrefixOf])]
    simp [createdLvName]
  refine ⟨hmp, hlv, ?_⟩
  unfold deleteLvCommands
  simp only [hmp, hlv]

/-- Example for `deleteLvLocally_addresses_created`: the project `some-project` and the
configuration of the tests. -/
theorem deleteLvLocally_addresses_created_example :
    getMountPath testConfig ("vol_".toList ++ "some-project".toList ++ "_pv".toList ++ intToStr 1) =
      createdMountPoint testConfig "some-project".toList 1 ∧
    replaceFirst "vol_".toList "lv_".toList
        ("vol_".toList ++ "some-project".toList ++ "_pv".toList ++ intToStr 1) =
      createdLvName "some-project".toList 1 ∧
    deleteLvCommands testConfig
        ("vol_".toList ++ "some-project".toList ++ "_pv".toList ++ intToStr 1) =
      [ "sed -i '\\#/dev/".toList ++ testConfig.VgName ++ "/".toList
          ++ createdLvName "some-project".toList 1 ++ "#d' /etc/fstab".toList,
        "umount ".toList ++ createdMountPoint testConfig "some-project".toList 1,
        "lvremove --yes /dev/".toList ++ testConfig.VgName ++ "/".toList
          ++ createdLvName "some-project".toList 1,
        "rmdir --parents --ignore-fail-on-non-empty ".toList
          ++ createdMountPoint testConfig "some-project".toList 1 ] :=
  deleteLvLocally_addresses_created testConfig "some-project".toList 1
    (by decide) (by decide) (by decide)

/-- C30 at its failing input: with the base path `/data_pv` the project `app` (neither
`vol_` nor `_pv` in its name) gets its first volume mounted at `/data_pv/app/pv1`, and
`deleteVolume("vol_app_pv1")` unmounts `/data/pv/app_pv1`; the logical volume it removes
is the one that was created, `lv_app_pv1`. -/
theorem deleteVolume_base_path_collision :
    contains "app".toList "vol_".toList = false ∧
    contains "app".toList "_pv".toList = false ∧
    (createVolume happyEnv { testConfig with BasePath := "/data_pv".toList } ⟨(), []⟩
      "app".toList "1G".toList).2 = .ok "app_pv1".toList ∧
    bashC "mount -o rw,inode64,noatime,nouuid /dev/vgname/lv_app_pv1 /data_pv/app/pv1".toList ∈
      (createVolume happyEnv { testConfig with BasePath := "/data_pv".toList } ⟨(), []⟩
        "app".toList "1G".toList).1.trace ∧
    bashC "umount /data/pv/app_pv1".toList ∈
      (deleteVolume happyEnv { testConfig with BasePath := "/data_pv".toList } ⟨(), []⟩
        "vol_app_pv1".toList).1.trace ∧
    getMountPath { testConfig with BasePath := "/data_pv".toList } "vol_app_pv1".toList ≠
      createdMountPoint { testConfig with BasePath := "/data_pv".toList } "app".toList 1 ∧
    bashC "lvremove --yes /dev/vgname/lv_app_pv1".toList ∈
      (deleteVolume happyEnv { testConfig with BasePath := "/data_pv".toList } ⟨(), []⟩
        "vol_app_pv1".toList).1.trace := by
  refine ⟨by decide, by decide, by decide, by decide, by decide, by decide, by decide⟩

/-! ## Volume usage (C23, C25, C26) -/

/-- C23 at its failing inputs: `getVolumeUsage` answers `exit status 1` with the
not-found error and another failure of the command with the parse error, but it also
answers `exit status 127` with the not-found error (the test is a substring test), and
with output that holds no number, or one number only, it panics instead of returning an
error. -/
theorem getVolumeUsage_few_numbers_panics :
    (getVolumeUsage (dfEnv (some "exit status 1".toList) []) ⟨(), []⟩ "gl-test-pv5".toList).2 =
      .error (.text "PV test-pv5 does not exist".toList) ∧
    (getVolumeUsage (dfEnv (some "exit status 2".toList) []) ⟨(), []⟩ "gl-test-pv5".toList).2 =
      .error (.text "Could not parse usage size: exit status 2".toList) ∧
    (getVolumeUsage (dfEnv (some "exit status 127".toList) []) ⟨(), []⟩ "gl-test-pv5".toList).2 =
      .error (.text "PV test-pv5 does not exist".toList) ∧
    (getVolumeUsage (dfEnv none []) ⟨(), []⟩ "gl-test-pv5".toList).2 = .panic ∧
    (getVolumeUsage testEnv ⟨[], []⟩ "gl-test-pv5".toList).2 = .panic ∧
    (getVolumeUsage (dfEnv none "     -     - /dev/mapper/vg_slow-lv_test_pv5".toList) ⟨(), []⟩
      "gl-test-pv5".toList).2 = .panic ∧
    parseOutput "no numbers".toList = .panic ∧
    parseOutput "5472 /dev/mapper/vg_slow-lv_test".toList = .panic := by
  refine ⟨by decide, by decide, by decide, by decide, by decide, by decide, by decide,
    by decide⟩

/-- C25 at its failing inputs: for the project `my-pvc` the name is split at the `-pv`
of the project name and the line looked up ends in `lv_my_pvc`, not in `lv_my--pvc_pv1`;
for the project `gl-team` the `gl-` of the project name is removed as well; for the
project `bagl` the name left has no `-pv`, and the function panics before any lookup.
For the names of the tests the lookup is the one of the claim. -/
theorem getVolumeUsage_lookup_collisions :
    (getVolumeUsage (dfEnv none []) ⟨(), []⟩ "gl-my-pvc-pv1".toList).1.trace =
      [bashC "df --output=size,used,source | grep 'lv_my_pvc$'".toList] ∧
    (getVolumeUsage (dfEnv none []) ⟨(), []⟩ "gl-gl-team-pv1".toList).1.trace =
      [bashC "df --output=size,used,source | grep 'lv_team_pv1$'".toList] ∧
    (getVolumeUsage (dfEnv none []) ⟨(), []⟩ "gl-bagl-pv1".toList).1.trace = [] ∧
    (getVolumeUsage (dfEnv none "    49664    2864 /dev/mapper/vg_mylv_bagl_pv1".toList)
      ⟨(), []⟩ "gl-bagl-pv1".toList).2 = .panic ∧
    (getVolumeUsage (dfEnv none []) ⟨(), []⟩ "gl-project-very-very-long-pv20".toList).1.trace =
      [bashC ("df --output=size,used,source | grep 'lv_".toList
        ++ doubleDashes "project-very-very-long".toList ++ "_pv20$'".toList)] ∧
    doubleDashes "project-very-very-long".toList = "project--very--very--long".toList ∧
    doubleDashes "my-pvc".toList = "my--pvc".toList := by
  refine ⟨by decide, by decide, by decide, by decide, by decide, by decide, by decide⟩

/-! ## The numbers of a line of `df` (C26) -/

theorem digitRunsFrom_no_digits : ∀ (pre t : Str), (∀ c ∈ pre, isDigit c = false) →
    digitRunsFrom [] (pre ++ t) = digitRunsFrom [] t := by
  intro pre
  induction pre with
  | nil => intro t _; rfl
  | cons x pre ih =>
    intro t h
    have hx : isDigit x = false := h x (by simp)
    rw [List.cons_append, digitRunsFrom, hx]
    simp only [Bool.false_eq_true, if_false, if_true]
    exact ih t (fun c hc => h c (by simp [hc]))

theorem digitRunsFrom_digits_then : ∀ (ds cur t : Str), ds.all isDigit = true → cur ++ ds ≠ [] →
    (∀ c, t.head? = some c → isDigit c = false) →
    ∃ tail, digitRunsFrom cur (ds ++ t) = (cur ++ ds) :: tail := by
  intro ds
  induction ds with
  | nil =>
    intro cur t _ hne ht
    have hcur : cur ≠ [] := by simpa using hne
    cases t with
    | nil => exact ⟨[], by simp [digitRunsFrom, hcur]⟩
    | cons x t =>
      have hx : isDigit x = false := ht x rfl
      exact ⟨digitRunsFrom [] t, by simp [digitRunsFrom, hx, hcur]⟩
  | cons d ds ih =>
    intro cur t hall _ ht
    simp only [List.all_cons, Bool.and_eq_true] at hall
    obtain ⟨tail, htail⟩ := ih (cur ++ [d]) t hall.2 (by simp) ht
    exact ⟨tail, by rw [List.cons_append, digitRunsFrom, if_pos hall.1, htail]; simp⟩

/-- The numbers of a text `<pre><size><sep><used><rest>` start with `size` and `used`. -/
theorem findAllNumbers_of_line (pre sep rest size used : Str)
    (hpre : ∀ c ∈ pre, isDigit c = false)
    (hsep : sep ≠ []) (hsepd : ∀ c ∈ sep, isDigit c = false)
    (hrest : ∀ c, rest.head? = some c → isDigit c = false)
    (hsize : size ≠ []) (hsized : size.all isDigit = true)
    (hused : used ≠ []) (husedd : used.all isDigit = true) :
    ∃ tail, findAllNumbers (pre ++ size ++ sep ++ used ++ rest) = size :: used :: tail := by
  unfold findAllNumbers
  obtain ⟨tail2, h2⟩ := digitRunsFrom_digits_then used [] rest husedd (by simpa using hused) hrest
  cases sep with
  | nil => exact absurd rfl hsep
  | cons x sep =>
    have hx : isDigit x = false := hsepd x (by simp)
    have hsep' : ∀ c ∈ sep, isDigit c = false := fun c hc => hsepd c (by simp [hc])
    have h1 : digitRunsFrom [] (size ++ (x :: (sep ++ (used ++ rest)))) =
        size :: digitRunsFrom [] (sep ++ (used ++ rest)) := by
      have := digitRunsFrom_of_digits size [] hsized (by simpa using hsize)
      clear this
      have aux : ∀ (ds cur : Str), ds.all isDigit = true → cur ++ ds ≠ [] →
          digitRunsFrom cur (ds ++ (x :: (sep ++ (used ++ rest)))) =
            (cur ++ ds) :: digitRunsFrom [] (sep ++ (used ++ rest)) := by
        intro ds
        induction ds with
        | nil =>
          intro cur _ hne
          have hcur : cur ≠ [] := by simpa using hne
          simp [digitRunsFrom, hx, hcur]
        | cons d ds ih =>
          intro cur hall _
          simp only [List.all_cons, Bool.and_eq_true] at hall
          rw [List.cons_append, digitRunsFrom, if_pos hall.1, ih (cur ++ [d]) hall.2 (by simp)]
          simp
      simpa using aux size [] hsized (by simpa using hsize)
    refine ⟨tail2, ?_⟩
    have e : pre ++ size ++ x :: sep ++ used ++ rest =
        pre ++ (size ++ (x :: (sep ++ (used ++ rest)))) := by simp
    rw [e, digitRunsFrom_no_digits pre _ hpre, h1, digitRunsFrom_no_digits sep _ hsep']
    simpa using h2

/-- C26, as amended: for output of the form `<size> <used> <source>`, that is the
decimal number `size`, a separator without digits, the decimal number `used` and a rest
that does not go on with a digit, possibly after an indentation without digits, the
first two numbers of the output are `size` and `used`; when both fit a Go `int`,
`parseOutput` returns `TotalKiloBytes = size` and `UsedKiloBytes = used`, and when one of
them does not fit, it returns the generic error. -/
theorem parseOutput_size_used (pre sep rest : Str) (size used : Nat)
    (hpre : ∀ c ∈ pre, isDigit c = false)
    (hsep : sep ≠ []) (hsepd : ∀ c ∈ sep, isDigit c = false)
    (hrest : ∀ c, rest.head? = some c → isDigit c = false) :
    (findAllNumbers (pre ++ natToStr size ++ sep ++ natToStr used ++ rest)).take 2 =
      [natToStr size, natToStr used] ∧
    parseOutput (pre ++ natToStr size ++ sep ++ natToStr used ++ rest) =
      if (size : Int) ≤ maxInt ∧ (used : Int) ≤ maxInt then
        .ok { TotalKiloBytes := size, UsedKiloBytes := used }
      else .error (.text commandExecutionError) := by
  obtain ⟨hne1, hall1, _⟩ := natToStr_spec size
  obtain ⟨hne2, hall2, _⟩ := natToStr_spec used
  obtain ⟨tail, ht⟩ := findAllNumbers_of_line pre sep rest (natToStr size) (natToStr used)
    hpre hsep hsepd hrest hne1 hall1 hne2 hall2
  refine ⟨by rw [ht]; rfl, ?_⟩
  unfold parseOutput
  rw [ht]
  simp only [atoi_natToStr]
  by_cases hsize : (size : Int) ≤ maxInt
  · by_cases hused : (used : Int) ≤ maxInt
    · simp only [hsize, hused, and_self, if_true]
    · simp only [hsize, hused, and_false, if_true, if_false]
  · simp only [hsize, false_and, if_false]

/-- Witness for C26: the output of the test `TestGetVolumeUsage`. -/
theorem parseOutput_size_used_witness :
    (findAllNumbers ("    ".toList ++ natToStr 49664 ++ "    ".toList ++ natToStr 2864
      ++ " /dev/mapper/vg_mylv_project_pv1".toList)).take 2 = [natToStr 49664, natToStr 2864] ∧
    parseOutput ("    ".toList ++ natToStr 49664 ++ "    ".toList ++ natToStr 2864
      ++ " /dev/mapper/vg_mylv_project_pv1".toList) =
      if ((49664 : Nat) : Int) ≤ maxInt ∧ ((2864 : Nat) : Int) ≤ maxInt then
        .ok { TotalKiloBytes := ((49664 : Nat) : Int), UsedKiloBytes := ((2864 : Nat) : Int) }
      else .error (.text commandExecutionError) :=
  parseOutput_size_used "    ".toList "    ".toList " /dev/mapper/vg_mylv_project_pv1".toList
    49664 2864 (by decide) (by decide) (by decide) (by decide)

/-- Counterexample to C26 as stated: a size of 2^63 kilobytes does not fit a Go `int`;
`strconv.Atoi` fails and `parseOutput` returns the generic error, no sizes. -/
theorem parseOutput_overflow_counterexample :
    parseOutput "9223372036854775808 2864 /dev/mapper/vg_mylv_project_pv1".toList =
      .error (.text commandExecutionError) ∧
    parseOutput "49664 9223372036854775808 /dev/mapper/vg_mylv_project_pv1".toList =
      .error (.text commandExecutionError) ∧
    parseOutput "    49664    2864 /dev/mapper/vg_mylv_project_pv1".toList =
      .ok { TotalKiloBytes := 49664, UsedKiloBytes := 2864 } := by
  refine ⟨by decide, by decide, by decide⟩

/-! ## The lookup of `getVolumeUsage` for project names without collisions -/

theorem replaceAllFrom_dash : ∀ (s : Str) (fuel : Nat), s.length < fuel →
    replaceAllFrom "-".toList "--".toList fuel s = doubleDashes s := by
  intro s
  induction s with
  | nil =>
    intro fuel h
    cases fuel with
    | zero => simp at h
    | succ f => rfl
  | cons c cs ih =>
    intro fuel h
    cases fuel with
    | zero => simp at h
    | succ f =>
      have hf : cs.length < f := by simpa using h
      by_cases hc : c = '-'
      · subst hc
        have : replaceAllFrom "-".toList "--".toList (f + 1) ('-' :: cs) =
            "--".toList ++ replaceAllFrom "-".toList "--".toList f cs := by
          simp [replaceAllFrom, List.isPrefixOf]
        rw [this, ih f hf]
        simp [doubleDashes]
      · have hc2 : ¬ '-' = c := fun e => hc e.symm
        have : replaceAllFrom "-".toList "--".toList (f + 1) (c :: cs) =
            c :: replaceAllFrom "-".toList "--".toList f cs := by
          simp [replaceAllFrom, List.isPrefixOf, hc2]
        rw [this, ih f hf]
        simp [doubleDashes, hc]

theorem replaceAll_dash (s : Str) : replaceAll "-".toList "--".toList s = doubleDashes s := by
  unfold replaceAll
  rw [if_neg (by decide)]
  exact replaceAllFrom_dash s _ (Nat.lt_succ_self _)

theorem replaceAllFrom_of_not_contains (old new : Str) : ∀ (s : Str) (fuel : Nat),
    contains s old = false → replaceAllFrom old new fuel s = s := by
  intro s
  induction s with
  | nil =>
    intro fuel _
    cases fuel <;> rfl
  | cons c cs ih =>
    intro fuel h
    obtain ⟨h1, h2⟩ := contains_cons_false h
    cases fuel with
    | zero => rfl
    | succ f =>
      rw [replaceAllFrom, if_neg (by rw [h1]; simp), ih f h2]

theorem contains_of_no_head (sub t : Str) (g : Char) (hsub : sub.head? = some g)
    (ht : ∀ c ∈ t, c ≠ g) : contains t sub = false := by
  cases sub with
  | nil => simp at hsub
  | cons g0 sub =>
    have hg : g0 = g := by simpa using hsub
    subst hg
    induction t with
    | nil => simp [contains, List.isPrefixOf]
    | cons c t ih =>
      have hc : c ≠ g0 := ht c (by simp)
      have hc2 : ¬ g0 = c := fun e => hc e.symm
      have hrest := ih (fun d hd => ht d (by simp [hd]))
      simp [contains, List.isPrefixOf, hc2, hrest]

/-- No `gl-` is in a project name followed by `-` and a text without `g`, when none is in
the project name followed by `-`. -/
theorem contains_gl_of_project (t : Str) (ht2 : ∀ c ∈ t, c ≠ 'g') :
    ∀ p : Str, contains (p ++ "-".toList) "gl-".toList = false →
      contains (p ++ '-' :: t) "gl-".toList = false := by
  have htc : contains t "gl-".toList = false := contains_of_no_head _ t 'g' rfl ht2
  intro p
  induction p with
  | nil =>
    intro _
    have htc2 : contains t ['g', 'l', '-'] = false := htc
    simp [contains, List.isPrefixOf, htc2]
  | cons x p ih =>
    intro h
    obtain ⟨h1, h2⟩ := contains_cons_false h
    have hrest := ih h2
    have hpre : ("gl-".toList).isPrefixOf (x :: (p ++ '-' :: t)) = false := by
      match p, h1 with
      | [], _ =>
        simp only [String.toList, List.nil_append, List.isPrefixOf]
        simp
      | [y], h1 =>
        simp only [String.toList, List.cons_append, List.nil_append, List.isPrefixOf] at h1 ⊢
        simpa using h1
      | y :: z :: r, h1 =>
        simp only [String.toList, List.cons_append, List.isPrefixOf] at h1 ⊢
        simpa using h1
    rw [List.cons_append, contains, hpre, hrest]
    rfl

theorem splitFrom_of_no_dash : ∀ (s : Str) (fuel : Nat) (cur : Str), (∀ c ∈ s, c ≠ '-') →
    s.length < fuel → splitFrom "-pv".toList fuel cur s = [cur ++ s] := by
  intro s
  induction s with
  | nil =>
    intro fuel cur _ h
    cases fuel with
    | zero => simp at h
    | succ f => simp [splitFrom]
  | cons c cs ih =>
    intro fuel cur hs h
    cases fuel with
    | zero => simp at h
    | succ f =>
      have hc : c ≠ '-' := hs c (by simp)
      have hc2 : ¬ '-' = c := fun e => hc e.symm
      have hpre : ("-pv".toList).isPrefixOf (c :: cs) = false := by
        simp [List.isPrefixOf, hc2]
      rw [splitFrom, if_neg (by rw [hpre]; simp),
        ih f (cur ++ [c]) (fun d hd => hs d (by simp [hd])) (by simpa using h)]
      simp

theorem splitFrom_of_project (N : Str) (hN : ∀ c ∈ N, c ≠ '-') :
    ∀ (p : Str) (fuel : Nat) (cur : Str), contains p "-pv".toList = false →
      (p ++ "-pv".toList ++ N).length < fuel →
      splitFrom "-pv".toList fuel cur (p ++ "-pv".toList ++ N) = [cur ++ p, N] := by
  intro p
  induction p with
  | nil =>
    intro fuel cur _ h
    cases fuel with
    | zero => simp at h
    | succ f =>
      have hf : N.length < f := by
        simp at h
        omega
      have : splitFrom "-pv".toList (f + 1) cur ([] ++ "-pv".toList ++ N) =
          cur :: splitFrom "-pv".toList f [] N := by
        simp [splitFrom, List.isPrefixOf]
      rw [this, splitFrom_of_no_dash N f [] hN hf]
      simp
  | cons x p ih =>
    intro fuel cur h hlen
    obtain ⟨h1, h2⟩ := contains_cons_false h
    cases fuel with
    | zero => simp at hlen
    | succ f =>
      have hpre : ("-pv".toList).isPrefixOf (x :: (p ++ "-pv".toList ++ N)) = false := by
        match p, h1 with
        | [], _ =>
          simp only [String.toList, List.nil_append, List.cons_append, List.isPrefixOf]
          simp
        | [y], _ =>
          simp only [String.toList, List.cons_append, List.nil_append, List.isPrefixOf]
          simp
        | y :: z :: r, h1 =>
          simp only [String.toList, List.cons_append, List.isPrefixOf] at h1 ⊢
          simpa using h1
      have e : x :: p ++ "-pv".toList ++ N = x :: (p ++ "-pv".toList ++ N) := by simp
      rw [e, splitFrom, if_neg (by rw [hpre]; simp), ih f (cur ++ [x]) h2 (by
        rw [e] at hlen
        simpa using hlen)]
      simp

/-- Where C25 holds: for a project name `p` such that `p-` contains no `gl-` and `p` no
`-pv`, and every number `N`, `getVolumeUsage("gl-<p>-pv<N>")` runs one command, the
lookup of the line of `df` that ends in `lv_<p'>_pv<N>`, with `p'` the project name with
every `-` doubled. -/
theorem getVolumeUsage_lookup (env : Env σ) (w : World σ) (p : Str) (N : Nat)
    (hgl : contains (p ++ "-".toList) "gl-".toList = false)
    (hpv : contains p "-pv".toList = false) :
    (getVolumeUsage env w ("gl-".toList ++ p ++ "-pv".toList ++ natToStr N)).1.trace =
      w.trace ++ [bashC ("df --output=size,used,source | grep 'lv_".toList ++ doubleDashes p
        ++ "_pv".toList ++ natToStr N ++ "$'".toList)] := by
  have hdig : ∀ c ∈ natToStr N, isDigit c = true := by
    have := (natToStr_spec N).2.1
    rwa [List.all_eq_true] at this
  have hN1 : ∀ c ∈ natToStr N, c ≠ '-' := by
    intro c hc e
    have := hdig c hc
    rw [e] at this
    revert this
    decide
  have ht2 : ∀ c ∈ 'p' :: 'v' :: natToStr N, c ≠ 'g' := by
    intro c hc
    simp only [List.mem_cons] at hc
    rcases hc with h | h | h
    · rw [h]; decide
    · rw [h]; decide
    · intro e
      have := hdig c h
      rw [e] at this
      revert this
      decide
  have hcont : contains (p ++ "-pv".toList ++ natToStr N) "gl-".toList = false := by
    have := contains_gl_of_project ('p' :: 'v' :: natToStr N) ht2 p hgl
    simpa using this
  have hrep : replaceAll "gl-".toList [] ("gl-".toList ++ p ++ "-pv".toList ++ natToStr N) =
      p ++ "-pv".toList ++ natToStr N := by
    unfold replaceAll
    rw [if_neg (by decide)]
    have e : "gl-".toList ++ p ++ "-pv".toList ++ natToStr N =
        'g' :: 'l' :: '-' :: (p ++ "-pv".toList ++ natToStr N) := by simp
    rw [e]
    have : replaceAllFrom "gl-".toList []
        (('g' :: 'l' :: '-' :: (p ++ "-pv".toList ++ natToStr N)).length + 1)
        ('g' :: 'l' :: '-' :: (p ++ "-pv".toList ++ natToStr N)) =
        replaceAllFrom "gl-".toList []
          (('g' :: 'l' :: '-' :: (p ++ "-pv".toList ++ natToStr N)).length)
          (p ++ "-pv".toList ++ natToStr N) := by
      simp [replaceAllFrom, List.isPrefixOf]
    rw [this, replaceAllFrom_of_not_contains _ _ _ _ hcont]
  have hsplit : split (p ++ "-pv".toList ++ natToStr N) "-pv".toList = [p, natToStr N] := by
    unfold split
    rw [if_neg (by decide)]
    have := splitFrom_of_project (natToStr N) hN1 p _ [] hpv (Nat.lt_succ_self _)
    simpa using this
  unfold getVolumeUsage
  simp only [hrep, hsplit, usageCmd, replaceAll_dash]
  unfold World.run
  rcases env.run w.st "bash".toList ["-c".toList,
    "df --output=size,used,source | grep 'lv_".toList ++ doubleDashes p ++ "_pv".toList
      ++ natToStr N ++ "$'".toList] with ⟨st1, out, err⟩
  cases err with
  | none => rfl
  | some e =>
    simp only
    split <;> rfl

/-- Example for `getVolumeUsage_lookup`: the name of the test
`TestGetVolumeUsage_LongProjectHighNumber`. -/
theorem getVolumeUsage_lookup_example :
    (getVolumeUsage testEnv ⟨[], []⟩ ("gl-".toList ++ "project-very-very-long".toList
      ++ "-pv".toList ++ natToStr 20)).1.trace =
      [] ++ [bashC ("df --output=size,used,source | grep 'lv_".toList
        ++ doubleDashes "project-very-very-long".toList ++ "_pv".toList ++ natToStr 20
        ++ "$'".toList)] :=
  getVolumeUsage_lookup testEnv ⟨[], []⟩ "project-very-very-long".toList 20
    (by decide) (by decide)

end Gluster

namespace Server

open Gluster

/-! ## De-duplication (C13) -/

theorem mem_foldl_insertKey (elements : List Str) : ∀ (acc : List Str) (x : Str),
    x ∈ elements.foldl insertKey acc ↔ x ∈ acc ∨ x ∈ elements := by
  induction elements with
  | nil => intro acc x; simp
  | cons e es ih =>
    intro acc x
    rw [List.foldl_cons, ih]
    unfold insertKey
    by_cases he : e ∈ acc
    · rw [if_pos he]
      constructor
      · rintro (h | h)
        · exact Or.inl h
        · exact Or.inr (List.mem_cons_of_mem _ h)
      · rintro (h | h)
        · exact Or.inl h
        · rcases List.mem_cons.mp h with rfl | h
          · exact Or.inl he
          · exact Or.inr h
    · rw [if_neg he]
      simp only [List.mem_append, List.mem_singleton, List.mem_cons]
      tauto

theorem nodup_foldl_insertKey (elements : List Str) : ∀ (acc : List Str),
    acc.Nodup → (elements.foldl insertKey acc).Nodup := by
  induction elements with
  | nil => intro acc h; simpa using h
  | cons e es ih =>
    intro acc h
    rw [List.foldl_cons]
    apply ih
    unfold insertKey
    by_cases he : e ∈ acc
    · rw [if_pos he]; exact h
    · rw [if_neg he]
      exact List.Nodup.append h (List.nodup_singleton e) (by
        intro a ha hb
        rw [List.mem_singleton] at hb
        subst hb
        exact he ha)

theorem removeDuplicates_nodup (ord : List Str → List Str) (hord : ∀ l, (ord l).Perm l)
    (elements : List Str) : (RemoveDuplicates ord elements).Nodup := by
  unfold RemoveDuplicates
  exact (hord _).nodup_iff.mpr (nodup_foldl_insertKey elements [] List.nodup_nil)

theorem mem_removeDuplicates (ord : List Str → List Str) (hord : ∀ l, (ord l).Perm l)
    (elements : List Str) (x : Str) : x ∈ RemoveDuplicates ord elements ↔ x ∈ elements := by
  unfold RemoveDuplicates
  rw [(hord _).mem_iff, mem_foldl_insertKey]
  simp

theorem toLower_fixed (u : Char → Char)
    (hidem : ∀ c, lowerChar u (lowerChar u c) = lowerChar u c) (x : Str) :
    toLower u (toLower u x) = toLower u x := by
  unfold toLower
  rw [List.map_map]
  apply List.map_congr_left
  intro c _
  exact hidem c

/-- What `getProjectAdminsAndOperators` returns, once the role bindings (and, when they
are needed, the members of the operator group) are there. -/
theorem getProjectAdminsAndOperators_ok (u : Char → Char) (ord : List Str → List Str)
    (env : OseEnv) (clusterId project : Str) (admins operators : List Str)
    (h : getProjectAdminsAndOperators u ord env clusterId project = .ok (admins, operators)) :
    ∃ arb, getAdminRoleBinding u ord env clusterId project = .ok arb ∧
      admins = RemoveDuplicates ord (arb.userNames.map (toLower u)) ∧
      ((arb.groupNames.any (fun g => toLower u g = "operator".toList) = true ∧
          ∃ users, getOperatorGroup env clusterId = .ok users ∧
            operators = users.map (toLower u)) ∨
        (arb.groupNames.any (fun g => toLower u g = "operator".toList) = false ∧
          operators = [])) := by
  unfold getProjectAdminsAndOperators at h
  cases harb : getAdminRoleBinding u ord env clusterId project with
  | error e => rw [harb] at h; cases h
  | ok arb =>
    rw [harb] at h
    simp only at h
    refine ⟨arb, rfl, ?_⟩
    by_cases hop : arb.groupNames.any (fun g => toLower u g = "operator".toList) = true
    · rw [if_pos hop] at h
      cases hog : getOperatorGroup env clusterId with
      | error e => rw [hog] at h; cases h
      | ok users =>
        rw [hog] at h
        simp only [Except.ok.injEq, Prod.mk.injEq] at h
        exact ⟨h.1.symm, Or.inl ⟨hop, users, rfl, h.2.symm⟩⟩
    · rw [if_neg hop] at h
      simp only [Except.ok.injEq, Prod.mk.injEq] at h
      exact ⟨h.1.symm, Or.inr ⟨by simpa using hop, h.2.symm⟩⟩

/-- C13: for every order in which the map is visited, `RemoveDuplicates` returns a list
without repeated elements that contains exactly the elements of its input; so the admin
list that `getProjectAdminsAndOperators` returns has no repeated element and consists of
lower-cased names. -/
theorem removeDuplicates_spec (u : Char → Char) (ord : List Str → List Str)
    (hord : ∀ l, (ord l).Perm l) (elements : List Str) (env : OseEnv)
    (clusterId project : Str) :
    (RemoveDuplicates ord elements).Nodup ∧
    (∀ x, x ∈ RemoveDuplicates ord elements ↔ x ∈ elements) ∧
    (∀ admins operators,
      getProjectAdminsAndOperators u ord env clusterId project = .ok (admins, operators) →
      admins.Nodup ∧ (∀ a ∈ admins, ∃ x, a = toLower u x) ∧
      ((∀ c, lowerChar u (lowerChar u c) = lowerChar u c) → ∀ a ∈ admins, toLower u a = a)) := by
  refine ⟨removeDuplicates_nodup ord hord elements, mem_removeDuplicates ord hord elements, ?_⟩
  intro admins operators h
  obtain ⟨arb, _, hadm, _⟩ := getProjectAdminsAndOperators_ok u ord env clusterId project _ _ h
  have himg : ∀ a ∈ admins, ∃ x, a = toLower u x := by
    intro a ha
    rw [hadm, mem_removeDuplicates ord hord, List.mem_map] at ha
    obtain ⟨x, _, hx⟩ := ha
    exact ⟨x, hx.symm⟩
  refine ⟨?_, himg, ?_⟩
  · rw [hadm]
    exact removeDuplicates_nodup ord hord _
  · intro hidem a ha
    obtain ⟨x, hx⟩ := himg a ha
    rw [hx, toLower_fixed u hidem]

/-- Witness for C13: the admin subjects `alice`, `ALICE` and `bob` resolve to `alice` and
`bob`. -/
theorem removeDuplicates_spec_witness :
    getProjectAdminsAndOperators id id exampleOse [] "p".toList =
      .ok (["alice".toList, "bob".toList], ["oscar".toList]) ∧
    (RemoveDuplicates id ["alice".toList, "alice".toList, "bob".toList]).Nodup ∧
    (["alice".toList, "bob".toList] : List Str).Nodup :=
  ⟨by decide,
    (removeDuplicates_spec id id (fun l => List.Perm.refl l)
      ["alice".toList, "alice".toList, "bob".toList] exampleOse [] "p".toList).1,
    ((removeDuplicates_spec id id (fun l => List.Perm.refl l) [] exampleOse [] "p".toList).2.2
      ["alice".toList, "bob".toList] ["oscar".toList] (by decide)).1⟩

/-! ## The role-binding check (C14, C15) -/

theorem adminUserNames_eq (u : Char → Char) (items : List RoleBinding) :
    adminUserNames u items = (adminSubjects items).map (toLower u) := by
  induction items with
  | nil => rfl
  | cons role rest ih =>
    unfold adminUserNames adminSubjects
    by_cases h : role.roleRefName = "admin".toList
    · simp only [h, if_true, List.filter_cons, decide_True, List.flatMap_cons, List.map_append]
      rw [ih]
      rfl
    · simp only [h, if_false, List.filter_cons, decide_False]
      rw [ih]
      rfl

theorem adminGroupNames_eq (u : Char → Char) (items : List RoleBinding) :
    adminGroupNames u items = (adminGroups items).map (toLower u) := by
  induction items with
  | nil => rfl
  | cons role rest ih =>
    unfold adminGroupNames adminGroups
    by_cases h : role.roleRefName = "admin".toList
    · simp only [h, if_true, List.filter_cons, decide_True, List.flatMap_cons, List.map_append]
      rw [ih]
      rfl
    · simp only [h, if_false, List.filter_cons, decide_False]
      rw [ih]
      rfl

theorem adminUserNames_lowerSubjects (u : Char → Char) (items : List RoleBinding) :
    adminSubjects (items.map (lowerSubjects u)) = adminUserNames u items := by
  induction items with
  | nil => rfl
  | cons role rest ih =>
    unfold adminUserNames
    unfold adminSubjects at ih ⊢
    by_cases h : role.roleRefName = "admin".toList
    · simp only [List.map_cons, List.filter_cons, lowerSubjects, h, decide_True, if_true,
        List.flatMap_cons]
      rw [← ih]
      try rfl
    · simp only [List.map_cons, List.filter_cons, lowerSubjects, h, decide_False, if_false]
      rw [← ih]
      try rfl

theorem adminGroupNames_lowerSubjects (u : Char → Char) (items : List RoleBinding) :
    adminGroupNames u (items.map (lowerSubjects u)) = adminGroupNames u items := by
  induction items with
  | nil => rfl
  | cons role rest ih =>
    simp only [List.map_cons, adminGroupNames, lowerSubjects, ih]

theorem getAdminRoleBinding_of_items (u : Char → Char) (ord : List Str → List Str)
    (env : OseEnv) (clusterId project : Str) (status : Nat) (items : List RoleBinding)
    (hrb : env.roleBindings clusterId project = .ok ⟨status, some items⟩)
    (h404 : status ≠ 404) (h403 : status ≠ 403) :
    getAdminRoleBinding u ord env clusterId project =
      .ok { userNames := RemoveDuplicates ord (adminUserNames u items),
            groupNames := RemoveDuplicates ord (adminGroupNames u items) } := by
  unfold getAdminRoleBinding
  rw [hrb]
  simp only [h404, h403, if_false]

theorem hasOperatorGroup_eq (u : Char → Char) (ord : List Str → List Str)
    (hord : ∀ l, (ord l).Perm l) (items : List RoleBinding) :
    (RemoveDuplicates ord (adminGroupNames u items)).any
        (fun g => toLower u g = "operator".toList) = listsOperatorGroup u items := by
  rw [Bool.eq_iff_iff]
  unfold listsOperatorGroup
  simp only [List.any_eq_true, decide_eq_true_eq]
  constructor
  · rintro ⟨g, hg, hop⟩
    rw [mem_removeDuplicates ord hord, adminGroupNames_eq, List.mem_map] at hg
    obtain ⟨g0, hg0, rfl⟩ := hg
    exact ⟨g0, hg0, hop⟩
  · rintro ⟨g0, hg0, hop⟩
    refine ⟨toLower u g0, ?_, hop⟩
    rw [mem_removeDuplicates ord hord, adminGroupNames_eq]
    exact List.mem_map_of_mem _ hg0

theorem mem_resolved_admins (u : Char → Char) (ord : List Str → List Str)
    (hord : ∀ l, (ord l).Perm l) (items : List RoleBinding) (a : Str) :
    a ∈ RemoveDuplicates ord ((RemoveDuplicates ord (adminUserNames u items)).map (toLower u)) ↔
      ∃ s ∈ adminSubjects items, a = toLower u (toLower u s) := by
  rw [mem_removeDuplicates ord hord, List.mem_map]
  constructor
  · rintro ⟨x, hx, rfl⟩
    rw [mem_removeDuplicates ord hord, adminUserNames_eq, List.mem_map] at hx
    obtain ⟨s, hs, rfl⟩ := hx
    exact ⟨s, hs, rfl⟩
  · rintro ⟨s, hs, rfl⟩
    refine ⟨toLower u s, ?_, rfl⟩
    rw [mem_removeDuplicates ord hord, adminUserNames_eq]
    exact List.mem_map_of_mem _ hs

theorem checkAdminPermissions_of_lists (u : Char → Char) (ord : List Str → List Str)
    (env : OseEnv) (clusterId username project : Str) (admins operators : List Str)
    (h : getProjectAdminsAndOperators u ord env clusterId project = .ok (admins, operators)) :
    checkAdminPermissions u ord env clusterId username project =
      if toLower u username ∈ admins ∨ toLower u username ∈ operators then none
      else some (noAdminPermissionsError project admins) := by
  unfold checkAdminPermissions
  rw [h]
  simp only
  by_cases hacc : toLower u username ∈ admins ∨ toLower u username ∈ operators
  · rw [if_pos hacc]
    have : (admins.any (fun a => toLower u username = a) ||
        operators.any (fun o => toLower u username = o)) = true := by
      simp only [Bool.or_eq_true, List.any_eq_true, decide_eq_true_eq]
      rcases hacc with h1 | h1
      · exact Or.inl ⟨_, h1, rfl⟩
      · exact Or.inr ⟨_, h1, rfl⟩
    rw [if_pos this]
  · rw [if_neg hacc]
    have : ¬ (admins.any (fun a => toLower u username = a) ||
        operators.any (fun o => toLower u username = o)) = true := by
      simp only [Bool.or_eq_true, List.any_eq_true, decide_eq_true_eq]
      rintro (⟨a, ha, rfl⟩ | ⟨o, ho, rfl⟩)
      · exact hacc (Or.inl ha)
      · exact hacc (Or.inr ho)
    rw [if_neg this]

theorem getProjectAdminsAndOperators_of_items (u : Char → Char) (ord : List Str → List Str)
    (hord : ∀ l, (ord l).Perm l) (env : OseEnv) (clusterId project : Str) (status status2 : Nat)
    (items : List RoleBinding) (members : List Str)
    (hrb : env.roleBindings clusterId project = .ok ⟨status, some items⟩)
    (h404 : status ≠ 404) (h403 : status ≠ 403)
    (hop : listsOperatorGroup u items = true →
      env.operatorGroup clusterId = .ok ⟨status2, some members⟩) :
    getProjectAdminsAndOperators u ord env clusterId project =
      .ok (RemoveDuplicates ord ((RemoveDuplicates ord (adminUserNames u items)).map (toLower u)),
        if listsOperatorGroup u items = true then members.map (toLower u) else []) := by
  unfold getProjectAdminsAndOperators
  rw [getAdminRoleBinding_of_items u ord env clusterId project status items hrb h404 h403]
  simp only [hasOperatorGroup_eq u ord hord items]
  by_cases hl : listsOperatorGroup u items = true
  · simp only [hl, if_true, getOperatorGroup, hop hl]
  · simp only [hl, if_false, Bool.false_eq_true]

/-- C14: with the role bindings of the project at hand (and the members of the operator
group, when an admin role binding lists that group), `checkAdminPermissions` returns
`nil` iff the lower-cased user name is the lower-cased name of a subject of an admin role
binding or, when an admin role binding lists the group `operator`, the lower-cased name
of a member of that group; the result is the same for user names that differ in letter
case only, and for role bindings whose subject names differ in letter case only. -/
theorem checkAdminPermissions_decision (u : Char → Char) (ord : List Str → List Str)
    (hord : ∀ l, (ord l).Perm l) (env : OseEnv) (clusterId username project : Str)
    (status status2 : Nat) (items : List RoleBinding) (members : List Str)
    (hrb : env.roleBindings clusterId project = .ok ⟨status, some items⟩)
    (h404 : status ≠ 404) (h403 : status ≠ 403)
    (hop : listsOperatorGroup u items = true →
      env.operatorGroup clusterId = .ok ⟨status2, some members⟩) :
    (checkAdminPermissions u ord env clusterId username project = none ↔
      (∃ s ∈ adminSubjects items, toLower u username = toLower u (toLower u s)) ∨
      (listsOperatorGroup u items = true ∧
        ∃ m ∈ members, toLower u username = toLower u m)) ∧
    (∀ username2, toLower u username2 = toLower u username →
      checkAdminPermissions u ord env clusterId username2 project =
        checkAdminPermissions u ord env clusterId username project) ∧
    (∀ (env2 : OseEnv) (items2 : List RoleBinding),
      env2.roleBindings clusterId project = .ok ⟨status, some items2⟩ →
      env2.operatorGroup = env.operatorGroup →
      items2.map (lowerSubjects u) = items.map (lowerSubjects u) →
      checkAdminPermissions u ord env2 clusterId username project =
        checkAdminPermissions u ord env clusterId username project) := by
  have hget := getProjectAdminsAndOperators_of_items u ord hord env clusterId project status
    status2 items members hrb h404 h403 hop
  refine ⟨?_, ?_, ?_⟩
  · rw [checkAdminPermissions_of_lists u ord env clusterId username project _ _ hget]
    have hite : ∀ (P : Prop) [Decidable P] (e : GoError),
        ((if P then (none : Option GoError) else some e) = none ↔ P) := by
      intro P _ e
      by_cases hP : P
      · simp [hP]
      · simp [hP]
    rw [hite, mem_resolved_admins u ord hord items]
    by_cases hl : listsOperatorGroup u items = true
    · simp only [hl, if_true, List.mem_map, true_and]
      constructor
      · rintro (h1 | ⟨m, hm, hm2⟩)
        · exact Or.inl h1
        · exact Or.inr ⟨m, hm, hm2.symm⟩
      · rintro (h1 | ⟨m, hm, hm2⟩)
        · exact Or.inl h1
        · exact Or.inr ⟨m, hm, hm2.symm⟩
    · simp only [hl, if_false, Bool.false_eq_true, List.not_mem_nil, or_false, false_and]
  · intro username2 h2
    rw [checkAdminPermissions_of_lists u ord env clusterId username project _ _ hget,
      checkAdminPermissions_of_lists u ord env clusterId username2 project _ _ hget, h2]
  · intro env2 items2 hrb2 hopeq hitems
    have hu : adminUserNames u items2 = adminUserNames u items := by
      rw [← adminUserNames_lowerSubjects, ← adminUserNames_lowerSubjects u items, hitems]
    have hg : adminGroupNames u items2 = adminGroupNames u items := by
      rw [← adminGroupNames_lowerSubjects, ← adminGroupNames_lowerSubjects u items, hitems]
    have hl : listsOperatorGroup u items2 = listsOperatorGroup u items := by
      rw [← hasOperatorGroup_eq u ord hord, ← hasOperatorGroup_eq u ord hord, hg]
    have hget2 := getProjectAdminsAndOperators_of_items u ord hord env2 clusterId project status
      status2 items2 members hrb2 h404 h403 (by rw [hl, hopeq]; exact hop)
    rw [checkAdminPermissions_of_lists u ord env clusterId username project _ _ hget,
      checkAdminPermissions_of_lists u ord env2 clusterId username project _ _ hget2, hu, hl]

/-- Witness for C14: `alice`, `ALICE` and `bob` are admin subjects and `Oscar` is a
member of the operator group; `BOB` and `oscar` are let through. -/
theorem checkAdminPermissions_decision_witness :
    checkAdminPermissions id id exampleOse [] "BOB".toList "p".toList = none ∧
    checkAdminPermissions id id exampleOse [] "oscar".toList "p".toList = none :=
  ⟨((checkAdminPermissions_decision id id (fun l => List.Perm.refl l) exampleOse []
      "BOB".toList "p".toList 200 200
      [ ⟨"admin".toList, ["alice".toList, "ALICE".toList, "bob".toList], ["operator".toList]⟩,
        ⟨"view".toList, ["carol".toList], []⟩ ]
      ["Oscar".toList] rfl (by decide) (by decide) (fun _ => rfl)).1).mpr
      (Or.inl ⟨"bob".toList, by decide, by decide⟩),
    ((checkAdminPermissions_decision id id (fun l => List.Perm.refl l) exampleOse []
      "oscar".toList "p".toList 200 200
      [ ⟨"admin".toList, ["alice".toList, "ALICE".toList, "bob".toList], ["operator".toList]⟩,
        ⟨"view".toList, ["carol".toList], []⟩ ]
      ["Oscar".toList] rfl (by decide) (by decide) (fun _ => rfl)).1).mpr
      (Or.inr ⟨by decide, "Oscar".toList, by decide, by decide⟩)⟩

theorem isInfix_join_of_mem (sep : Str) : ∀ (l : List Str) (a : Str), a ∈ l → a <:+: join sep l := by
  intro l
  induction l with
  | nil => intro a h; cases h
  | cons x rest ih =>
    intro a h
    cases rest with
    | nil =>
      simp only [List.mem_singleton] at h
      subst h
      exact List.infix_refl _
    | cons y rest2 =>
      rcases List.mem_cons.mp h with rfl | h
      · exact ⟨[], sep ++ join sep (y :: rest2), by simp [join]⟩
      · obtain ⟨p, q, hpq⟩ := ih a h
        exact ⟨x ++ sep ++ p, q, by simp [join, ← hpq]⟩

/-- What the message of C15 lists: when `checkAdminPermissions` denies access, its error
message names the project and lists, separated by commas, the resolved admin list, that
is the direct admins. -/
theorem checkAdminPermissions_denial_message (u : Char → Char) (ord : List Str → List Str)
    (env : OseEnv) (clusterId username project : Str) (admins operators : List Str) (e : GoError)
    (h : getProjectAdminsAndOperators u ord env clusterId project = .ok (admins, operators))
    (hd : checkAdminPermissions u ord env clusterId username project = some e) :
    e = .text ("You don't have admin permissions on the project: ".toList ++ project
      ++ ". The following users have admin permissions: ".toList ++ join ", ".toList admins) ∧
    ∃ msg, e = .text msg ∧ contains msg project = true ∧ ∀ a ∈ admins, contains msg a = true := by
  rw [checkAdminPermissions_of_lists u ord env clusterId username project _ _ h] at hd
  by_cases hacc : toLower u username ∈ admins ∨ toLower u username ∈ operators
  · rw [if_pos hacc] at hd; cases hd
  · rw [if_neg hacc] at hd
    have he : e = noAdminPermissionsError project admins := (Option.some.inj hd).symm
    subst he
    refine ⟨rfl, _, rfl, ?_, ?_⟩
    · rw [contains_iff_isInfix]
      exact ⟨"You don't have admin permissions on the project: ".toList,
        ". The following users have admin permissions: ".toList ++ join ", ".toList admins,
        by simp only [List.append_assoc]⟩
    · intro a ha
      rw [contains_iff_isInfix]
      obtain ⟨p, q, hpq⟩ := isInfix_join_of_mem ", ".toList admins a ha
      exact ⟨"You don't have admin permissions on the project: ".toList ++ project
        ++ ". The following users have admin permissions: ".toList ++ p, q,
        by simp only [List.append_assoc, ← hpq]⟩

/-- Example for `checkAdminPermissions_denial_message`: `carol` is denied and is told that
`alice` and `bob` are admins. -/
theorem checkAdminPermissions_denial_message_example :
    checkAdminPermissions id id exampleOse [] "carol".toList "p".toList =
      some (.text ("You don't have admin permissions on the project: ".toList ++ "p".toList
        ++ ". The following users have admin permissions: ".toList
        ++ join ", ".toList ["alice".toList, "bob".toList])) := by
  have h : checkAdminPermissions id id exampleOse [] "carol".toList "p".toList =
      some (noAdminPermissionsError "p".toList ["alice".toList, "bob".toList]) := by decide
  rw [h, (checkAdminPermissions_denial_message id id exampleOse [] "carol".toList "p".toList
    ["alice".toList, "bob".toList] ["oscar".toList] _ (by decide) h).1]

/-- C15 at its failing input: the admin binding of the project lists the group
`operator`, whose member is `Oscar`.  `oscar` is let through by `checkAdminPermissions`,
and the message that the denied `carol` gets lists `alice` and `bob` and does not list
him: the operators are kept in a list of their own, which the message does not join. -/
theorem checkAdminPermissions_message_omits_operators :
    getProjectAdminsAndOperators id id exampleOse [] "p".toList =
      .ok (["alice".toList, "bob".toList], ["oscar".toList]) ∧
    checkAdminPermissions id id exampleOse [] "oscar".toList "p".toList = none ∧
    checkAdminPermissions id id exampleOse [] "carol".toList "p".toList =
      some (.text "You don't have admin permissions on the project: p. The following users have admin permissions: alice, bob".toList) ∧
    contains "You don't have admin permissions on the project: p. The following users have admin permissions: alice, bob".toList
      "oscar".toList = false := by
  refine ⟨by decide, by decide, by decide, by decide⟩

/-! ## The directory-group check (C16, C18) -/

theorem containsStringI_iff (u : Char → Char) (e : Str) : ∀ l : List Str,
    ContainsStringI u l e = true ↔ ∃ a ∈ l, toLower u a = toLower u e := by
  intro l
  induction l with
  | nil => simp [ContainsStringI]
  | cons a rest ih =>
    unfold ContainsStringI
    by_cases h : toLower u a = toLower u e
    · simp [h]
    · rw [if_neg h, ih]
      simp only [List.mem_cons, exists_eq_or_imp, h, false_or]

/-- C16, as amended: a user for whom `getGroups` returns a list that contains
`DG_RBT_UOS_ADMINS` in any letter case is authorized by `validatePermissions` for every
list of servers, and by `ValidatePermissionsByHostname` for every non-empty server name
when the user name is not empty, whatever the servers and their metadata are; with an
empty server name or user name `ValidatePermissionsByHostname` returns the generic error
before it looks at the groups. -/
theorem admin_group_bypass (u : Char → Char) (env : OtcEnv) (username : Str)
    (groups : List Str) (hg : getGroups u env username = .ok groups)
    (hadm : ∃ g ∈ groups, toLower u g = toLower u adminGroup) :
    (∀ servers, validatePermissions u env servers username = .ok ()) ∧
    (∀ servername, servername ≠ [] → username ≠ [] →
      ValidatePermissionsByHostname u env servername username = .ok ()) ∧
    (∀ servername, servername = [] ∨ username = [] →
      ValidatePermissionsByHostname u env servername username =
        .error (.text genericOTCAPIError)) := by
  have hc : ContainsStringI u groups adminGroup = true := (containsStringI_iff u _ _).mpr hadm
  refine ⟨?_, ?_, ?_⟩
  · intro servers
    unfold validatePermissions
    rw [hg]
    simp only [hc, if_true]
  · intro servername hs hu
    unfold ValidatePermissionsByHostname
    have : ¬ (servername = [] ∨ username = []) := by
      rintro (h | h)
      · exact hs h
      · exact hu h
    rw [if_neg this, hg]
    simp only [hc, if_true]
  · intro servername h
    unfold ValidatePermissionsByHostname
    rw [if_pos h]

/-- Witness for C16: `admin1` is in `dg_rbt_uos_admins` and may act on the servers `s2`
and `s3`, which belong to another group and to no group, and on the server `db1`. -/
theorem admin_group_bypass_witness :
    validatePermissions id exampleOtc [⟨"s2".toList, [], []⟩, ⟨"s3".toList, [], []⟩]
      "admin1".toList = .ok () ∧
    ValidatePermissionsByHostname id exampleOtc "db1".toList "admin1".toList = .ok () :=
  ⟨(admin_group_bypass id exampleOtc "admin1".toList
      ["dg_rbt_uos_admins".toList, "DG_TEAM_A".toList] (by decide)
      ⟨"dg_rbt_uos_admins".toList, by decide, by decide⟩).1 _,
    (admin_group_bypass id exampleOtc "admin1".toList
      ["dg_rbt_uos_admins".toList, "DG_TEAM_A".toList] (by decide)
      ⟨"dg_rbt_uos_admins".toList, by decide, by decide⟩).2.1 "db1".toList (by decide)
      (by decide)⟩

/-- Counterexample to C16 as stated: `admin1` is in `dg_rbt_uos_admins`, and
`ValidatePermissionsByHostname` rejects the empty server name for that user before it
looks at the groups.  And a user whose directory groups contain `DG_RBT_UOS_ADMINS` is
not authorized for a server of another group when that group is on the blacklist. -/
theorem admin_group_bypass_counterexample :
    getGroups id exampleOtc "admin1".toList =
      .ok ["dg_rbt_uos_admins".toList, "DG_TEAM_A".toList] ∧
    ValidatePermissionsByHostname id exampleOtc [] "admin1".toList =
      .error (.text genericOTCAPIError) ∧
    GetUser blacklistedOtc "eve".toList = .ok ["DG_RBT_UOS_ADMINS".toList, "DG_TEAM_A".toList] ∧
    validatePermissions id blacklistedOtc [⟨"s2".toList, [], []⟩] "eve".toList =
      .error (.text genericOTCAPIError) := by
  refine ⟨by decide, by decide, by decide, by decide⟩

theorem uosGroupOfID_eq (fetched : List OtcServer) (id : Str) :
    uosGroupOfID fetched id =
      match fetched.find? (fun f => id = f.ID) with
      | some f => mapGet f.Metadata "uos_group".toList
      | none => [] := by
  induction fetched with
  | nil => rfl
  | cons s rest ih =>
    unfold uosGroupOfID
    by_cases h : id = s.ID
    · simp [h]
    · rw [if_neg h, ih]
      simp only [List.find?_cons, h, decide_False]

theorem checkServers_none_iff (u : Char → Char) (groups : List Str) (fetched : List OtcServer) :
    ∀ servers : List OtcServer,
      checkServers u groups fetched servers = none ↔
        ∀ s ∈ servers, uosGroupOfID fetched s.ID ≠ [] ∧
          ContainsStringI u groups (uosGroupOfID fetched s.ID) = true := by
  intro servers
  induction servers with
  | nil => simp [checkServers]
  | cons s rest ih =>
    unfold checkServers
    simp only
    by_cases hg : uosGroupOfID fetched s.ID = []
    · simp [hg]
    · by_cases hc : ContainsStringI u groups (uosGroupOfID fetched s.ID) = true
      · simp only [if_neg hg, hc, Bool.not_true, Bool.false_eq_true, if_false, ih, List.mem_cons,
          forall_eq_or_imp, ne_eq, hg, not_false_eq_true, and_self, true_and]
      · simp [hg, hc]

theorem validatePermissions_of_lookups (u : Char → Char) (env : OtcEnv)
    (servers : List OtcServer) (username : Str) (groups : List Str) (fetched : List OtcServer)
    (hg : getGroups u env username = .ok groups)
    (hnot : ¬ ∃ g ∈ groups, toLower u g = toLower u adminGroup)
    (hall : env.allServers username = .ok fetched) :
    validatePermissions u env servers username = .ok () ↔
      checkServers u groups fetched servers = none := by
  have hc : ¬ ContainsStringI u groups adminGroup = true := by
    rw [containsStringI_iff]; exact hnot
  unfold validatePermissions
  rw [hg]
  simp only [hc, if_false, hall]
  cases hcs : checkServers u groups fetched servers with
  | none => simp
  | some e => simp

/-- C18, as amended: for a user outside the bypass group, with the groups that
`getGroups` returns for the user (the directory groups that are not on the blacklist) and
the server list of OTC at hand, `validatePermissions` returns `nil` iff for every
requested server the first server of the list with that id has a non-empty `uos_group`
that equals, ignoring letter case, one of these groups; when the ids of the server list
are distinct, that is iff every requested server id is found in the list with such a
`uos_group`. -/
theorem validatePermissions_iff (u : Char → Char) (env : OtcEnv) (servers : List OtcServer)
    (username : Str) (groups : List Str) (fetched : List OtcServer)
    (hg : getGroups u env username = .ok groups)
    (hnot : ¬ ∃ g ∈ groups, toLower u g = toLower u adminGroup)
    (hall : env.allServers username = .ok fetched) :
    (validatePermissions u env servers username = .ok () ↔
      ∀ s ∈ servers, ∃ f, fetched.find? (fun f => s.ID = f.ID) = some f ∧
        mapGet f.Metadata "uos_group".toList ≠ [] ∧
        ∃ g ∈ groups, toLower u g = toLower u (mapGet f.Metadata "uos_group".toList)) ∧
    ((fetched.map OtcServer.ID).Nodup →
      (validatePermissions u env servers username = .ok () ↔
        ∀ s ∈ servers, ∃ f ∈ fetched, f.ID = s.ID ∧
          mapGet f.Metadata "uos_group".toList ≠ [] ∧
          ∃ g ∈ groups, toLower u g = toLower u (mapGet f.Metadata "uos_group".toList))) := by
  have hfirst : validatePermissions u env servers username = .ok () ↔
      ∀ s ∈ servers, ∃ f, fetched.find? (fun f => s.ID = f.ID) = some f ∧
        mapGet f.Metadata "uos_group".toList ≠ [] ∧
        ∃ g ∈ groups, toLower u g = toLower u (mapGet f.Metadata "uos_group".toList) := by
    rw [validatePermissions_of_lookups u env servers username groups fetched hg hnot hall,
      checkServers_none_iff]
    constructor
    · intro h s hs
      obtain ⟨h1, h2⟩ := h s hs
      rw [uosGroupOfID_eq] at h1 h2
      cases hf : fetched.find? (fun f => s.ID = f.ID) with
      | none => rw [hf] at h1; exact absurd rfl h1
      | some f =>
        rw [hf] at h1 h2
        exact ⟨f, rfl, h1, (containsStringI_iff u _ _).mp h2⟩
    · intro h s hs
      obtain ⟨f, hf, h1, h2⟩ := h s hs
      rw [uosGroupOfID_eq, hf]
      exact ⟨h1, (containsStringI_iff u _ _).mpr h2⟩
  refine ⟨hfirst, ?_⟩
  intro hnodup
  rw [hfirst]
  constructor
  · intro h s hs
    obtain ⟨f, hf, h1, h2⟩ := h s hs
    have hmem := List.mem_of_find?_eq_some hf
    have hid := List.find?_some hf
    simp only [decide_eq_true_eq] at hid
    exact ⟨f, hmem, hid.symm, h1, h2⟩
  · intro h s hs
    obtain ⟨f, hmem, hid, h1, h2⟩ := h s hs
    cases hf : fetched.find? (fun f => s.ID = f.ID) with
    | none =>
      have := List.find?_eq_none.mp hf f hmem
      simp only [decide_eq_true_eq] at this
      exact absurd hid.symm this
    | some f2 =>
      have hmem2 := List.mem_of_find?_eq_some hf
      have hid2 := List.find?_some hf
      simp only [decide_eq_true_eq] at hid2
      have heq : f2 = f :=
        List.inj_on_of_nodup_map hnodup hmem2 hmem (by rw [← hid2, hid])
      subst heq
      exact ⟨f2, rfl, h1, h2⟩

/-- Witness for C18: `bob` is in `DG_TEAM_A`; the server `s1` belongs to `dg_team_a`, the
server `s2` to `DG_TEAM_B`. -/
theorem validatePermissions_iff_witness :
    validatePermissions id exampleOtc [⟨"s1".toList, [], []⟩] "bob".toList = .ok () ∧
    validatePermissions id exampleOtc [⟨"s1".toList, [], []⟩, ⟨"s2".toList, [], []⟩]
      "bob".toList ≠ .ok () := by
  have hnot : ¬ ∃ g ∈ ["DG_TEAM_A".toList], toLower id g = toLower id adminGroup := by
    rintro ⟨g, hg, h⟩
    simp only [List.mem_singleton] at hg
    subst hg
    revert h
    decide
  have hfetched : exampleOtc.allServers "bob".toList =
      .ok [ ⟨"s1".toList, "web1".toList, [("uos_group".toList, "dg_team_a".toList)]⟩,
            ⟨"s2".toList, "db1".toList, [("uos_group".toList, "DG_TEAM_B".toList)]⟩,
            ⟨"s3".toList, "tmp1".toList, []⟩ ] := rfl
  refine ⟨((validatePermissions_iff id exampleOtc [⟨"s1".toList, [], []⟩] "bob".toList
      ["DG_TEAM_A".toList] _ (by decide) hnot hfetched).1).mpr ?_, ?_⟩
  · intro s hs
    simp only [List.mem_singleton] at hs
    subst hs
    exact ⟨⟨"s1".toList, "web1".toList, [("uos_group".toList, "dg_team_a".toList)]⟩,
      by decide, by decide, "DG_TEAM_A".toList, by decide, by decide⟩
  · decide

/-- The groups that `GetGroupsOfUser` keeps: the common names of the `memberOf` values
that are not on the blacklist, compared without regard to letter case. -/
theorem mem_groupsOfMemberOf (u : Char → Char) (env : OtcEnv) (g : Str) :
    ∀ memberOf : List Str, g ∈ groupsOfMemberOf u env memberOf ↔
      ∃ dn ∈ memberOf, env.cnOfDN dn = g ∧ ContainsStringI u env.groupBlacklist g = false := by
  intro memberOf
  induction memberOf with
  | nil => simp [groupsOfMemberOf]
  | cons dn rest ih =>
    unfold groupsOfMemberOf
    by_cases hb : ContainsStringI u env.groupBlacklist (env.cnOfDN dn) = true
    · rw [if_pos hb, ih]
      constructor
      · rintro ⟨d, hd, h1, h2⟩
        exact ⟨d, List.mem_cons_of_mem _ hd, h1, h2⟩
      · rintro ⟨d, hd, h1, h2⟩
        rcases List.mem_cons.mp hd with rfl | hd
        · rw [h1] at hb
          rw [hb] at h2
          cases h2
        · exact ⟨d, hd, h1, h2⟩
    · rw [if_neg hb, List.mem_cons, ih]
      have hb2 : ContainsStringI u env.groupBlacklist (env.cnOfDN dn) = false := by
        simpa using hb
      constructor
      · rintro (h | ⟨d, hd, h1, h2⟩)
        · exact ⟨dn, List.mem_cons_self _ _, h.symm, by rw [h]; exact hb2⟩
        · exact ⟨d, List.mem_cons_of_mem _ hd, h1, h2⟩
      · rintro ⟨d, hd, h1, h2⟩
        rcases List.mem_cons.mp hd with rfl | hd
        · exact Or.inl h1.symm
        · exact Or.inr ⟨d, hd, h1, h2⟩

/-- The result of `getGroups` for a user with one entry in the directory. -/
theorem getGroups_of_entry (u : Char → Char) (env : OtcEnv) (username : Str)
    (memberOf : List Str) (hnew : env.ldapNew = none)
    (hsearch : env.ldapSearch username = .ok [memberOf]) :
    getGroups u env username = .ok (groupsOfMemberOf u env memberOf) := by
  simp [getGroups, GetGroupsOfUser, GetUser, hnew, hsearch]

/-- Counterexample to C18 as stated: the group `DG_TEAM_B` is on the blacklist.  The user
`eve` is in the directory groups `DG_TEAM_A` and `DG_TEAM_B` and outside the bypass group;
the server `s2` is found in the server list with the `uos_group` `DG_TEAM_B`, one of her
directory groups, and `validatePermissions` refuses her request for it.  Her request for
`s1` of `DG_TEAM_A` is granted. -/
theorem validatePermissions_blacklist_counterexample :
    teamBlacklistedOtc.ldapSearch "eve".toList =
      .ok [["DG_TEAM_A".toList, "DG_TEAM_B".toList]] ∧
    getGroups id teamBlacklistedOtc "eve".toList = .ok ["DG_TEAM_A".toList] ∧
    uosGroupOfID [ ⟨"s1".toList, "web1".toList, [("uos_group".toList, "DG_TEAM_A".toList)]⟩,
        ⟨"s2".toList, "db1".toList, [("uos_group".toList, "DG_TEAM_B".toList)]⟩ ] "s2".toList =
      "DG_TEAM_B".toList ∧
    validatePermissions id teamBlacklistedOtc [⟨"s2".toList, [], []⟩] "eve".toList =
      .error (.text genericOTCAPIError) ∧
    validatePermissions id teamBlacklistedOtc [⟨"s1".toList, [], []⟩] "eve".toList = .ok () := by
  refine ⟨by decide, by decide, by decide, by decide, by decide⟩

/-! ## Failing lookups (C17) -/

/-- The lookups of C17 whose failure is handled: a failing role-binding lookup, a failing
lookup of the operator group (when it is needed), a failing `ldap.New`, a failing
directory search and a failing server lookup make the check return an error. -/
theorem lookup_failures_return_errors (u : Char → Char) (ord : List Str → List Str)
    (hord : ∀ l, (ord l).Perm l) :
    (∀ (env : OseEnv) (clusterId username project : Str) (e : GoError),
      env.roleBindings clusterId project = .error e →
      checkAdminPermissions u ord env clusterId username project = some e) ∧
    (∀ (env : OseEnv) (clusterId username project : Str) (status : Nat)
      (items : List RoleBinding) (e : GoError),
      env.roleBindings clusterId project = .ok ⟨status, some items⟩ →
      status ≠ 404 → status ≠ 403 → listsOperatorGroup u items = true →
      env.operatorGroup clusterId = .error e →
      checkAdminPermissions u ord env clusterId username project = some e) ∧
    (∀ (env : OtcEnv) (servers : List OtcServer) (username e : Str),
      (env.ldapNew = some e ∨ (env.ldapNew = none ∧ env.ldapSearch username = .error e)) →
      validatePermissions u env servers username = .error (.text genericOTCAPIError)) ∧
    (∀ (env : OtcEnv) (servers : List OtcServer) (username : Str) (groups : List Str)
      (e : GoError),
      getGroups u env username = .ok groups →
      (¬ ∃ g ∈ groups, toLower u g = toLower u adminGroup) →
      env.allServers username = .error e →
      validatePermissions u env servers username = .error e) := by
  refine ⟨?_, ?_, ?_, ?_⟩
  · intro env clusterId username project e h
    simp only [checkAdminPermissions, getProjectAdminsAndOperators, getAdminRoleBinding, h]
  · intro env clusterId username project status items e hrb h404 h403 hl hop
    simp only [checkAdminPermissions, getProjectAdminsAndOperators,
      getAdminRoleBinding_of_items u ord env clusterId project status items hrb h404 h403,
      hasOperatorGroup_eq u ord hord items, hl, if_true, getOperatorGroup, hop]
  · intro env servers username e h
    rcases h with h | ⟨h1, h2⟩
    · simp only [validatePermissions, getGroups, h]
    · simp only [validatePermissions, getGroups, h1, GetGroupsOfUser, GetUser, h2]
  · intro env servers username groups e hg hnot hall
    have hc : ¬ ContainsStringI u groups adminGroup = true := by
      rw [containsStringI_iff]; exact hnot
    simp only [validatePermissions, hg, hc, if_false, hall, Bool.false_eq_true]

/-- C17: when listing the buckets of the caller fails (`ListBuckets` returns an error),
`listS3BucketByUsername` returns that failure and `validateNewS3User`, which discards it
and reads the buckets of the nil result, panics instead of returning an error. -/
theorem validateNewS3User_listing_failure_panics :
    listS3BucketByUsername id (exampleAws true) "alice".toList = .error (.text s3ListError) ∧
    validateNewS3User id (exampleAws true) "alice".toList "b1".toList "rw".toList "dev".toList
      = .panic ∧
    validateNewS3User id (exampleAws false) "alice".toList "b1".toList "rw".toList "dev".toList
      = .ok () := by
  refine ⟨by decide, by decide, by decide⟩

/-- Example for C17: when the directory has no entry for the user, `GetUser` reads
`sr.Entries[0]` of an empty list, and `validatePermissions` panics. -/
theorem validatePermissions_unknown_user_panics :
    validatePermissions id emptyDirectoryOtc [⟨"s1".toList, [], []⟩] "ghost".toList = .panic ∧
    ValidatePermissionsByHostname id emptyDirectoryOtc "web1".toList "ghost".toList = .panic := by
  refine ⟨by decide, by decide⟩

/-! ## The buckets of a user (C19) -/

theorem bucketsOfTags_of_no_creator (u : Char → Char) (username account name : Str) :
    ∀ tagSet : List Tag, (∀ tag ∈ tagSet, tag.Key ≠ "Creator".toList) →
      bucketsOfTags u username account name tagSet = [] := by
  intro tagSet
  induction tagSet with
  | nil => intro _; rfl
  | cons tag rest ih =>
    intro h
    have hk : tag.Key ≠ "Creator".toList := h tag (List.mem_cons_self _ _)
    unfold bucketsOfTags
    rw [if_neg (fun hc => hk hc.1)]
    exact ih (fun t ht => h t (List.mem_cons_of_mem _ ht))

theorem bucketsOfTags_of_distinct_keys (u : Char → Char) (username account name : Str) :
    ∀ tagSet : List Tag, (tagSet.map Tag.Key).Nodup →
      bucketsOfTags u username account name tagSet =
        if tagSet.any (fun tag =>
            tag.Key = "Creator".toList ∧ toLower u tag.Value = toLower u username) = true
        then [⟨name, account⟩] else [] := by
  intro tagSet
  induction tagSet with
  | nil => intro _; rfl
  | cons tag rest ih =>
    intro hnodup
    rw [List.map_cons, List.nodup_cons] at hnodup
    unfold bucketsOfTags
    by_cases hm : tag.Key = "Creator".toList ∧ toLower u tag.Value = toLower u username
    · rw [if_pos hm]
      have hrest : bucketsOfTags u username account name rest = [] := by
        apply bucketsOfTags_of_no_creator
        intro t ht hk
        apply hnodup.1
        rw [hm.1, ← hk]
        exact List.mem_map_of_mem _ ht
      rw [hrest]
      have hany : (tag :: rest).any (fun tag =>
          tag.Key = "Creator".toList ∧ toLower u tag.Value = toLower u username) = true := by
        rw [List.any_cons, decide_eq_true hm, Bool.true_or]
      rw [if_pos hany]
    · rw [if_neg hm, ih hnodup.2]
      have hany : (tag :: rest).any (fun tag =>
          tag.Key = "Creator".toList ∧ toLower u tag.Value = toLower u username) =
          rest.any (fun tag =>
            tag.Key = "Creator".toList ∧ toLower u tag.Value = toLower u username) := by
        rw [List.any_cons, decide_eq_false hm, Bool.false_or]
      rw [hany]

theorem bucketsOfListing_eq_filter (u : Char → Char) (env : AwsEnv)
    (stage username account : Str) : ∀ names : List Str,
    (∀ name ∈ names, ∀ tagSet, env.getBucketTagging stage name = .ok tagSet →
      (tagSet.map Tag.Key).Nodup) →
    bucketsOfListing u env stage username account names =
      (names.filter (createdBy u env stage username)).map (fun name => ⟨name, account⟩) := by
  intro names
  induction names with
  | nil => intro _; rfl
  | cons name rest ih =>
    intro huniq
    have hrest := ih (fun n hn => huniq n (List.mem_cons_of_mem _ hn))
    unfold bucketsOfListing
    cases ht : env.getBucketTagging stage name with
    | error e =>
      have hc : createdBy u env stage username name = false := by
        simp only [createdBy, ht]
      simp only [hrest, List.filter_cons, hc, Bool.false_eq_true, if_false]
    | ok tagSet =>
      simp only
      rw [bucketsOfTags_of_distinct_keys u username account name tagSet
        (huniq name (List.mem_cons_self _ _) tagSet ht), hrest]
      by_cases hany : tagSet.any (fun tag =>
          tag.Key = "Creator".toList ∧ toLower u tag.Value = toLower u username) = true
      · have hc : createdBy u env stage username name = true := by
          simp only [createdBy, ht, hany]
        simp only [hany, if_true, List.filter_cons, hc, List.map_cons, List.singleton_append]
      · have hc : createdBy u env stage username name = false := by
          simp only [createdBy, ht]
          simpa using hany
        simp only [hany, if_false, List.filter_cons, hc, Bool.false_eq_true, List.nil_append]

theorem bucketsOfTags_eq_replicate (u : Char → Char) (username account name : Str) :
    ∀ tagSet : List Tag,
      bucketsOfTags u username account name tagSet =
        List.replicate (tagSet.countP (fun tag =>
          tag.Key = "Creator".toList ∧ toLower u tag.Value = toLower u username))
          ⟨name, account⟩ := by
  intro tagSet
  induction tagSet with
  | nil => rfl
  | cons tag rest ih =>
    unfold bucketsOfTags
    by_cases hm : tag.Key = "Creator".toList ∧ toLower u tag.Value = toLower u username
    · rw [if_pos hm, ih, List.countP_cons]
      simp only [decide_eq_true hm, if_true, List.replicate_succ]
    · rw [if_neg hm, ih, List.countP_cons]
      simp only [decide_eq_false hm, Bool.false_eq_true, if_false, Nat.add_zero]

theorem bucketsOfListing_eq_flatMap (u : Char → Char) (env : AwsEnv)
    (stage username account : Str) : ∀ names : List Str,
    bucketsOfListing u env stage username account names =
      names.flatMap (fun name =>
        List.replicate (creatorTags u env stage username name) ⟨name, account⟩) := by
  intro names
  induction names with
  | nil => rfl
  | cons name rest ih =>
    unfold bucketsOfListing
    rw [List.flatMap_cons, ← ih]
    cases ht : env.getBucketTagging stage name with
    | error e => simp only [creatorTags, ht, List.replicate_zero, List.nil_append]
    | ok tagSet => simp only [creatorTags, ht, bucketsOfTags_eq_replicate]

theorem creatorTags_pos_iff (u : Char → Char) (env : AwsEnv) (stage username name : Str) :
    0 < creatorTags u env stage username name ↔ createdBy u env stage username name = true := by
  unfold creatorTags createdBy
  cases env.getBucketTagging stage name with
  | error e => simp
  | ok tagSet => simp only [List.countP_pos_iff, List.any_eq_true]

/-- C19: when the S3 client is there and the buckets can be listed,
`listS3BucketByUsernameForAccount` returns, in listing order and each labelled with the
account, the buckets whose tags can be read and hold a tag `Creator` whose value equals
the user name ignoring letter case, each as often as it has such a tag, and no other
bucket; a bucket whose tags cannot be read is skipped.  With the keys of the tags of a
bucket distinct, as S3 has them, these are exactly those buckets, once each. -/
theorem listS3BucketByUsernameForAccount_eq (u : Char → Char) (env : AwsEnv)
    (username account : Str) (names : List Str)
    (hclient : env.s3Client (stageOfAccount account) = none)
    (hlist : env.listBuckets (stageOfAccount account) = .ok names) :
    (listS3BucketByUsernameForAccount u env username account =
      .ok (names.flatMap (fun name =>
        List.replicate (creatorTags u env (stageOfAccount account) username name)
          ⟨name, account⟩)) ∧
      ∀ name, (0 < creatorTags u env (stageOfAccount account) username name ↔
        createdBy u env (stageOfAccount account) username name = true)) ∧
    ((∀ name ∈ names, ∀ tagSet,
        env.getBucketTagging (stageOfAccount account) name = .ok tagSet →
        (tagSet.map Tag.Key).Nodup) →
      listS3BucketByUsernameForAccount u env username account =
        .ok ((names.filter (createdBy u env (stageOfAccount account) username)).map
          (fun name => ⟨name, account⟩))) := by
  refine ⟨⟨?_, fun name => creatorTags_pos_iff u env _ username name⟩, ?_⟩
  · unfold listS3BucketByUsernameForAccount
    rw [hclient, hlist]
    simp only
    rw [bucketsOfListing_eq_flatMap]
  · intro huniq
    unfold listS3BucketByUsernameForAccount
    rw [hclient, hlist]
    simp only
    rw [bucketsOfListing_eq_filter u env _ username account names huniq]

/-- Witness for C19: of the buckets `b1` (created by `Alice`), `b2` (created by `bob`)
and `b3` (tags not readable), the user `alice` gets `b1`. -/
theorem listS3BucketByUsernameForAccount_eq_witness :
    listS3BucketByUsernameForAccount id (exampleAws false) "alice".toList accountNonProd =
      .ok [⟨"b1".toList, accountNonProd⟩] := by
  have h := (listS3BucketByUsernameForAccount_eq id (exampleAws false) "alice".toList
    accountNonProd ["b1".toList, "b2".toList, "b3".toList] rfl rfl).2 (by
      intro name hname tagSet ht
      simp only [List.mem_cons, List.mem_singleton, List.not_mem_nil, or_false] at hname
      rcases hname with rfl | rfl | rfl
      · have : (exampleAws false).getBucketTagging (stageOfAccount accountNonProd) "b1".toList =
            .ok [⟨"Stage".toList, "dev".toList⟩, ⟨"Creator".toList, "Alice".toList⟩] := by decide
        rw [this] at ht
        cases ht
        decide
      · have : (exampleAws false).getBucketTagging (stageOfAccount accountNonProd) "b2".toList =
            .ok [⟨"Creator".toList, "bob".toList⟩] := by decide
        rw [this] at ht
        cases ht
        decide
      · have : (exampleAws false).getBucketTagging (stageOfAccount accountNonProd) "b3".toList =
            .error "NoSuchTagSet".toList := by decide
        rw [this] at ht
        cases ht)
  rw [h]
  decide

/-! ## The project filter (C20) -/

theorem filterMap_clusterid : filterMap "clusterid".toList = none := by decide

theorem filterMap_injective {n1 n2 a : Str} (h1 : filterMap n1 = some a)
    (h2 : filterMap n2 = some a) : n1 = n2 := by
  unfold filterMap at h1 h2
  by_cases h1a : n1 = "sbb_accounting_number".toList
  · by_cases h2a : n2 = "sbb_accounting_number".toList
    · rw [h1a, h2a]
    · rw [if_pos h1a] at h1
      rw [if_neg h2a] at h2
      by_cases h2b : n2 = "sbb_mega_id".toList
      · rw [if_pos h2b] at h2
        rw [← Option.some.inj h1] at h2
        exact absurd h2 (by decide)
      · rw [if_neg h2b] at h2; cases h2
  · rw [if_neg h1a] at h1
    by_cases h1b : n1 = "sbb_mega_id".toList
    · rw [if_pos h1b] at h1
      by_cases h2a : n2 = "sbb_accounting_number".toList
      · rw [if_pos h2a] at h2
        rw [← Option.some.inj h1] at h2
        exact absurd h2 (by decide)
      · rw [if_neg h2a] at h2
        by_cases h2b : n2 = "sbb_mega_id".toList
        · rw [h1b, h2b]
        · rw [if_neg h2b] at h2; cases h2
    · rw [if_neg h1b] at h1; cases h1

theorem buildFilters_eq : ∀ (params : List (Str × List Str)) (acc : List (Str × Str)),
    (∀ param ∈ params, filterMap param.1 ≠ none → param.2 ≠ []) →
    buildFilters params acc =
      .ok ((params.filterMap filterOfParam).foldl (fun m kv => mapSet m kv.1 kv.2) acc) := by
  intro params
  induction params with
  | nil => intro acc _; rfl
  | cons param rest ih =>
    intro acc hvals
    obtain ⟨name, values⟩ := param
    have hrest := fun acc2 => ih acc2 (fun p hp => hvals p (List.mem_cons_of_mem _ hp))
    unfold buildFilters
    by_cases hc : name = "clusterid".toList
    · have hf : filterOfParam (name, values) = none := by
        simp only [filterOfParam, hc, filterMap_clusterid]
      rw [if_pos hc, hrest, List.filterMap_cons, hf]
    · rw [if_neg hc]
      cases hm : filterMap name with
      | none =>
        have hf : filterOfParam (name, values) = none := by
          simp only [filterOfParam, hm]
        simp only
        rw [hrest, List.filterMap_cons, hf]
      | some a =>
        have hne : values ≠ [] :=
          hvals (name, values) (List.mem_cons_self _ _) (by simp only [hm]; simp)
        cases values with
        | nil => exact absurd rfl hne
        | cons first more =>
          have hf : filterOfParam (name, first :: more) = some (a, first) := by
            simp only [filterOfParam, hm]
          simp only
          rw [hrest, List.filterMap_cons, hf, List.foldl_cons]

theorem mapSet_of_not_mem : ∀ (l : List (Str × Str)) (k v : Str), k ∉ l.map Prod.fst →
    mapSet l k v = l ++ [(k, v)] := by
  intro l
  induction l with
  | nil => intro k v _; rfl
  | cons kv rest ih =>
    intro k v h
    obtain ⟨k1, v1⟩ := kv
    simp only [List.map_cons, List.mem_cons, not_or] at h
    unfold mapSet
    rw [if_neg (fun e => h.1 e.symm), ih k v h.2]
    rfl

theorem foldl_mapSet_of_nodup : ∀ (pairs acc : List (Str × Str)),
    ((acc ++ pairs).map Prod.fst).Nodup →
    pairs.foldl (fun m kv => mapSet m kv.1 kv.2) acc = acc ++ pairs := by
  intro pairs
  induction pairs with
  | nil => intro acc _; simp
  | cons kv rest ih =>
    intro acc h
    have hk : kv.1 ∉ acc.map Prod.fst := by
      intro hmem
      rw [List.map_append, List.map_cons] at h
      have := (List.nodup_append.mp h).2.2
      exact this hmem (List.mem_cons_self _ _)
    rw [List.foldl_cons, mapSet_of_not_mem acc kv.1 kv.2 hk]
    have h2 : ((acc ++ [(kv.1, kv.2)] ++ rest).map Prod.fst).Nodup := by
      simpa using h
    rw [ih _ h2]
    simp

theorem mem_keys_filterOfParam (params : List (Str × List Str)) (a : Str)
    (h : a ∈ (params.filterMap filterOfParam).map Prod.fst) :
    ∃ n ∈ params.map Prod.fst, filterMap n = some a := by
  rw [List.mem_map] at h
  obtain ⟨⟨a1, v⟩, hmem, rfl⟩ := h
  rw [List.mem_filterMap] at hmem
  obtain ⟨⟨name, values⟩, hp, hf⟩ := hmem
  refine ⟨name, List.mem_map_of_mem Prod.fst hp, ?_⟩
  unfold filterOfParam at hf
  cases hm : filterMap name with
  | none => simp only [hm] at hf; cases hf
  | some a2 =>
    cases values with
    | nil => simp only [hm] at hf; cases hf
    | cons first more =>
      simp only [hm, Option.some.injEq, Prod.mk.injEq] at hf
      rw [hf.1]

theorem nodup_keys_filterOfParam : ∀ params : List (Str × List Str),
    (params.map Prod.fst).Nodup → ((params.filterMap filterOfParam).map Prod.fst).Nodup := by
  intro params
  induction params with
  | nil => intro _; exact List.nodup_nil
  | cons param rest ih =>
    intro h
    rw [List.map_cons, List.nodup_cons] at h
    rw [List.filterMap_cons]
    cases hf : filterOfParam param with
    | none => exact ih h.2
    | some kv =>
      simp only
      rw [List.map_cons, List.nodup_cons]
      refine ⟨?_, ih h.2⟩
      intro hmem
      obtain ⟨n, hn, hfn⟩ := mem_keys_filterOfParam rest kv.1 hmem
      have hp : filterMap param.1 = some kv.1 := by
        unfold filterOfParam at hf
        cases hm : filterMap param.1 with
        | none => simp only [hm] at hf; cases hf
        | some a2 =>
          cases hv : param.2 with
          | nil => simp only [hm, hv] at hf; cases hf
          | cons first more =>
            simp only [hm, hv, Option.some.injEq] at hf
            rw [← hf]
      rw [filterMap_injective hp hfn] at h
      exact h.1 hn

theorem projectMatches_eq_all (project : Project) : ∀ filters : List (Str × Str),
    projectMatches project filters =
      filters.all (fun kv => annotationOf project kv.1 = kv.2) := by
  intro filters
  induction filters with
  | nil => rfl
  | cons kv rest ih =>
    obtain ⟨a, v⟩ := kv
    unfold projectMatches
    by_cases h : annotationOf project a = v
    · rw [if_neg (not_not.mpr h), ih, List.all_cons, decide_eq_true h, Bool.true_and]
    · rw [if_pos h, List.all_cons, decide_eq_false h, Bool.false_and]

theorem all_filterOfParam (project : Project) : ∀ params : List (Str × List Str),
    (params.filterMap filterOfParam).all (fun kv => annotationOf project kv.1 = kv.2) =
      wantedBy params project := by
  intro params
  induction params with
  | nil => rfl
  | cons param rest ih =>
    unfold wantedBy at ih ⊢
    rw [List.filterMap_cons, List.all_cons]
    cases hf : filterOfParam param with
    | none => simp only [ih, Bool.true_and]
    | some kv => simp only [List.all_cons, ih]

/-- C20: `filterProjects` returns, in their original order, exactly the projects whose
annotation equals, for every recognised filter, the first value of the parameter (a
missing annotation counting as the empty string); `clusterid` and unknown parameter names
are ignored.  The parameters are a map (distinct names) in which every recognised
parameter has a value, as `url.Values` of a request has them; the result is the same for
every order in which the maps are visited. -/
theorem filterProjects_eq (ord : List (Str × Str) → List (Str × Str))
    (hord : ∀ l, (ord l).Perm l) (projects : List Project) (params : List (Str × List Str))
    (hkeys : (params.map Prod.fst).Nodup)
    (hvals : ∀ param ∈ params, filterMap param.1 ≠ none → param.2 ≠ []) :
    filterProjects ord projects params = .ok (projects.filter (wantedBy params)) := by
  unfold filterProjects
  rw [buildFilters_eq params [] hvals,
    foldl_mapSet_of_nodup _ [] (by simpa using nodup_keys_filterOfParam params hkeys)]
  simp only [List.nil_append]
  congr 1
  apply List.filter_congr
  intro project _
  rw [projectMatches_eq_all, ← all_filterOfParam]
  rw [Bool.eq_iff_iff]
  simp only [List.all_eq_true]
  constructor
  · intro h x hx; exact h x ((hord _).mem_iff.mpr hx)
  · intro h x hx; exact h x ((hord _).mem_iff.mp hx)

/-- Witness for C20: the third search of `TestProjectFilter` (accounting number `8888`,
empty mega id), with the parameter `clusterid`, an unknown parameter and a repeated
value; the projects 3 and 4 are returned. -/
theorem filterProjects_eq_witness :
    filterProjects id testProjects
      [ ("clusterid".toList, ["c1".toList]),
        ("sbb_accounting_number".toList, ["8888".toList, "5678".toList]),
        ("foo".toList, ["bar".toList]),
        ("sbb_mega_id".toList, [[]]) ] =
      .ok (testProjects.filter (wantedBy
        [ ("clusterid".toList, ["c1".toList]),
          ("sbb_accounting_number".toList, ["8888".toList, "5678".toList]),
          ("foo".toList, ["bar".toList]),
          ("sbb_mega_id".toList, [[]]) ])) ∧
    (testProjects.filter (wantedBy
        [ ("clusterid".toList, ["c1".toList]),
          ("sbb_accounting_number".toList, ["8888".toList, "5678".toList]),
          ("foo".toList, ["bar".toList]),
          ("sbb_mega_id".toList, [[]]) ])).map Project.name = ["p3".toList, "p4".toList] :=
  ⟨filterProjects_eq id (fun l => List.Perm.refl l) testProjects _ (by decide) (by decide),
    by decide⟩

/-! ## Validation of a project request (C21) -/

/-- C21: `validateProjectPermissions` returns the error `Cluster must be provided` for an
empty cluster id, whatever the project is; for a cluster id that is not empty and an
empty project it returns `Project name must be provided`; with both present and a
functional account configured, the user name of that account gets `nil`, whatever the
OpenShift API would answer.  Every other user gets the answer of
`checkAdminPermissions`. -/
theorem validateProjectPermissions_spec (u : Char → Char) (ord : List Str → List Str)
    (env : OseEnv) (functionalAccount clusterId username project : Str)
    (hc : clusterId ≠ []) (hp : project ≠ []) :
    (∀ anyProject, validateProjectPermissions u ord env functionalAccount [] username anyProject =
      some (.text "Cluster must be provided".toList)) ∧
    validateProjectPermissions u ord env functionalAccount clusterId username [] =
      some (.text "Project name must be provided".toList) ∧
    (functionalAccount ≠ [] →
      ∀ anyEnv, validateProjectPermissions u ord anyEnv functionalAccount clusterId
        functionalAccount project = none) ∧
    (functionalAccount = [] ∨ username ≠ functionalAccount →
      validateProjectPermissions u ord env functionalAccount clusterId username project =
        checkAdminPermissions u ord env clusterId username project) := by
  refine ⟨?_, ?_, ?_, ?_⟩
  · intro anyProject
    simp [validateProjectPermissions]
  · simp [validateProjectPermissions, hc]
  · intro hf anyEnv
    simp [validateProjectPermissions, hc, hp, hf]
  · intro h
    have hn : ¬ (functionalAccount ≠ [] ∧ username = functionalAccount) := by
      rintro ⟨h1, h2⟩
      rcases h with h | h
      · exact h1 h
      · exact h h2
    unfold validateProjectPermissions
    rw [if_neg hc, if_neg hp, if_neg hn]

/-- Witness for C21: the calls of the test `TestValidateProjectPermissions`; the
OpenShift API of the example does not list `faccount` as an admin. -/
theorem validateProjectPermissions_spec_witness :
    (∀ anyProject, validateProjectPermissions id id exampleOse "faccount".toList []
      "faccount".toList anyProject = some (.text "Cluster must be provided".toList)) ∧
    validateProjectPermissions id id exampleOse "faccount".toList "cluster".toList
      "faccount".toList [] = some (.text "Project name must be provided".toList) ∧
    (∀ anyEnv, validateProjectPermissions id id anyEnv "faccount".toList "cluster".toList
      "faccount".toList "project".toList = none) ∧
    checkAdminPermissions id id exampleOse "cluster".toList "faccount".toList
      "project".toList ≠ none :=
  ⟨(validateProjectPermissions_spec id id exampleOse "faccount".toList "cluster".toList
      "faccount".toList "project".toList (by decide) (by decide)).1,
   (validateProjectPermissions_spec id id exampleOse "faccount".toList "cluster".toList
      "faccount".toList "project".toList (by decide) (by decide)).2.1,
   (validateProjectPermissions_spec id id exampleOse "faccount".toList "cluster".toList
      "faccount".toList "project".toList (by decide) (by decide)).2.2.1 (by decide),
   by decide⟩

/-! ## The size of a volume, server side (C24, C29) -/

theorem hasSuffix_singleton_iff (s : Str) (m : Char) :
    hasSuffix s [m] = true ↔ s.getLast? = some m := by
  constructor
  · intro h
    obtain ⟨a, ha⟩ := hasSuffix_singleton h
    subst ha
    simp
  · intro h
    obtain ⟨a, ha⟩ : ∃ a, s = a ++ [m] := by
      rcases List.eq_nil_or_concat s with h0 | ⟨a, b, hab⟩
      · subst h0; simp at h
      · subst hab
        simp at h
        exact ⟨a, by simp [h]⟩
    subst ha
    rw [hasSuffix_concat]
    simp

/-- C24: `validateSizeFormat(size, "nfs")` succeeds iff the size ends in `G`; for every
other technology it succeeds iff the size ends in `M` or in `G`. -/
theorem validateSizeFormat_iff (size technology : Str) (h : technology ≠ "nfs".toList) :
    (validateSizeFormat size "nfs".toList = none ↔ size.getLast? = some 'G') ∧
    (validateSizeFormat size technology = none ↔
      size.getLast? = some 'M' ∨ size.getLast? = some 'G') := by
  have hG := hasSuffix_singleton_iff size 'G'
  have hM := hasSuffix_singleton_iff size 'M'
  constructor
  · unfold validateSizeFormat
    rw [if_pos rfl]
    by_cases hg : hasSuffix size "G".toList = true
    · rw [if_pos hg]
      exact ⟨fun _ => hG.mp hg, fun _ => rfl⟩
    · rw [if_neg hg]
      exact ⟨fun h0 => (by cases h0), fun h0 => absurd (hG.mpr h0) hg⟩
  · unfold validateSizeFormat
    rw [if_neg h]
    by_cases hmg : (hasSuffix size "M".toList || hasSuffix size "G".toList) = true
    · rw [if_pos hmg]
      refine ⟨fun _ => ?_, fun _ => rfl⟩
      rcases Bool.or_eq_true _ _ ▸ hmg with h1 | h1
      · exact Or.inl (hM.mp h1)
      · exact Or.inr (hG.mp h1)
    · rw [if_neg hmg]
      refine ⟨fun h0 => (by cases h0), fun h0 => ?_⟩
      exfalso
      apply hmg
      rcases h0 with h1 | h1
      · rw [show hasSuffix size "M".toList = true from hM.mpr h1]; rfl
      · rw [show hasSuffix size "G".toList = true from hG.mpr h1]; simp

/-- Witness for C24: the technology `any` of `validateGrowVolume`. -/
theorem validateSizeFormat_iff_witness :
    (validateSizeFormat "500M".toList "nfs".toList = none ↔
      ("500M".toList).getLast? = some 'G') ∧
    (validateSizeFormat "500M".toList "any".toList = none ↔
      ("500M".toList).getLast? = some 'M' ∨ ("500M".toList).getLast? = some 'G') :=
  validateSizeFormat_iff "500M".toList "any".toList (by decide)

/-- The sizes `<n>M` with `n < 500` are rejected with the limit error. -/
theorem validateSize_rejects_small_M (maxGB : Int) (n : Nat) (h0 : 0 < maxGB) (hn : n < 500) :
    validateSize maxGB (natToStr n ++ "M".toList) = some (some (wrongSizeLimitError 1024 maxGB)) := by
  have hsuf : hasSuffix (natToStr n ++ "M".toList) "M".toList = true :=
    hasSuffix_concat (natToStr n) 'M' 'M'
  have hrep : replaceFirst "M".toList [] (natToStr n ++ "M".toList) = natToStr n :=
    replaceFirst_single_of_not_mem 'M' _ (not_mem_natToStr n 'M' (by decide))
  have hr : (n : Int) ≤ maxInt := by
    have : (n : Int) < 500 := by exact_mod_cast hn
    unfold maxInt
    omega
  have hlt : (n : Int) < 500 := by exact_mod_cast hn
  unfold validateSize
  rw [if_neg (by omega)]
  unfold validateSizeM
  simp only [hsuf, hrep, atoi_natToStr, if_pos hr, if_true, if_pos hlt]

/-- C29 on the code: every size `<n>M` with `n < 500` is rejected, but no minimum is
checked for the suffix `G`: the sizes `0G` and `-1G`, which are below `1G` (and below
`500M`), are accepted. -/
theorem validateSize_minimum (maxGB : Int) (n : Nat) (h0 : 0 < maxGB) (hn : n < 500) :
    validateSize maxGB (natToStr n ++ "M".toList) ≠ some none ∧
    validateSize maxGB "0G".toList = some none ∧
    validateSize maxGB "-1G".toList = some none := by
  refine ⟨?_, ?_, ?_⟩
  · rw [validateSize_rejects_small_M maxGB n h0 hn]
    simp
  · unfold validateSize
    rw [if_neg (by omega)]
    have hM : validateSizeM maxGB "0G".toList = none := by
      unfold validateSizeM
      rw [if_neg (by decide)]
    rw [hM]
    unfold validateSizeG
    rw [if_pos (by decide)]
    have ha : atoi (replaceFirst "G".toList [] "0G".toList) = .ok 0 := by decide
    rw [ha]
    simp only
    rw [if_neg (by omega)]
  · unfold validateSize
    rw [if_neg (by omega)]
    have hM : validateSizeM maxGB "-1G".toList = none := by
      unfold validateSizeM
      rw [if_neg (by decide)]
    rw [hM]
    unfold validateSizeG
    rw [if_pos (by decide)]
    have ha : atoi (replaceFirst "G".toList [] "-1G".toList) = .ok (-1) := by decide
    rw [ha]
    simp only
    rw [if_neg (by omega)]

/-- Witness for C29, with `max_volume_gb = 100`: `499M` is rejected, `0G` and `-1G` are
accepted. -/
theorem validateSize_minimum_witness :
    validateSize 100 (natToStr 499 ++ "M".toList) ≠ some none ∧
    validateSize 100 "0G".toList = some none ∧
    validateSize 100 "-1G".toList = some none :=
  validateSize_minimum 100 499 (by decide) (by decide)

/-! ## The caller-supplied server data (C28) -/

theorem checkServers_of_ids (u : Char → Char) (groups : List Str) (allServers : List OtcServer) :
    ∀ (servers1 servers2 : List OtcServer),
      servers1.map OtcServer.ID = servers2.map OtcServer.ID →
      checkServers u groups allServers servers1 = checkServers u groups allServers servers2 := by
  intro servers1
  induction servers1 with
  | nil =>
    intro servers2 h
    cases servers2 with
    | nil => rfl
    | cons s rest => simp at h
  | cons s1 rest1 ih =>
    intro servers2 h
    cases servers2 with
    | nil => simp at h
    | cons s2 rest2 =>
      simp only [List.map_cons, List.cons.injEq] at h
      unfold checkServers
      rw [h.1, ih rest2 h.2]

/-- C28: `validatePermissions` gives the same result for two requests that list the same
server ids, whatever names and metadata the caller supplies for those servers. -/
theorem validatePermissions_ignores_supplied_metadata (u : Char → Char) (env : OtcEnv)
    (servers1 servers2 : List OtcServer) (username : Str)
    (h : servers1.map OtcServer.ID = servers2.map OtcServer.ID) :
    validatePermissions u env servers1 username = validatePermissions u env servers2 username := by
  unfold validatePermissions
  cases getGroups u env username with
  | error e => rfl
  | panic => rfl
  | ok groups =>
    simp only
    by_cases hb : ContainsStringI u groups adminGroup = true
    · rw [if_pos hb, if_pos hb]
    · rw [if_neg hb, if_neg hb]
      cases env.allServers username with
      | error e => rfl
      | ok allServers =>
        simp only
        rw [checkServers_of_ids u groups allServers servers1 servers2 h]

/-- Witness for C28: a request for the server `s2`, which belongs to another team, with
a forged `uos_group`, is answered like the request without it: with the error. -/
theorem validatePermissions_ignores_supplied_metadata_witness :
    validatePermissions id exampleOtc
        [⟨"s2".toList, "web1".toList, [("uos_group".toList, "DG_TEAM_A".toList)]⟩] "bob".toList =
      validatePermissions id exampleOtc [⟨"s2".toList, [], []⟩] "bob".toList :=
  validatePermissions_ignores_supplied_metadata id exampleOtc _ _ _ (by decide)

/-- Example for C28: both requests of the witness are refused, and the request for the
server `s1` of the own team is granted. -/
theorem validatePermissions_supplied_metadata_example :
    validatePermissions id exampleOtc
        [⟨"s2".toList, "web1".toList, [("uos_group".toList, "DG_TEAM_A".toList)]⟩] "bob".toList =
      .error (.text genericOTCAPIError) ∧
    validatePermissions id exampleOtc [⟨"s1".toList, [], []⟩] "bob".toList = .ok () := by
  refine ⟨by decide, by decide⟩

/-! ## The survey specification (C22) -/

theorem objGet_eq_none_iff (m : List (Str × Json)) (k : Str) :
    objGet m k = none ↔ k ∉ m.map Prod.fst := by
  induction m with
  | nil => simp [objGet]
  | cons kv m ih =>
    obtain ⟨k1, v1⟩ := kv
    by_cases h : k1 = k
    · simp [objGet, h]
    · have h2 : ¬ k = k1 := fun e => h e.symm
      simp [objGet, h, h2, ih]

theorem objGet_append_of_none (m x : List (Str × Json)) (k : Str) (h : objGet m k = none) :
    objGet (m ++ x) k = objGet x k := by
  induction m with
  | nil => rfl
  | cons kv m ih =>
    obtain ⟨k1, v1⟩ := kv
    by_cases h1 : k1 = k
    · simp [objGet, h1] at h
    · simp only [objGet, if_neg h1] at h
      simp only [List.cons_append, objGet, if_neg h1]
      exact ih h

theorem objSet_of_none (m : List (Str × Json)) (k : Str) (v : Json) (h : objGet m k = none) :
    objSet m k v = m ++ [(k, v)] := by
  induction m with
  | nil => rfl
  | cons kv m ih =>
    obtain ⟨k1, v1⟩ := kv
    by_cases h1 : k1 = k
    · simp [objGet, h1] at h
    · simp only [objGet, if_neg h1] at h
      simp only [objSet, if_neg h1, List.cons_append, ih h]

theorem objSet_append_of_none (m : List (Str × Json)) (k : Str) (v0 v : Json)
    (h : objGet m k = none) : objSet (m ++ [(k, v0)]) k v = m ++ [(k, v)] := by
  induction m with
  | nil => simp [objSet]
  | cons kv m ih =>
    obtain ⟨k1, v1⟩ := kv
    by_cases h1 : k1 = k
    · simp [objGet, h1] at h
    · simp only [objGet, if_neg h1] at h
      simp only [List.cons_append, objSet, if_neg h1, List.append_eq, ih h]

theorem objGet_append_self (m : List (Str × Json)) (k : Str) (v : Json)
    (h : objGet m k = none) : objGet (m ++ [(k, v)]) k = some v := by
  rw [objGet_append_of_none m _ k h]
  simp [objGet]

/-- The first `Set` of `addSpecsMap` for a variable name, when no `specsMap` or no entry
of that name exists yet. -/
theorem set_absent (lib : GabsArrays) (fields sm : List (Str × Json)) (name k : Str) (v : Json)
    (hno : objGet fields "specsMap".toList = none) (hname : objGet sm name = none) :
    Set lib (withSpecsMap fields sm) v ["specsMap".toList, name, k] =
      .ok (withSpecsMap fields (sm ++ [(name, .object [(k, v)])])) := by
  cases sm with
  | nil =>
    simp only [withSpecsMap, Set, hno, Option.getD_none, List.nil_append,
      objSet_of_none fields _ _ hno]
  | cons entry sm =>
    simp only [withSpecsMap, Set, objGet_append_self fields _ _ hno, Option.getD_some, hname,
      Option.getD_none, objSet_append_of_none fields _ _ _ hno,
      objSet_of_none (entry :: sm) _ _ hname, List.cons_append]

/-- A later `Set` of `addSpecsMap` for a variable name whose entry exists. -/
theorem set_present (lib : GabsArrays) (fields sm E : List (Str × Json)) (name k : Str)
    (v : Json) (hno : objGet fields "specsMap".toList = none) (hname : objGet sm name = none) :
    Set lib (withSpecsMap fields (sm ++ [(name, .object E)])) v ["specsMap".toList, name, k] =
      .ok (withSpecsMap fields (sm ++ [(name, .object (objSet E k v))])) := by
  have hcons : ∀ x : Str × Json, ∃ e r, sm ++ [x] = e :: r := by
    intro x
    cases sm with
    | nil => exact ⟨x, [], rfl⟩
    | cons e r => exact ⟨e, r ++ [x], rfl⟩
  obtain ⟨e1, r1, h1⟩ := hcons (name, .object E)
  obtain ⟨e2, r2, h2⟩ := hcons (name, .object (objSet E k v))
  have key : Set lib (.object (fields ++ [("specsMap".toList, .object (sm ++ [(name, .object E)]))]))
      v ["specsMap".toList, name, k] =
      .ok (.object (fields ++ [("specsMap".toList,
        .object (sm ++ [(name, .object (objSet E k v))]))])) := by
    simp only [Set, objGet_append_self fields _ _ hno, Option.getD_some,
      objGet_append_self sm _ _ hname, objSet_append_of_none fields _ _ _ hno,
      objSet_append_of_none sm _ _ _ hname]
  rw [h1, h2]
  simp only [withSpecsMap]
  rw [← h1, ← h2]
  exact key

theorem setSpecFields_present (lib : GabsArrays) (fields sm : List (Str × Json)) (name : Str)
    (hno : objGet fields "specsMap".toList = none) (hname : objGet sm name = none) :
    ∀ (L E : List (Str × Json)), ((E ++ L).map Prod.fst).Nodup →
      setSpecFields lib name L (withSpecsMap fields (sm ++ [(name, .object E)])) =
        (withSpecsMap fields (sm ++ [(name, .object (E ++ L))]), none) := by
  intro L
  induction L with
  | nil => intro E _; simp [setSpecFields]
  | cons kv L ih =>
    intro E hnd
    obtain ⟨k, v⟩ := kv
    have hk : objGet E k = none := by
      rw [objGet_eq_none_iff]
      intro hmem
      rw [List.map_append, List.nodup_append] at hnd
      exact hnd.2.2 hmem (by simp)
    have hnd2 : (((E ++ [(k, v)]) ++ L).map Prod.fst).Nodup := by
      simpa using hnd
    unfold setSpecFields
    rw [set_present lib fields sm E name k v hno hname, objSet_of_none E k v hk]
    simp only
    rw [ih (E ++ [(k, v)]) hnd2]
    simp

theorem setSpecFields_absent (lib : GabsArrays) (fields sm : List (Str × Json)) (name : Str)
    (hno : objGet fields "specsMap".toList = none) (hname : objGet sm name = none)
    (kv : Str × Json) (L : List (Str × Json)) (hnd : ((kv :: L).map Prod.fst).Nodup) :
    setSpecFields lib name (kv :: L) (withSpecsMap fields sm) =
      (withSpecsMap fields (sm ++ [(name, .object (kv :: L))]), none) := by
  obtain ⟨k, v⟩ := kv
  unfold setSpecFields
  rw [set_absent lib fields sm name k v hno hname]
  simp only
  rw [setSpecFields_present lib fields sm name hno hname L [(k, v)] (by simpa using hnd)]
  simp

theorem search_nil (lib : GabsArrays) (j : Json) : Search lib j [] = j := by
  cases j <;> rfl

theorem variableName_object (lib : GabsArrays) (fs : List (Str × Json)) :
    variableName lib (.object fs) = variableOf fs := by
  unfold variableName variableOf
  unfold Search
  cases h : objGet fs "variable".toList with
  | none => rfl
  | some child =>
    simp only [search_nil]
    cases child <;> rfl

theorem addSpecsMapFrom_step (lib : GabsArrays) (ord : List (Str × Json) → List (Str × Json))
    (index : Nat) (spec : Json) (rest : List Json) (details : Json) :
    addSpecsMapFrom lib ord index (spec :: rest) details =
      match setSpecFields lib (variableName lib spec) (ord (ChildrenMap spec)) details with
      | (details1, some e) => (details1, some e)
      | (details1, none) =>
        match Set lib details1 (.number (natToStr index))
            ["specsMap".toList, variableName lib spec, "index".toList] with
        | .error _ => addSpecsMapFrom lib ord (index + 1) rest details1
        | .ok details2 => addSpecsMapFrom lib ord (index + 1) rest details2 := by
  rw [addSpecsMapFrom]

/-- One round of the loop of `addSpecsMap`: the fields of the entry and its index are
set under the variable name of the entry. -/
theorem addSpecsMapFrom_cons (lib : GabsArrays) (ord : List (Str × Json) → List (Str × Json))
    (fields sm fs : List (Str × Json)) (rest : List Json) (index : Nat)
    (hord : ∀ l, (ord l).Perm l)
    (hno : objGet fields "specsMap".toList = none)
    (hname : objGet sm (variableOf fs) = none)
    (hkeys : (fs.map Prod.fst).Nodup)
    (hindex : objGet fs "index".toList = none) :
    addSpecsMapFrom lib ord index (.object fs :: rest) (withSpecsMap fields sm) =
      addSpecsMapFrom lib ord (index + 1) rest
        (withSpecsMap fields (sm ++ [(variableOf fs, specsMapEntry (ord fs) index)])) := by
  have hkeys2 : ((ord fs).map Prod.fst).Nodup :=
    (((hord fs).map Prod.fst).nodup_iff).mpr hkeys
  have hindex2 : objGet (ord fs) "index".toList = none := by
    rw [objGet_eq_none_iff] at hindex ⊢
    intro hmem
    exact hindex ((((hord fs).map Prod.fst).mem_iff).mp hmem)
  rw [addSpecsMapFrom_step, variableName_object]
  simp only [ChildrenMap]
  cases hL : ord fs with
  | nil =>
    simp only [setSpecFields]
    rw [set_absent lib fields sm _ _ _ hno hname]
    simp only [specsMapEntry, List.nil_append]
  | cons kv L =>
    rw [hL] at hkeys2 hindex2
    rw [setSpecFields_absent lib fields sm _ hno hname kv L hkeys2]
    simp only
    rw [set_present lib fields sm (kv :: L) _ _ _ hno hname, objSet_of_none _ _ _ hindex2]
    simp only [specsMapEntry]

theorem objGet_append_entry_ne (sm : List (Str × Json)) (name other : Str) (v : Json)
    (h : objGet sm other = none) (hne : name ≠ other) :
    objGet (sm ++ [(name, v)]) other = none := by
  rw [objGet_append_of_none sm _ other h]
  simp [objGet, hne]

theorem addSpecsMapFrom_spec (lib : GabsArrays) (ord : List (Str × Json) → List (Str × Json))
    (fields : List (Str × Json)) (hord : ∀ l, (ord l).Perm l)
    (hno : objGet fields "specsMap".toList = none) :
    ∀ (objs : List (List (Str × Json))) (index : Nat) (sm : List (Str × Json)),
      (objs.map variableOf).Nodup →
      (∀ fs ∈ objs, objGet sm (variableOf fs) = none) →
      (∀ fs ∈ objs, (fs.map Prod.fst).Nodup) →
      (∀ fs ∈ objs, objGet fs "index".toList = none) →
      addSpecsMapFrom lib ord index (objs.map Json.object) (withSpecsMap fields sm) =
        (withSpecsMap fields (sm ++ specsMapEntries ord index objs), none) := by
  intro objs
  induction objs with
  | nil =>
    intro index sm _ _ _ _
    simp [addSpecsMapFrom, specsMapEntries]
  | cons fs objs ih =>
    intro index sm hnames hsm hkeys hindex
    rw [List.map_cons, List.nodup_cons] at hnames
    rw [List.map_cons, addSpecsMapFrom_cons lib ord fields sm fs _ index hord hno
      (hsm fs (by simp)) (hkeys fs (by simp)) (hindex fs (by simp))]
    rw [ih (index + 1) _ hnames.2 ?_ (fun g hg => hkeys g (by simp [hg]))
      (fun g hg => hindex g (by simp [hg]))]
    · simp [specsMapEntries]
    · intro g hg
      apply objGet_append_entry_ne sm _ _ _ (hsm g (by simp [hg]))
      intro e
      exact hnames.1 (by rw [e]; exact List.mem_map_of_mem _ hg)

theorem objGet_eq_some_iff (m : List (Str × Json)) (hnd : (m.map Prod.fst).Nodup) (k : Str)
    (v : Json) : objGet m k = some v ↔ (k, v) ∈ m := by
  induction m with
  | nil => simp [objGet]
  | cons kv m ih =>
    obtain ⟨k1, v1⟩ := kv
    rw [List.map_cons, List.nodup_cons] at hnd
    by_cases h : k1 = k
    · subst h
      have hnot : (k1, v) ∉ m := fun hmem => hnd.1 (List.mem_map.mpr ⟨(k1, v), hmem, rfl⟩)
      simp only [objGet, if_true, Option.some.injEq, List.mem_cons, Prod.mk.injEq, true_and]
      constructor
      · intro e; exact Or.inl e.symm
      · rintro (e | e)
        · exact e.symm
        · exact absurd e hnot
    · have h2 : ¬ k = k1 := fun e => h e.symm
      simp only [objGet, if_neg h, List.mem_cons, Prod.mk.injEq, h2, false_and, false_or]
      exact ih hnd.2

theorem objGet_of_perm (l1 l2 : List (Str × Json)) (hp : l1.Perm l2)
    (hnd : (l2.map Prod.fst).Nodup) (k : Str) : objGet l1 k = objGet l2 k := by
  have hnd1 : (l1.map Prod.fst).Nodup := ((hp.map Prod.fst).nodup_iff).mpr hnd
  cases h2 : objGet l2 k with
  | none =>
    rw [objGet_eq_none_iff] at h2 ⊢
    exact fun hmem => h2 (((hp.map Prod.fst).mem_iff).mp hmem)
  | some v =>
    rw [objGet_eq_some_iff l2 hnd] at h2
    rw [objGet_eq_some_iff l1 hnd1]
    exact hp.mem_iff.mpr h2

theorem objGet_append_ne (m : List (Str × Json)) (k0 k : Str) (v : Json) (h : k0 ≠ k) :
    objGet (m ++ [(k0, v)]) k = objGet m k := by
  induction m with
  | nil => simp [objGet, h]
  | cons kv m ih =>
    obtain ⟨k1, v1⟩ := kv
    by_cases h1 : k1 = k
    · simp [objGet, h1]
    · simp only [List.cons_append, objGet, if_neg h1, List.append_eq, ih]

theorem objGet_specsMapEntries (ord : List (Str × Json) → List (Str × Json)) :
    ∀ (objs : List (List (Str × Json))) (index i : Nat) (hi : i < objs.length),
      (objs.map variableOf).Nodup →
      objGet (specsMapEntries ord index objs) (variableOf (objs.get ⟨i, hi⟩)) =
        some (specsMapEntry (ord (objs.get ⟨i, hi⟩)) (index + i)) := by
  intro objs
  induction objs with
  | nil => intro index i hi; simp at hi
  | cons fs objs ih =>
    intro index i hi hnames
    rw [List.map_cons, List.nodup_cons] at hnames
    cases i with
    | zero => simp [specsMapEntries, objGet]
    | succ i =>
      have hi2 : i < objs.length := by simpa using hi
      have hne : variableOf fs ≠ variableOf (objs.get ⟨i, hi2⟩) := by
        intro e
        exact hnames.1 (by rw [e]; exact List.mem_map_of_mem _ (List.get_mem _ _ _))
      have hget : (fs :: objs).get ⟨i + 1, hi⟩ = objs.get ⟨i, hi2⟩ := rfl
      rw [hget]
      simp only [specsMapEntries, objGet, if_neg hne]
      rw [ih (index + 1) i hi2 hnames.2]
      congr 2
      omega

theorem objGet_specsMapEntries_none (ord : List (Str × Json) → List (Str × Json)) :
    ∀ (objs : List (List (Str × Json))) (index : Nat) (v : Str), v ∉ objs.map variableOf →
      objGet (specsMapEntries ord index objs) v = none := by
  intro objs
  induction objs with
  | nil => intro index v _; rfl
  | cons fs objs ih =>
    intro index v hv
    rw [List.map_cons, List.mem_cons, not_or] at hv
    have hne : variableOf fs ≠ v := fun e => hv.1 e.symm
    simp only [specsMapEntries, objGet, if_neg hne]
    exact ih (index + 1) v hv.2

/-- C22, as amended.  For details that are an object without a field `specsMap`, whose
field `spec` is an array of objects with pairwise distinct variable names, none of which
has a key `index`: when `spec` has no entry `addSpecsMap` returns `nil` and adds nothing;
otherwise it returns `nil` and adds one field, the object `specsMap`, after the fields of
the details, which it leaves as they are.  `specsMap` holds, under the variable name of
the entry at position `i`, an object with `index = i` and, for every other key, the value
of the entry, and it holds nothing under any other name. -/
theorem addSpecsMap_adds_entries (lib : GabsArrays) (ord : List (Str × Json) → List (Str × Json))
    (ordChildren : List Json → List Json) (fields : List (Str × Json))
    (objs : List (List (Str × Json)))
    (hord : ∀ l, (ord l).Perm l)
    (hspec : objGet fields "spec".toList = some (.array (objs.map Json.object)))
    (hno : objGet fields "specsMap".toList = none)
    (hnames : (objs.map variableOf).Nodup)
    (hkeys : ∀ fs ∈ objs, (fs.map Prod.fst).Nodup)
    (hindex : ∀ fs ∈ objs, objGet fs "index".toList = none) :
    addSpecsMap lib ord ordChildren (.object fields) =
      (withSpecsMap fields (specsMapEntries ord 0 objs), none) ∧
    (∀ (i : Nat) (hi : i < objs.length),
      ∃ entry, objGet (specsMapEntries ord 0 objs) (variableOf (objs.get ⟨i, hi⟩)) =
          some (.object entry) ∧
        objGet entry "index".toList = some (.number (natToStr i)) ∧
        ∀ k, k ≠ "index".toList → objGet entry k = objGet (objs.get ⟨i, hi⟩) k) ∧
    (∀ v, v ∉ objs.map variableOf → objGet (specsMapEntries ord 0 objs) v = none) := by
  refine ⟨?_, ?_, ?_⟩
  · unfold addSpecsMap
    have hsearch : Search lib (.object fields) ["spec".toList] = .array (objs.map Json.object) := by
      unfold Search
      rw [hspec]
      simp only [search_nil]
    rw [hsearch]
    simp only [Children]
    have h := addSpecsMapFrom_spec lib ord fields hord hno objs 0 [] hnames
      (fun _ _ => rfl) hkeys hindex
    simpa [withSpecsMap] using h
  · intro i hi
    have hfs : objs.get ⟨i, hi⟩ ∈ objs := List.get_mem _ _ _
    have hk2 : ((objs.get ⟨i, hi⟩).map Prod.fst).Nodup := hkeys _ hfs
    have hindex2 : objGet (ord (objs.get ⟨i, hi⟩)) "index".toList = none := by
      rw [objGet_of_perm _ _ (hord _) hk2]
      exact hindex _ hfs
    refine ⟨ord (objs.get ⟨i, hi⟩) ++ [("index".toList, .number (natToStr i))], ?_, ?_, ?_⟩
    · rw [objGet_specsMapEntries ord objs 0 i hi hnames]
      simp [specsMapEntry]
    · exact objGet_append_self _ _ _ hindex2
    · intro k hk
      rw [objGet_append_ne _ _ _ _ (fun e => hk e.symm), objGet_of_perm _ _ (hord _) hk2]
  · intro v hv
    exact objGet_specsMapEntries_none ord objs 0 v hv

/-- Witness for C22: the details of the test `TestAddSpecsMap`. -/
theorem addSpecsMap_adds_entries_witness :
    addSpecsMap exampleGabs id id testDetails =
      (.object
        [ ("description".toList, .string []),
          ("name".toList, .string []),
          ("spec".toList, .array
            [ .object [ ("required".toList, .bool true),
                        ("variable".toList, .string "unifiedos_image".toList) ],
              .object [ ("default".toList, .number "10".toList),
                        ("variable".toList, .string "unifiedos_data_disk_size".toList) ] ]),
          ("specsMap".toList, .object
            [ ("unifiedos_image".toList, .object
                [ ("required".toList, .bool true),
                  ("variable".toList, .string "unifiedos_image".toList),
                  ("index".toList, .number "0".toList) ]),
              ("unifiedos_data_disk_size".toList, .object
                [ ("default".toList, .number "10".toList),
                  ("variable".toList, .string "unifiedos_data_disk_size".toList),
                  ("index".toList, .number "1".toList) ]) ]) ], none) :=
  (addSpecsMap_adds_entries exampleGabs id id
    [ ("description".toList, .string []),
      ("name".toList, .string []),
      ("spec".toList, .array
        [ .object [ ("required".toList, .bool true),
                    ("variable".toList, .string "unifiedos_image".toList) ],
          .object [ ("default".toList, .number "10".toList),
                    ("variable".toList, .string "unifiedos_data_disk_size".toList) ] ]) ]
    [ [ ("required".toList, .bool true),
        ("variable".toList, .string "unifiedos_image".toList) ],
      [ ("default".toList, .number "10".toList),
        ("variable".toList, .string "unifiedos_data_disk_size".toList) ] ]
    (fun l => List.Perm.refl l) rfl rfl (by decide) (by decide)
    (by intro fs hfs
        simp only [List.mem_cons, List.mem_singleton, List.not_mem_nil, or_false] at hfs
        rcases hfs with h | h <;> subst h <;> rfl)).1

/-- Counterexample to C22 as stated: for details whose `spec` has no entry, and for the
empty details of a template without a survey, no `specsMap` is added; of two entries with
the same variable name, `specsMap` holds the later one only. -/
theorem addSpecsMap_empty_spec_counterexample :
    addSpecsMap exampleGabs id id
        (.object [("name".toList, .string []), ("spec".toList, .array [])]) =
      (.object [("name".toList, .string []), ("spec".toList, .array [])], none) ∧
    (objGet (ChildrenMap (addSpecsMap exampleGabs id id
        (.object [("name".toList, .string []), ("spec".toList, .array [])])).1)
      "specsMap".toList).isNone = true ∧
    addSpecsMap exampleGabs id id (.object []) = (.object [], none) ∧
    addSpecsMap exampleGabs id id
        (.object [("spec".toList, .array
          [ .object [("variable".toList, .string "size".toList), ("min".toList, .number "1".toList)],
            .object [("variable".toList, .string "size".toList),
                     ("max".toList, .number "9".toList)] ])]) =
      (.object
        [ ("spec".toList, .array
            [ .object [("variable".toList, .string "size".toList),
                       ("min".toList, .number "1".toList)],
              .object [("variable".toList, .string "size".toList),
                       ("max".toList, .number "9".toList)] ]),
          ("specsMap".toList, .object
            [ ("size".toList, .object
                [ ("variable".toList, .string "size".toList),
                  ("min".toList, .number "1".toList),
                  ("index".toList, .number "1".toList),
                  ("max".toList, .number "9".toList) ]) ]) ], none) := by
  refine ⟨rfl, rfl, rfl, rfl⟩

end Server
